import Mathlib

/-! # SummaryEditor: a verification development

Shallow embedding of `front_end/src/components/dashboard/SummaryEditor.jsx`
(the summary edit form of Medhira) and proofs of its specified properties.

Conventions of the embedding.

* A JavaScript string is the list of its UTF-16 code units (`Str`). A code unit
  is carried as a character: itself when it is not a surrogate, and the
  character `U+10F800 + (u - 0xD800)` when it is the surrogate `u`, so that a
  string with a surrogate that has no partner is held as well. A character
  from `U+10000` to `U+10F7FF` in a text of this file stands for its two code units.
* JavaScript values are the inductive type `JSVal`. A number is a binary64
  value, carried as the text that `Number::toString` gives for it (`Number`);
  the program does no arithmetic.
* A JavaScript object is its list of own enumerable properties in
  `[[OwnPropertyKeys]]` order: array-index keys in ascending numeric order,
  then the other string keys in creation order (`Record`).
* A handler is the list of the observable events it performs, in program
  order (`Event`); calls of the React state setters are events, and the
  component state after the handler is obtained by replaying them.
* An `await` splits a handler in the part that runs before the promise
  settles and the part that runs after it.
-/

namespace SummaryEditor

/-! ## Values -/

/-- A JavaScript string: its code units. -/
abbrev Str := List Char

/-- JavaScript values. -/
inductive JSVal where
  | undefined
  | null
  | bool (b : Bool)
  | num (text : Str)
  | str (s : Str)
  | arr (items : List JSVal)
  | obj (fields : List (Str × JSVal))

instance : Inhabited JSVal := ⟨JSVal.undefined⟩

mutual
/-- Decision of the equality of two values. -/
def JSVal.decEq : (a b : JSVal) → Decidable (a = b)
  | JSVal.undefined, JSVal.undefined => isTrue rfl
  | JSVal.undefined, JSVal.null => isFalse (fun e => JSVal.noConfusion e)
  | JSVal.undefined, JSVal.bool _ => isFalse (fun e => JSVal.noConfusion e)
  | JSVal.undefined, JSVal.num _ => isFalse (fun e => JSVal.noConfusion e)
  | JSVal.undefined, JSVal.str _ => isFalse (fun e => JSVal.noConfusion e)
  | JSVal.undefined, JSVal.arr _ => isFalse (fun e => JSVal.noConfusion e)
  | JSVal.undefined, JSVal.obj _ => isFalse (fun e => JSVal.noConfusion e)
  | JSVal.null, JSVal.undefined => isFalse (fun e => JSVal.noConfusion e)
  | JSVal.null, JSVal.null => isTrue rfl
  | JSVal.null, JSVal.bool _ => isFalse (fun e => JSVal.noConfusion e)
  | JSVal.null, JSVal.num _ => isFalse (fun e => JSVal.noConfusion e)
  | JSVal.null, JSVal.str _ => isFalse (fun e => JSVal.noConfusion e)
  | JSVal.null, JSVal.arr _ => isFalse (fun e => JSVal.noConfusion e)
  | JSVal.null, JSVal.obj _ => isFalse (fun e => JSVal.noConfusion e)
  | JSVal.bool _, JSVal.undefined => isFalse (fun e => JSVal.noConfusion e)
  | JSVal.bool _, JSVal.null => isFalse (fun e => JSVal.noConfusion e)
  | JSVal.bool x, JSVal.bool y =>
    if h : x = y then isTrue (h ▸ rfl) else isFalse (fun e => h (JSVal.bool.inj e))
  | JSVal.bool _, JSVal.num _ => isFalse (fun e => JSVal.noConfusion e)
  | JSVal.bool _, JSVal.str _ => isFalse (fun e => JSVal.noConfusion e)
  | JSVal.bool _, JSVal.arr _ => isFalse (fun e => JSVal.noConfusion e)
  | JSVal.bool _, JSVal.obj _ => isFalse (fun e => JSVal.noConfusion e)
  | JSVal.num _, JSVal.undefined => isFalse (fun e => JSVal.noConfusion e)
  | JSVal.num _, JSVal.null => isFalse (fun e => JSVal.noConfusion e)
  | JSVal.num _, JSVal.bool _ => isFalse (fun e => JSVal.noConfusion e)
  | JSVal.num x, JSVal.num y =>
    if h : x = y then isTrue (h ▸ rfl) else isFalse (fun e => h (JSVal.num.inj e))
  | JSVal.num _, JSVal.str _ => isFalse (fun e => JSVal.noConfusion e)
  | JSVal.num _, JSVal.arr _ => isFalse (fun e => JSVal.noConfusion e)
  | JSVal.num _, JSVal.obj _ => isFalse (fun e => JSVal.noConfusion e)
  | JSVal.str _, JSVal.undefined => isFalse (fun e => JSVal.noConfusion e)
  | JSVal.str _, JSVal.null => isFalse (fun e => JSVal.noConfusion e)
  | JSVal.str _, JSVal.bool _ => isFalse (fun e => JSVal.noConfusion e)
  | JSVal.str _, JSVal.num _ => isFalse (fun e => JSVal.noConfusion e)
  | JSVal.str x, JSVal.str y =>
    if h : x = y then isTrue (h ▸ rfl) else isFalse (fun e => h (JSVal.str.inj e))
  | JSVal.str _, JSVal.arr _ => isFalse (fun e => JSVal.noConfusion e)
  | JSVal.str _, JSVal.obj _ => isFalse (fun e => JSVal.noConfusion e)
  | JSVal.arr _, JSVal.undefined => isFalse (fun e => JSVal.noConfusion e)
  | JSVal.arr _, JSVal.null => isFalse (fun e => JSVal.noConfusion e)
  | JSVal.arr _, JSVal.bool _ => isFalse (fun e => JSVal.noConfusion e)
  | JSVal.arr _, JSVal.num _ => isFalse (fun e => JSVal.noConfusion e)
  | JSVal.arr _, JSVal.str _ => isFalse (fun e => JSVal.noConfusion e)
  | JSVal.arr x, JSVal.arr y =>
    match decEqItems x y with
    | isTrue h => isTrue (h ▸ rfl)
    | isFalse h => isFalse (fun e => h (JSVal.arr.inj e))
  | JSVal.arr _, JSVal.obj _ => isFalse (fun e => JSVal.noConfusion e)
  | JSVal.obj _, JSVal.undefined => isFalse (fun e => JSVal.noConfusion e)
  | JSVal.obj _, JSVal.null => isFalse (fun e => JSVal.noConfusion e)
  | JSVal.obj _, JSVal.bool _ => isFalse (fun e => JSVal.noConfusion e)
  | JSVal.obj _, JSVal.num _ => isFalse (fun e => JSVal.noConfusion e)
  | JSVal.obj _, JSVal.str _ => isFalse (fun e => JSVal.noConfusion e)
  | JSVal.obj _, JSVal.arr _ => isFalse (fun e => JSVal.noConfusion e)
  | JSVal.obj x, JSVal.obj y =>
    match decEqFields x y with
    | isTrue h => isTrue (h ▸ rfl)
    | isFalse h => isFalse (fun e => h (JSVal.obj.inj e))
termination_by structural a => a
/-- Decision of the equality of two lists of values. -/
def decEqItems : (a b : List JSVal) → Decidable (a = b)
  | [], [] => isTrue rfl
  | [], _ :: _ => isFalse (fun e => List.noConfusion e)
  | _ :: _, [] => isFalse (fun e => List.noConfusion e)
  | x :: xs, y :: ys =>
    match JSVal.decEq x y, decEqItems xs ys with
    | isTrue h1, isTrue h2 => isTrue (h1 ▸ h2 ▸ rfl)
    | isFalse h1, _ => isFalse (fun e => h1 (List.cons.inj e).1)
    | _, isFalse h2 => isFalse (fun e => h2 (List.cons.inj e).2)
termination_by structural a => a
/-- Decision of the equality of two lists of properties. -/
def decEqFields : (a b : List (Str × JSVal)) → Decidable (a = b)
  | [], [] => isTrue rfl
  | [], _ :: _ => isFalse (fun e => List.noConfusion e)
  | _ :: _, [] => isFalse (fun e => List.noConfusion e)
  | x :: xs, y :: ys =>
    match decEqField x y, decEqFields xs ys with
    | isTrue h1, isTrue h2 => isTrue (h1 ▸ h2 ▸ rfl)
    | isFalse h1, _ => isFalse (fun e => h1 (List.cons.inj e).1)
    | _, isFalse h2 => isFalse (fun e => h2 (List.cons.inj e).2)
termination_by structural a => a
/-- Decision of the equality of two properties. -/
def decEqField : (a b : Str × JSVal) → Decidable (a = b)
  | (k, v), (k', v') =>
    if hk : k = k' then
      match JSVal.decEq v v' with
      | isTrue hv => isTrue (hk ▸ hv ▸ rfl)
      | isFalse hv => isFalse (fun e => hv (Prod.mk.inj e).2)
    else isFalse (fun e => hk (Prod.mk.inj e).1)
termination_by structural a => a
end

instance : DecidableEq JSVal := JSVal.decEq

/-- The own enumerable properties of an object, in enumeration order. -/
abbrev Record := List (Str × JSVal)

/-- Value of a decimal digit. -/
def digitVal (c : Char) : Nat := c.toNat - 48

/-- Value of a string of decimal digits. -/
def decimalValue (s : Str) : Nat := s.foldl (fun acc c => 10 * acc + digitVal c) 0

/-- Array-index property keys: the canonical numeric strings of the integers
`0 .. 2^32 - 2`; such keys are enumerated first, in ascending order. -/
def arrayIndex? (k : Str) : Option Nat :=
  match k with
  | [] => none
  | c :: cs =>
    if (c :: cs).all Char.isDigit && (c != '0' || cs.isEmpty)
        && decide (decimalValue (c :: cs) < 4294967295) then
      some (decimalValue (c :: cs))
    else none

namespace Record

/-- The property keys, in enumeration order. -/
def keys (r : Record) : List Str := r.map Prod.fst

/-- Own-property test. -/
def has (r : Record) (k : Str) : Bool := r.any (fun kv => kv.1 == k)

/-- Own-property lookup. -/
def lookup (r : Record) (k : Str) : Option JSVal :=
  match r with
  | [] => none
  | (k', v) :: rest => if k' = k then some v else lookup rest k

/-- Property read `r.k` or `r[k]`: `undefined` when the property is missing. -/
def get (r : Record) (k : Str) : JSVal := (lookup r k).getD JSVal.undefined

/-- Assignment to an existing property: the value changes, the position does not. -/
def replace (r : Record) (k : Str) (v : JSVal) : Record :=
  match r with
  | [] => []
  | (k', v') :: rest => if k' = k then (k', v) :: rest else (k', v') :: replace rest k v

/-- Creation of a new array-index property `k` of index `n`: it goes before
the first property that is not an array index or has a larger index. -/
def insertIndex (r : Record) (n : Nat) (k : Str) (v : JSVal) : Record :=
  match r with
  | [] => [(k, v)]
  | (k', v') :: rest =>
    match arrayIndex? k' with
    | some m => if m < n then (k', v') :: insertIndex rest n k v else (k, v) :: (k', v') :: rest
    | none => (k, v) :: (k', v') :: rest

/-- The operation `CreateDataProperty(r, k, v)`: an existing property is
overwritten in place, a new one is created at its place in the enumeration order. -/
def set (r : Record) (k : Str) (v : JSVal) : Record :=
  if r.has k then r.replace k v
  else
    match arrayIndex? k with
    | some n => r.insertIndex n k v
    | none => r ++ [(k, v)]

/-- Object spread `{...source}` into `target`: every own enumerable property of
`source` is copied with `CreateDataProperty`, in enumeration order. -/
def spread (target source : Record) : Record :=
  source.foldl (fun acc kv => acc.set kv.1 kv.2) target

/-- An object literal `{k1: v1, k2: v2, ...}`. -/
def literal (props : List (Str × JSVal)) : Record := spread [] props

/-- The enumeration order of two keys: `a` may come before `b`. -/
def keyBefore (a b : Str) : Prop :=
  match arrayIndex? a, arrayIndex? b with
  | some m, some n => m < n
  | some _, none => True
  | none, some _ => False
  | none, none => True

instance (a b : Str) : Decidable (keyBefore a b) := by
  unfold keyBefore; split <;> infer_instance

/-- The states an object can be in: no key twice, and the keys in
enumeration order. -/
def WF (r : Record) : Prop := r.keys.Nodup ∧ r.keys.Pairwise keyBefore

instance (r : Record) : Decidable (WF r) := by
  unfold WF; infer_instance

end Record

/-! ## The form state manager -/

/-- The updater of `handleChange(field, value)`:
`prev => ({ ...prev, [field]: value })`. -/
def handleChange (field : Str) (value : JSVal) (prev : Record) : Record :=
  (Record.spread [] prev).set field value

/-- A sequence of edits `handleChange(field, value)` applied to the snapshot, first edit first. -/
def applyEdits (init : Record) (edits : List (Str × JSVal)) : Record :=
  edits.foldl (fun r e => handleChange e.1 e.2 r) init

/-- The value of the last edit of field `k`, if `k` was edited. -/
def lastEdit (edits : List (Str × JSVal)) (k : Str) : Option JSVal :=
  match edits with
  | [] => none
  | e :: rest =>
    match lastEdit rest k with
    | some v => some v
    | none => if e.1 = k then some e.2 else none

/-- The snapshot with the value of every edited field replaced by its last edit. -/
def withLastEdits (edits : List (Str × JSVal)) (r : Record) : Record :=
  r.map (fun kv => (kv.1, (lastEdit edits kv.1).getD kv.2))

/-- Strings of decimal digits that do not start with `0`. -/
def NoLeadingZero (s : Str) : Prop :=
  (∀ c ∈ s, c.isDigit = true) ∧ ∃ c cs, s = c :: cs ∧ c ≠ '0'


/-! ## Conversions and string operations -/

namespace JSVal

/-- The texts of the Number values that are not finite. -/
def notFinite (text : Str) : Bool :=
  text == "NaN".toList || text == "Infinity".toList || text == "-Infinity".toList

/-- The operation `ToBoolean`: the test of `if`, `||` and `&&`. A number is
falsy when it is `0`, `-0` or `NaN`. -/
def truthy : JSVal → Bool
  | undefined => false
  | null => false
  | bool b => b
  | num text => !(text == "0".toList || text == "-0".toList || text == "NaN".toList)
  | str s => !s.isEmpty
  | arr _ => true
  | obj _ => true

mutual
/-- The operation `ToString`, as applied to the substitutions of a template literal. -/
def toStr : JSVal → Str
  | undefined => "undefined".toList
  | null => "null".toList
  | bool true => "true".toList
  | bool false => "false".toList
  | num text => if text == "-0".toList then "0".toList else text
  | str s => s
  | arr items => joinItems items
  | obj _ => "[object Object]".toList
termination_by structural v => v
/-- The result of `Array.prototype.join` with the separator `,`. -/
def joinItems : List JSVal → Str
  | [] => []
  | x :: rest =>
    (match x with
     | undefined => []
     | null => []
     | v => toStr v) ++ (if rest.isEmpty then [] else ',' :: joinItems rest)
termination_by structural items => items
end

mutual
/-- The operation `ToString` completes on the value. It throws a `TypeError` on
an object with an own property `toString`: the property hides
`Object.prototype.toString`, the values of the embedding are data, none of which
can be called, and `Object.prototype.valueOf` returns the object itself. On a
list it converts the elements. -/
def convertible : JSVal → Bool
  | arr items => convertibleItems items
  | obj fields => !(Record.has fields "toString".toList)
  | _ => true
termination_by structural v => v
/-- The operation `ToString` completes on every element. -/
def convertibleItems : List JSVal → Bool
  | [] => true
  | x :: rest => convertible x && convertibleItems rest
termination_by structural items => items
end

/-- The expression `a || b`. -/
def orElse (a b : JSVal) : JSVal := if a.truthy then a else b

end JSVal

/-- Characters removed by `String.prototype.trim`: white space and line terminators. -/
def isTrimChar (c : Char) : Bool :=
  let n := c.toNat
  n == 0x09 || n == 0x0A || n == 0x0B || n == 0x0C || n == 0x0D || n == 0x20 || n == 0xA0
    || n == 0x1680 || (0x2000 ≤ n && n ≤ 0x200A) || n == 0x2028 || n == 0x2029
    || n == 0x202F || n == 0x205F || n == 0x3000 || n == 0xFEFF

/-- The method `String.prototype.trimStart`. -/
def trimStart (s : Str) : Str := s.dropWhile isTrimChar

/-- The method `String.prototype.trimEnd`. -/
def trimEnd (s : Str) : Str := (s.reverse.dropWhile isTrimChar).reverse

/-- The method `String.prototype.trim`. -/
def trim (s : Str) : Str := trimEnd (trimStart s)

/-- Number of positions of `s` at which `p` occurs. -/
def occurrences (p s : Str) : Nat :=
  match s with
  | [] => if p.isEmpty then 1 else 0
  | c :: cs => (if p.isPrefixOf (c :: cs) then 1 else 0) + occurrences p cs

/-- The method `s.split(sep)[0]` for a one-character separator. -/
def beforeFirst (sep : Char) (s : Str) : Str := s.takeWhile (fun c => c != sep)

/-! ## The clock

A clock reading is the time value of `Date.now()` or `new Date()`: the number of
milliseconds since 1970-01-01T00:00:00Z, at most `maxTimeValue`. -/

/-- The largest time value of a `Date`. -/
def maxTimeValue : Nat := 8640000000000000

/-- Milliseconds in a day. -/
def msPerDay : Nat := 86400000

/-- Year, month and day of the day number `days` (days since 1970-01-01) in the
proleptic Gregorian calendar. The days are counted from 0000-03-01 and split in
cycles of 400 years, centuries, cycles of 4 years and years starting in March. -/
def civilFromDays (days : Nat) : Nat × Nat × Nat :=
  let z := days + 719468
  let era := z / 146097
  let doe := z % 146097
  let c := min (doe / 36524) 3
  let doc := doe - c * 36524
  let q := doc / 1461
  let doq := doc % 1461
  let a := min (doq / 365) 3
  let doy := doq - a * 365
  let mp := (5 * doy + 2) / 153
  let d := doy - (153 * mp + 2) / 5 + 1
  let m := if mp < 10 then mp + 3 else mp - 9
  (era * 400 + c * 100 + q * 4 + a + (if m ≤ 2 then 1 else 0), m, d)

/-- The decimal digit of value `n`. -/
def digitChar (n : Nat) : Char := Char.ofNat (48 + n % 10)

/-- The last `width` decimal digits of `n`, zero padded. -/
def pad (width n : Nat) : Str :=
  match width with
  | 0 => []
  | w + 1 => pad w (n / 10) ++ [digitChar n]

/-- The year of `toISOString`: four digits, or a sign and six digits outside `0..9999`. -/
def isoYear (y : Nat) : Str := if y ≤ 9999 then pad 4 y else '+' :: pad 6 y

/-- The method `Date.prototype.toISOString` of the date with time value `t`. -/
def toISOString (t : Nat) : Str :=
  let ymd := civilFromDays (t / msPerDay)
  let r := t % msPerDay
  isoYear ymd.1 ++ '-' :: pad 2 ymd.2.1 ++ '-' :: pad 2 ymd.2.2 ++ 'T' :: pad 2 (r / 3600000)
    ++ ':' :: pad 2 (r / 60000 % 60) ++ ':' :: pad 2 (r / 1000 % 60) ++ '.' :: pad 3 (r % 1000)
    ++ ['Z']

/-- The result of `Number.prototype.toString` for a non-negative integer below `2^53`. -/
def natToString (n : Nat) : Str := Nat.toDigits 10 n

/-- Leap years of the Gregorian calendar. -/
def isLeapYear (y : Nat) : Bool := y % 4 == 0 && (y % 100 != 0 || y % 400 == 0)

/-- Number of days of month `m` of year `y`. -/
def daysInMonth (y m : Nat) : Nat :=
  if m == 2 then (if isLeapYear y then 29 else 28)
  else if m == 4 || m == 6 || m == 9 || m == 11 then 30
  else 31

/-- Day number (days since 1970-01-01, negative before) of a calendar date. -/
def daysFromCivil (y m d : Nat) : Int :=
  let y' : Nat := if m ≤ 2 then y - 1 else y
  let era := y' / 400
  let yoe := y' % 400
  let doy := (153 * (if m > 2 then m - 3 else m + 9) + 2) / 5 + d - 1
  let doe := yoe * 365 + yoe / 4 - yoe / 100 + doy
  (era * 146097 + doe : Nat) - 719468

/-- The input after the character `c`, when the input starts with it. -/
def expectChar (c : Char) (s : Str) : Option Str :=
  match s with
  | [] => none
  | x :: rest => if x = c then some rest else none

/-- A field of exactly `width` decimal digits, and the input after it. -/
def readField (width : Nat) (s : Str) : Option (Nat × Str) :=
  if width ≤ s.length ∧ (s.take width).all Char.isDigit = true then
    some (decimalValue (s.take width), s.drop width)
  else none

/-- The year of a date-time string: four digits, or `+` and six digits. -/
def readYear (s : Str) : Option (Nat × Str) :=
  if s.head? = some '+' then readField 6 (s.drop 1) else readField 4 s

/-- Time value of the fields of a date-time string, if every field is in range
and the time value is one of a `Date`. -/
def timeValueOfFields (y m d h mi sec ms : Nat) : Option Int :=
  if 1 ≤ m ∧ m ≤ 12 ∧ 1 ≤ d ∧ d ≤ daysInMonth y m ∧ h ≤ 23 ∧ mi ≤ 59 ∧ sec ≤ 59 then
    if (daysFromCivil y m d * 86400000
        + ((h * 3600000 + mi * 60000 + sec * 1000 + ms : Nat) : Int)).natAbs ≤ maxTimeValue then
      some (daysFromCivil y m d * 86400000
        + ((h * 3600000 + mi * 60000 + sec * 1000 + ms : Nat) : Int))
    else none
  else none

/-- The parts of a date-time format: a field of decimal digits or a separator. -/
inductive FormatPart where
  | digits (width : Nat)
  | sep (c : Char)

/-- The values of the fields of a string written in the given format, and the
input after it. -/
def readFormat : List FormatPart → Str → Option (List Nat × Str)
  | [], s => some ([], s)
  | FormatPart.digits width :: parts, s =>
    match readField width s with
    | some (n, rest) =>
      match readFormat parts rest with
      | some (fields, rest') => some (n :: fields, rest')
      | none => none
    | none => none
  | FormatPart.sep c :: parts, s =>
    match expectChar c s with
    | some rest => readFormat parts rest
    | none => none

/-- The format `-MM-DDTHH:mm:ss.sssZ` that follows the year. -/
def dateTimeFormat : List FormatPart :=
  [FormatPart.sep '-', FormatPart.digits 2, FormatPart.sep '-', FormatPart.digits 2,
   FormatPart.sep 'T', FormatPart.digits 2, FormatPart.sep ':', FormatPart.digits 2,
   FormatPart.sep ':', FormatPart.digits 2, FormatPart.sep '.', FormatPart.digits 3,
   FormatPart.sep 'Z']

/-- The function `Date.parse` on the date-time format that `toISOString` writes,
`YYYY-MM-DDTHH:mm:ss.sssZ` or `+YYYYYY-MM-DDTHH:mm:ss.sssZ`; `none` is `NaN`, an
invalid date. Years before year 0 and the other formats that `Date.parse` accepts
are not recognised. -/
def parseISODateTime (s : Str) : Option Int :=
  match readYear s with
  | none => none
  | some (y, rest) =>
    match readFormat dateTimeFormat rest with
    | some ([m, d, h, mi, sec, ms], []) => timeValueOfFields y m d h mi sec ms
    | _ => none


/-! ## Errors -/

/-- A thrown `Error` object: the name of its constructor and its `message`. The
message of an error thrown by the engine is engine-defined. -/
structure JSError where
  name : Str
  message : Str
  deriving DecidableEq

/-- The `SyntaxError` thrown by `JSON.parse`. -/
def syntaxError : JSError := ⟨"SyntaxError".toList, "Unexpected token in JSON".toList⟩

/-- The `TypeError` thrown by a call of a property that is not a function, or by
a property read on `null`. -/
def typeError : JSError := ⟨"TypeError".toList, "existing.push is not a function".toList⟩

/-- How a handler returns: normally, or by throwing. -/
inductive Completion where
  | normal
  | throw (error : JSError)
  deriving DecidableEq


instance : DecidableEq (Except JSError JSVal) := fun a b =>
  match a, b with
  | Except.ok x, Except.ok y =>
    if h : x = y then isTrue (h ▸ rfl) else isFalse (fun e => h (Except.ok.inj e))
  | Except.error x, Except.error y =>
    if h : x = y then isTrue (h ▸ rfl) else isFalse (fun e => h (Except.error.inj e))
  | Except.ok _, Except.error _ => isFalse (fun e => Except.noConfusion e)
  | Except.error _, Except.ok _ => isFalse (fun e => Except.noConfusion e)

/-! ## JSON -/

namespace JSON

/-- Result of a parsing function: a value and the unread input, a syntax error,
or recursion budget exhausted. -/
inductive Parsed (α : Type) where
  | ok (value : α) (rest : Str)
  | syntaxError
  | outOfFuel

/-- JSON white space. -/
def isSpace (c : Char) : Bool := c == ' ' || c == '\t' || c == '\n' || c == '\r'

/-- Input after leading white space. -/
def skipSpace (s : Str) : Str := s.dropWhile isSpace

/-- Value of a hexadecimal digit. -/
def hexVal? (c : Char) : Option Nat :=
  if '0' ≤ c ∧ c ≤ '9' then some (c.toNat - 48)
  else if 'a' ≤ c ∧ c ≤ 'f' then some (c.toNat - 87)
  else if 'A' ≤ c ∧ c ≤ 'F' then some (c.toNat - 55)
  else none

/-- Value of four hexadecimal digits. -/
def hex4? (a b c d : Char) : Option Nat :=
  match hexVal? a, hexVal? b, hexVal? c, hexVal? d with
  | some x, some y, some z, some w => some (((x * 16 + y) * 16 + z) * 16 + w)
  | _, _, _, _ => none

/-- The character that carries the code unit `n`. -/
def codeUnitChar (n : Nat) : Char :=
  if 0xD800 ≤ n ∧ n ≤ 0xDFFF then Char.ofNat (0x10F800 + (n - 0xD800)) else Char.ofNat n

/-- The character carries a surrogate, a code unit from `0xD800` to `0xDFFF`. -/
def isSurrogate (c : Char) : Bool := 0x10F800 ≤ c.toNat

/-- The character carries a leading surrogate, a code unit from `0xD800` to `0xDBFF`. -/
def isLeadingSurrogate (c : Char) : Bool := 0x10F800 ≤ c.toNat && c.toNat < 0x10FC00

/-- The character carries a trailing surrogate, a code unit from `0xDC00` to `0xDFFF`. -/
def isTrailingSurrogate (c : Char) : Bool := 0x10FC00 ≤ c.toNat

/-- The code unit of a one-character escape `\e`. -/
def escapeUnit? (e : Char) : Option Nat :=
  if e = '"' then some 0x22
  else if e = '\\' then some 0x5C
  else if e = '/' then some 0x2F
  else if e = 'b' then some 0x08
  else if e = 'f' then some 0x0C
  else if e = 'n' then some 0x0A
  else if e = 'r' then some 0x0D
  else if e = 't' then some 0x09
  else none

/-- The characters of a string literal after the opening quote, up to the
closing quote; `acc` holds the code units read so far, last first. A code unit
of the text stands for itself, an escape for its code unit. -/
def parseStringBody : Str → Str → Option (Str × Str)
  | [], _ => none
  | c :: rest, acc =>
    if c = '"' then some (acc.reverse, rest)
    else if c = '\\' then
      match rest with
      | [] => none
      | e :: rest1 =>
        if e = 'u' then
          match rest1 with
          | a :: b :: c' :: d :: rest2 =>
            match hex4? a b c' d with
            | some n => parseStringBody rest2 (codeUnitChar n :: acc)
            | none => none
          | _ => none
        else
          match escapeUnit? e with
          | some n => parseStringBody rest1 (codeUnitChar n :: acc)
          | none => none
    else if c.toNat < 0x20 then none
    else parseStringBody rest (c :: acc)

/-- The optional sign `-` of a number. -/
def scanSign (s : Str) : Str × Str :=
  match s with
  | [] => ([], [])
  | c :: rest => if c = '-' then (['-'], rest) else ([], c :: rest)

/-- The integer part of a number: `0`, or digits that do not start with `0`. -/
def scanInt (s : Str) : Option (Str × Str) :=
  if (s.takeWhile Char.isDigit).isEmpty
      || ((s.takeWhile Char.isDigit).head? == some '0' && (s.takeWhile Char.isDigit).length != 1)
  then none
  else some (s.takeWhile Char.isDigit, s.dropWhile Char.isDigit)

/-- The optional fraction of a number: `.` and at least one digit. -/
def scanFrac (s : Str) : Option (Str × Str) :=
  match s with
  | [] => some ([], [])
  | c :: rest =>
    if c = '.' then
      if (rest.takeWhile Char.isDigit).isEmpty then none
      else some ('.' :: rest.takeWhile Char.isDigit, rest.dropWhile Char.isDigit)
    else some ([], c :: rest)

/-- The digits of an exponent, after its mark and its optional sign: at least one digit. -/
def scanExpDigits (mark : Str) (s : Str) : Option (Str × Str) :=
  if (s.takeWhile Char.isDigit).isEmpty then none
  else some (mark ++ s.takeWhile Char.isDigit, s.dropWhile Char.isDigit)

/-- The optional exponent of a number: `e` or `E`, an optional sign and at least
one digit. -/
def scanExp (s : Str) : Option (Str × Str) :=
  match s with
  | [] => some ([], [])
  | c :: rest =>
    if c = 'e' ∨ c = 'E' then
      match rest with
      | [] => none
      | g :: rest1 =>
        if g = '+' ∨ g = '-' then scanExpDigits [c, g] rest1
        else scanExpDigits [c] (g :: rest1)
    else some ([], c :: rest)

/-- The longest numeric literal `-? int frac? exp?` at the start of the input. -/
def parseNumber (s : Str) : Option (Str × Str) :=
  match scanInt (scanSign s).2 with
  | none => none
  | some (int, s2) =>
    match scanFrac s2 with
    | none => none
    | some (frac, s3) =>
      match scanExp s3 with
      | none => none
      | some (exp, s4) => some ((scanSign s).1 ++ int ++ frac ++ exp, s4)

/-- The numeric literals of JSON. -/
def isNumberLiteral (lit : Str) : Bool := parseNumber lit == some (lit, [])

end JSON

/-! ## Numbers

A value of the Number type is a binary64 value. It is carried as a text: the
text that `Number::toString` gives for it, with a leading `-` for negative zero,
so that `-0` and `0` are two values. The texts of the values that are not finite
are `NaN`, `Infinity` and `-Infinity`. -/

namespace Number

/-- The fraction `a / b` rounded to the nearest integer, a tie to the even one. -/
def roundHalfEven (a b : Nat) : Nat :=
  if 2 * (a % b) < b then a / b
  else if b < 2 * (a % b) then a / b + 1
  else if a / b % 2 = 0 then a / b
  else a / b + 1

/-- The largest `e` below `2^bits` with `2^52 ≤ x / 2^e`, for `2^52 ≤ x`: one
binary digit of `e` after the other, the highest first. -/
def exponentBits (x : Nat) : Nat → Nat → Nat
  | 0, e => e
  | bits + 1, e =>
    if 2 ^ 52 ≤ x / 2 ^ (e + 2 ^ bits) then exponentBits x bits (e + 2 ^ bits)
    else exponentBits x bits e

/-- The binary64 value nearest to the fraction `p / q`, a tie to the even
significand: `some (m, e)` is the value `m × 2^e × 2^-1074`, where `m < 2^53`,
and `2^52 ≤ m` when `0 < e`; `none` is `+∞`, for a fraction that rounds beyond the
largest finite value `(2^53 - 1) × 2^971`. The exponent `e` is 0 for a fraction
below `2^53 × 2^-1074`, and otherwise the one that puts the significand between
`2^52` and `2^53`. -/
def roundToBinary64 (p q : Nat) : Option (Nat × Nat) :=
  let e := if p * 2 ^ 1074 / q < 2 ^ 53 then 0 else exponentBits (p * 2 ^ 1074 / q) 12 0
  let m := roundHalfEven (p * 2 ^ 1074) (q * 2 ^ e)
  if m = 2 ^ 53 then (if e + 1 ≤ 2045 then some (2 ^ 52, e + 1) else none)
  else if e ≤ 2045 then some (m, e)
  else none

/-- Numerator and denominator of `s × 10^t`. -/
def scaled (s : Nat) (t : Int) : Nat × Nat :=
  if 0 ≤ t then (s * 10 ^ t.toNat, 1) else (s, 10 ^ (-t).toNat)

/-- The condition of `Number::toString` on the integers `n`, `k` and `s` for the
finite value `(m, e)`: `10^(k-1) ≤ s < 10^k` and the Number value for
`s × 10^(n-k)` is `(m, e)`. -/
def isDecimalOf (m e s k : Nat) (n : Int) : Bool :=
  decide (10 ^ (k - 1) ≤ s) && decide (s < 10 ^ k)
    && roundToBinary64 (scaled s (n - k)).1 (scaled s (n - k)).2 == some (m, e)

/-- Number of zeros between the decimal point and the first digit that is not
zero, of the value `x × 2^-1074` below 1. -/
def leadingZeros : Nat → Nat → Nat
  | 0, _ => 0
  | fuel + 1, x => if 2 ^ 1074 ≤ 10 * x then 0 else leadingZeros fuel (10 * x) + 1

/-- The integer `n` with `10^(n-1) ≤ x < 10^n` for the positive value
`x = m × 2^e × 2^-1074`. -/
def decimalExponent (m e : Nat) : Int :=
  if 2 ^ 1074 ≤ m * 2 ^ e then ((natToString (m * 2 ^ e / 2 ^ 1074)).length : Int)
  else - (leadingZeros 400 (m * 2 ^ e) : Int)

/-- A decimal of `k` digits for the value `x = (m, e)`, whose decimal exponent is
`n`, if there is one: `(s, n')` with the condition of `Number::toString`. The two
candidates are the multiples of `10^(n-k)` next to `x`, below and above, and the
one above is `10^(k-1) × 10^(n+1-k)` when it has `k + 1` digits. Of two
candidates that qualify, the result is the one closer to `x`, and the even one
when they are as close. -/
def digitsOfLength (m e : Nat) (n : Int) (k : Nat) : Option (Nat × Int) :=
  let num := if 0 ≤ n - k then m * 2 ^ e else m * 2 ^ e * 10 ^ (k - n).toNat
  let den := if 0 ≤ n - k then 2 ^ 1074 * 10 ^ (n - k).toNat else 2 ^ 1074
  let below : Nat × Int := (num / den, n)
  let above : Nat × Int :=
    if num / den + 1 = 10 ^ k then (10 ^ (k - 1), n + 1) else (num / den + 1, n)
  if isDecimalOf m e below.1 k below.2 then
    if isDecimalOf m e above.1 k above.2 then
      if 2 * (num % den) < den then some below
      else if den < 2 * (num % den) then some above
      else if num / den % 2 = 0 then some below
      else some above
    else some below
  else if isDecimalOf m e above.1 k above.2 then some above
  else none

/-- The shortest decimal `(s, k, n)` for the value `(m, e)` among those of `k`
to `k + fuel - 1` digits. -/
def shortestFrom (m e : Nat) (n : Int) : Nat → Nat → Option (Nat × Nat × Int)
  | 0, _ => none
  | fuel + 1, k =>
    match digitsOfLength m e n k with
    | some (s, n') => some (s, k, n')
    | none => shortestFrom m e n fuel (k + 1)

/-- The integers `s`, `k` and `n` of `Number::toString` for a finite positive
value: `k` is as small as possible. Seventeen digits identify a binary64 value. -/
def shortest (m e : Nat) : Option (Nat × Nat × Int) :=
  shortestFrom m e (decimalExponent m e) 17 1

/-- The text of `Number::toString` for the integers `s`, `k` and `n`: the
digits and zeros up to 21 digits, a decimal point inside the digits, up to six
zeros after `0.`, or the exponential form. -/
def format (s k : Nat) (n : Int) : Str :=
  if (k : Int) ≤ n ∧ n ≤ 21 then pad k s ++ List.replicate (n.toNat - k) '0'
  else if 0 < n ∧ n ≤ 21 then (pad k s).take n.toNat ++ '.' :: (pad k s).drop n.toNat
  else if -6 < n ∧ n ≤ 0 then '0' :: '.' :: (List.replicate (-n).toNat '0' ++ pad k s)
  else if k = 1 then
    pad k s ++ 'e' :: (if 0 ≤ n - 1 then '+' else '-') :: natToString (n - 1).natAbs
  else
    (pad k s).take 1 ++ '.' :: ((pad k s).drop 1
      ++ 'e' :: (if 0 ≤ n - 1 then '+' else '-') :: natToString (n - 1).natAbs)

/-- The parts of a numeric literal `-? int (. frac)? ((e|E) (+|-)? exp)?`:
whether it has the sign `-`, the value of the digits of `int` and `frac`
together, and the power of ten `exp - |frac|`. -/
def literalParts (lit : Str) : Bool × Nat × Int :=
  let unsigned := if lit.head? = some '-' then lit.drop 1 else lit
  let int := unsigned.takeWhile Char.isDigit
  let afterInt := unsigned.dropWhile Char.isDigit
  let frac := if afterInt.head? = some '.' then (afterInt.drop 1).takeWhile Char.isDigit else []
  let afterFrac :=
    if afterInt.head? = some '.' then (afterInt.drop 1).dropWhile Char.isDigit else afterInt
  let exp := afterFrac.drop 1
  let power : Int :=
    if exp.head? = some '-' then - (decimalValue (exp.drop 1) : Int)
    else if exp.head? = some '+' then (decimalValue (exp.drop 1) : Int)
    else (decimalValue exp : Int)
  (lit.head? = some '-', decimalValue (int ++ frac), power - frac.length)

/-- The text of the Number value of a numeric literal: the literal is rounded
to binary64 and the value is written by `Number::toString`, after the sign. The
last case does not arise, `shortest` finds a decimal for every value. -/
def ofLiteral (lit : Str) : Str :=
  let parts := literalParts lit
  let sign : Str := if parts.1 then ['-'] else []
  match roundToBinary64 (scaled parts.2.1 parts.2.2).1 (scaled parts.2.1 parts.2.2).2 with
  | none => sign ++ "Infinity".toList
  | some (m, e) =>
    if m = 0 then sign ++ ['0']
    else
      match shortest m e with
      | some (s, k, n) => sign ++ format s k n
      | none => lit

/-- The texts that carry a Number value: those of the values that are not
finite, and the numeric literals that are the text of their own value. -/
def isText (text : Str) : Bool :=
  JSVal.notFinite text || (JSON.isNumberLiteral text && ofLiteral text == text)

end Number

namespace JSON

/-- The value of a literal name at the start of the input. -/
def parseKeyword (s : Str) : Option (JSVal × Str) :=
  if "true".toList.isPrefixOf s then some (JSVal.bool true, s.drop 4)
  else if "false".toList.isPrefixOf s then some (JSVal.bool false, s.drop 5)
  else if "null".toList.isPrefixOf s then some (JSVal.null, s.drop 4)
  else none

mutual
/-- A JSON value at the start of the input (no leading white space). -/
def parseValue : Nat → Str → Parsed JSVal
  | 0, _ => Parsed.outOfFuel
  | _ + 1, [] => Parsed.syntaxError
  | fuel + 1, c :: rest =>
    if c = '{' then
      match skipSpace rest with
      | [] => Parsed.syntaxError
      | d :: rest' =>
        if d = '}' then Parsed.ok (JSVal.obj []) rest' else parseMembers fuel (d :: rest') []
    else if c = '[' then
      match skipSpace rest with
      | [] => Parsed.syntaxError
      | d :: rest' =>
        if d = ']' then Parsed.ok (JSVal.arr []) rest' else parseElements fuel (d :: rest') []
    else if c = '"' then
      match parseStringBody rest [] with
      | some (str, rest') => Parsed.ok (JSVal.str str) rest'
      | none => Parsed.syntaxError
    else
      match parseKeyword (c :: rest) with
      | some (v, rest') => Parsed.ok v rest'
      | none =>
        match parseNumber (c :: rest) with
        | some (lit, rest') => Parsed.ok (JSVal.num (Number.ofLiteral lit)) rest'
        | none => Parsed.syntaxError
/-- The elements of an array after `[`, up to `]`; `acc` holds the elements read so far. -/
def parseElements : Nat → Str → List JSVal → Parsed JSVal
  | 0, _, _ => Parsed.outOfFuel
  | fuel + 1, s, acc =>
    match parseValue fuel s with
    | Parsed.ok v rest =>
      match skipSpace rest with
      | [] => Parsed.syntaxError
      | d :: rest' =>
        if d = ',' then parseElements fuel (skipSpace rest') (acc ++ [v])
        else if d = ']' then Parsed.ok (JSVal.arr (acc ++ [v])) rest'
        else Parsed.syntaxError
    | Parsed.syntaxError => Parsed.syntaxError
    | Parsed.outOfFuel => Parsed.outOfFuel
/-- The members of an object after `{`, up to `}`; `acc` holds the properties created so far. -/
def parseMembers : Nat → Str → Record → Parsed JSVal
  | 0, _, _ => Parsed.outOfFuel
  | _ + 1, [], _ => Parsed.syntaxError
  | fuel + 1, c :: rest, acc =>
    if c = '"' then
      match parseStringBody rest [] with
      | some (key, rest1) =>
        match skipSpace rest1 with
        | [] => Parsed.syntaxError
        | d :: rest2 =>
          if d = ':' then
            match parseValue fuel (skipSpace rest2) with
            | Parsed.ok v rest3 =>
              match skipSpace rest3 with
              | [] => Parsed.syntaxError
              | g :: rest4 =>
                if g = ',' then parseMembers fuel (skipSpace rest4) (acc.set key v)
                else if g = '}' then Parsed.ok (JSVal.obj (acc.set key v)) rest4
                else Parsed.syntaxError
            | Parsed.syntaxError => Parsed.syntaxError
            | Parsed.outOfFuel => Parsed.outOfFuel
          else Parsed.syntaxError
      | none => Parsed.syntaxError
    else Parsed.syntaxError
end

/-- The function `JSON.parse(text)`. -/
def parse (text : Str) : Except JSError JSVal :=
  match parseValue (2 * text.length + 2) (skipSpace text) with
  | Parsed.ok v rest => if (skipSpace rest).isEmpty then Except.ok v else Except.error syntaxError
  | _ => Except.error syntaxError

/-- A hexadecimal digit, lower case. -/
def hexDigit (n : Nat) : Char := if n < 10 then Char.ofNat (48 + n) else Char.ofNat (87 + n)

/-- The escape of a character in a JSON string literal. -/
def escapeChar (c : Char) : Str :=
  if c == '"' then ['\\', '"']
  else if c == '\\' then ['\\', '\\']
  else if c == '\x08' then ['\\', 'b']
  else if c == '\x0c' then ['\\', 'f']
  else if c == '\n' then ['\\', 'n']
  else if c == '\r' then ['\\', 'r']
  else if c == '\t' then ['\\', 't']
  else if c.toNat < 0x20 then ['\\', 'u', '0', '0', hexDigit (c.toNat / 16), hexDigit (c.toNat % 16)]
  else [c]

/-- The escape `\\uXXXX` of the surrogate that the character carries. -/
def surrogateEscape (c : Char) : Str :=
  ['\\', 'u', hexDigit ((c.toNat - 0x10F800 + 0xD800) / 4096),
   hexDigit ((c.toNat - 0x10F800 + 0xD800) / 256 % 16),
   hexDigit ((c.toNat - 0x10F800 + 0xD800) / 16 % 16),
   hexDigit ((c.toNat - 0x10F800 + 0xD800) % 16)]

/-- What `QuoteJSONString` writes for a code unit that is not part of a
surrogate pair: a surrogate is escaped. -/
def escapeUnit (c : Char) : Str := if isSurrogate c then surrogateEscape c else escapeChar c

/-- The code units of a string in a JSON string literal, and the closing quote:
a leading surrogate and the trailing surrogate that follows it are a code point
and are written as they are. -/
def quoteBody : Str → Str
  | [] => ['"']
  | [c] => escapeUnit c ++ ['"']
  | c :: d :: rest =>
    if isLeadingSurrogate c && isTrailingSurrogate d then c :: d :: quoteBody rest
    else escapeUnit c ++ quoteBody (d :: rest)

/-- The operation `QuoteJSONString`. -/
def quote (s : Str) : Str := '"' :: quoteBody s

mutual
/-- The function `JSON.stringify(value)`; `none` is the result `undefined`. A
number that is not finite is written `null`. -/
def stringify : JSVal → Option Str
  | JSVal.undefined => none
  | JSVal.null => some "null".toList
  | JSVal.bool true => some "true".toList
  | JSVal.bool false => some "false".toList
  | JSVal.num text =>
    some (if JSVal.notFinite text then "null".toList else (JSVal.num text).toStr)
  | JSVal.str s => some (quote s)
  | JSVal.arr items => some ('[' :: stringifyItems items ++ [']'])
  | JSVal.obj fields => some ('{' :: stringifyFields fields false ++ ['}'])
termination_by structural v => v
/-- The elements of an array, separated by commas; `undefined` is written `null`. -/
def stringifyItems : List JSVal → Str
  | [] => []
  | x :: rest =>
    (match stringify x with
     | some text => text
     | none => "null".toList) ++ (if rest.isEmpty then [] else ',' :: stringifyItems rest)
termination_by structural items => items
/-- The members of an object, separated by commas; a property whose value is
`undefined` is left out. `sep` tells whether a member was written before. -/
def stringifyFields : List (Str × JSVal) → Bool → Str
  | [], _ => []
  | kv :: rest, sep =>
    match stringifyField kv with
    | some text => (if sep then [','] else []) ++ text ++ stringifyFields rest true
    | none => stringifyFields rest sep
termination_by structural fields => fields
/-- One member `"key":value`. -/
def stringifyField : Str × JSVal → Option Str
  | (k, v) =>
    match stringify v with
    | some text => some (quote k ++ ':' :: text)
    | none => none
termination_by structural kv => kv
end

/-- What can follow a value in a JSON text without white space: the end of the
text, a comma or a closing bracket. -/
def delimited : Str → Bool
  | [] => true
  | c :: _ => c == ',' || c == ']' || c == '}'

mutual
/-- The states a value can be in: a number is carried by a text of a Number
value, an object is well formed, and so are the values inside. -/
def valid : JSVal → Bool
  | JSVal.num text => Number.isText text
  | JSVal.arr items => validItems items
  | JSVal.obj fields => decide (Record.WF fields) && validFields fields
  | _ => true
termination_by structural v => v
/-- Every element is valid. -/
def validItems : List JSVal → Bool
  | [] => true
  | x :: rest => valid x && validItems rest
termination_by structural items => items
/-- The value of every property is valid. -/
def validFields : List (Str × JSVal) → Bool
  | [] => true
  | kv :: rest => validField kv && validFields rest
termination_by structural fields => fields
/-- The value of the property is valid. -/
def validField : Str × JSVal → Bool
  | (_, v) => valid v
termination_by structural kv => kv
end

mutual
/-- The value holds no `undefined`, no number that is not finite and no
negative zero, at any depth. -/
def plain : JSVal → Bool
  | JSVal.undefined => false
  | JSVal.num text => !JSVal.notFinite text && text != "-0".toList
  | JSVal.arr items => plainItems items
  | JSVal.obj fields => plainFields fields
  | _ => true
termination_by structural v => v
/-- Every element is plain. -/
def plainItems : List JSVal → Bool
  | [] => true
  | x :: rest => plain x && plainItems rest
termination_by structural items => items
/-- The value of every property is plain. -/
def plainFields : List (Str × JSVal) → Bool
  | [] => true
  | kv :: rest => plainField kv && plainFields rest
termination_by structural fields => fields
/-- The value of the property is plain. -/
def plainField : Str × JSVal → Bool
  | (_, v) => plain v
termination_by structural kv => kv
end

mutual
/-- What `JSON.parse` reads from the text that `JSON.stringify` writes for the
value as an element of a list: `undefined` and a number that is not finite
become `null`, negative zero becomes `0`, and a property whose value is
`undefined` is left out. -/
def image : JSVal → JSVal
  | JSVal.undefined => JSVal.null
  | JSVal.null => JSVal.null
  | JSVal.bool b => JSVal.bool b
  | JSVal.num text =>
    if JSVal.notFinite text then JSVal.null else JSVal.num (JSVal.num text).toStr
  | JSVal.str s => JSVal.str s
  | JSVal.arr items => JSVal.arr (imageItems items)
  | JSVal.obj fields => JSVal.obj (imageFields fields)
termination_by structural v => v
/-- The image of every element. -/
def imageItems : List JSVal → List JSVal
  | [] => []
  | x :: rest => image x :: imageItems rest
termination_by structural items => items
/-- The images of the properties that are written. -/
def imageFields : List (Str × JSVal) → List (Str × JSVal)
  | [] => []
  | kv :: rest =>
    match imageField kv with
    | some kv' => kv' :: imageFields rest
    | none => imageFields rest
termination_by structural fields => fields
/-- The image of a property, if it is written. -/
def imageField : Str × JSVal → Option (Str × JSVal)
  | (k, v) => if v = JSVal.undefined then none else some (k, image v)
termination_by structural kv => kv
end

mutual
/-- The values that JSON represents, in the states `JSON.parse` yields them:
no `undefined`, numbers that are finite and not negative zero, objects in a
well-formed state. -/
def clean : JSVal → Bool
  | JSVal.undefined => false
  | JSVal.null => true
  | JSVal.bool _ => true
  | JSVal.num text =>
    isNumberLiteral text && Number.ofLiteral text == text && text != "-0".toList
  | JSVal.str _ => true
  | JSVal.arr items => cleanItems items
  | JSVal.obj fields => decide (Record.WF fields) && cleanFields fields
termination_by structural v => v
/-- Every element is clean. -/
def cleanItems : List JSVal → Bool
  | [] => true
  | x :: rest => clean x && cleanItems rest
termination_by structural items => items
/-- The value of every property is clean. -/
def cleanFields : List (Str × JSVal) → Bool
  | [] => true
  | kv :: rest => cleanField kv && cleanFields rest
termination_by structural fields => fields
/-- The value of the property is clean. -/
def cleanField : Str × JSVal → Bool
  | (_, v) => clean v
termination_by structural kv => kv
end

/-- A text whose first character is not a digit. -/
def NoDigitNext (rest : Str) : Prop := ∀ c ∈ rest.head?, c.isDigit = false

/-- The facts on a token that a scanner has read: the input is the token and the
rest, and the token is read again when it is followed by any text `rest'` that
satisfies `stop`. -/
def Rereads (scan : Str → Option (Str × Str)) (stop : Str → Str → Prop) (s tok rest : Str) :
    Prop :=
  s = tok ++ rest ∧ stop tok rest ∧ ∀ rest', stop tok rest' → scan (tok ++ rest') = some (tok, rest')

/-- What may follow a fraction: a character that is not a digit, and not `.`
when the fraction is empty. -/
def FracStop (tok r : Str) : Prop :=
  NoDigitNext r ∧ (tok = [] → ∀ c ∈ r.head?, c ≠ '.')

/-- What may follow an exponent: a character that is not a digit, and not `e`
or `E` when the exponent is empty. -/
def ExpStop (tok r : Str) : Prop :=
  NoDigitNext r ∧ (tok = [] → ∀ c ∈ r.head?, c ≠ 'e' ∧ c ≠ 'E')

/-- What may follow a number: a character that cannot continue it. -/
def NumberStop (r : Str) : Prop :=
  ∀ c ∈ r.head?, c.isDigit = false ∧ c ≠ '.' ∧ c ≠ 'e' ∧ c ≠ 'E'

end JSON

/-! ## The component

`SummaryEditor({ summary, onSave })` keeps four pieces of state and talks to the
storage client `googleDriveService`, to `localStorage`, to the document and to
the clock. -/

/-- A thrown value, which is also the reason of a rejected promise: an `Error`
object, or any other value. -/
inductive Thrown where
  | error (e : JSError)
  | value (v : JSVal)
  deriving DecidableEq

/-- The `TypeError` of a property read on `undefined` or `null`. -/
def readError : JSError :=
  ⟨"TypeError".toList, "Cannot read properties of null (reading 'message')".toList⟩

/-- The `TypeError` of `ToString` on an object that no method converts. -/
def conversionError : JSError :=
  ⟨"TypeError".toList, "Cannot convert object to primitive value".toList⟩

/-- The expression `error.message` of a `catch` clause. An `Error` object gives
its message. The property read throws on `undefined` and on `null`. Another
object gives its own property `message`, `undefined` when it has none, and so
does a primitive value or a list: their prototypes have no `message`. -/
def Thrown.message : Thrown → Except JSError JSVal
  | Thrown.error e => Except.ok (JSVal.str e.message)
  | Thrown.value JSVal.undefined => Except.error readError
  | Thrown.value JSVal.null => Except.error readError
  | Thrown.value (JSVal.obj fields) => Except.ok (Record.get fields "message".toList)
  | Thrown.value _ => Except.ok JSVal.undefined

/-- A template literal that starts with `label` and ends with a substitution of
the value: the conversion of the value to a string can throw. -/
def labelled (label : Str) (v : JSVal) : Except JSError Str :=
  if v.convertible then Except.ok (label ++ v.toStr) else Except.error conversionError

/-- The template literal of a `catch` clause: `label` and then a substitution
of `error.message`. -/
def Thrown.describe (label : Str) (error : Thrown) : Except JSError Str :=
  match error.message with
  | Except.ok v => labelled label v
  | Except.error e => Except.error e

/-- What a handler does that can be observed from outside of it, including its
calls of the state setters. -/
inductive Event where
  /-- The call `e.preventDefault()`. -/
  | preventDefault
  /-- The call `alert(message)`. -/
  | alert (message : Str)
  /-- The call `console.log(message)`. -/
  | consoleLog (message : Str)
  /-- The call `console.error(message, error)`. -/
  | consoleError (message : Str) (error : Thrown)
  /-- The call `setFormData(prev => ({ ...prev, [field]: value }))`. -/
  | setFormData (field : Str) (value : JSVal)
  /-- The call `setIsUploading(flag)`. -/
  | setIsUploading (flag : Bool)
  /-- The call `setUploadStatus(status)`; `none` is `null`. -/
  | setUploadStatus (status : Option Record)
  /-- The call `setIsDriveConnected(flag)`. -/
  | setIsDriveConnected (flag : Bool)
  /-- The call `googleDriveService.isConnected()`. -/
  | isConnected
  /-- The call `googleDriveService.uploadSummary(record)`. -/
  | uploadSummary (record : Record)
  /-- The call `googleDriveService.testConnection()`. -/
  | testConnection
  /-- The call `onSave(record)` of the completion callback. -/
  | onSave (record : Record)
  /-- The call `localStorage.getItem(key)`. -/
  | getItem (key : Str)
  /-- The call `localStorage.setItem(key, value)`. -/
  | setItem (key value : Str)
  /-- The calls `new Blob([content], { type })` and `URL.createObjectURL(blob)`. -/
  | createObjectURL (content type : Str)
  /-- The call `document.body.appendChild(a)`. -/
  | appendAnchor
  /-- The call `a.click()` on the anchor whose `download` attribute is `fileName`. -/
  | clickAnchor (fileName : Str)
  /-- The call `document.body.removeChild(a)`. -/
  | removeAnchor
  /-- The call `URL.revokeObjectURL(url)`. -/
  | revokeObjectURL
  deriving DecidableEq

/-- The state of the component: its four `useState` cells. -/
structure State where
  formData : Record
  isUploading : Bool
  uploadStatus : Option Record
  isDriveConnected : Bool
  deriving DecidableEq

/-- The state on the first render: `useState(summary)`, `useState(false)`,
`useState(null)`, `useState(false)`. -/
def State.initial (summary : Record) : State :=
  { formData := summary, isUploading := false, uploadStatus := none, isDriveConnected := false }

/-- Effect of one event on the state: the state setters write their cell, the
other events leave the state alone. -/
def State.apply (s : State) : Event → State
  | Event.setFormData field value => { s with formData := handleChange field value s.formData }
  | Event.setIsUploading flag => { s with isUploading := flag }
  | Event.setUploadStatus status => { s with uploadStatus := status }
  | Event.setIsDriveConnected flag => { s with isDriveConnected := flag }
  | _ => s

/-- The state after a sequence of events. -/
def State.replay (s : State) (events : List Event) : State := events.foldl State.apply s

/-- What a handler did and how it returned. -/
structure Run where
  events : List Event
  completion : Completion
  deriving DecidableEq

/-- How an awaited promise settles: fulfilled with a result object, or rejected
with a thrown value. -/
inductive Settled where
  | fulfilled (value : Record)
  | rejected (reason : Thrown)

/-- The events that call `uploadSummary`. -/
def Event.isUploadCall : Event → Bool
  | Event.uploadSummary _ => true
  | _ => false

/-- The events that call the completion callback. -/
def Event.isOnSave : Event → Bool
  | Event.onSave _ => true
  | _ => false

/-- The events that write the local storage. -/
def Event.isSetItem : Event → Bool
  | Event.setItem _ _ => true
  | _ => false

/-- The events that set the upload status. -/
def Event.isSetUploadStatus : Event → Bool
  | Event.setUploadStatus _ => true
  | _ => false

/-- The events that set the upload status to a failure, `{ type: 'error', ... }`. -/
def Event.isSetUploadStatusError : Event → Bool
  | Event.setUploadStatus (some status) =>
    Record.get status "type".toList == JSVal.str "error".toList
  | _ => false

/-- The function `checkDriveConnection` of the effect, run on mount and every
2 seconds; `connected` is what `isConnected()` returns. -/
def checkDriveConnection (connected : Bool) : List Event :=
  [Event.isConnected, Event.setIsDriveConnected connected]

/-- The notice of `handleSaveToDrive` when the drive is not connected. -/
def refusalNotice : Str := "Please connect Google Drive in Settings before saving summaries.".toList

/-- The status `{ type: 'success', message, driveLink }` of a successful upload. -/
def uploadSuccessStatus (uploadResult : Record) : Record :=
  Record.literal [("type".toList, JSVal.str "success".toList),
    ("message".toList, uploadResult.get "message".toList),
    ("driveLink".toList, uploadResult.get "driveLink".toList)]

/-- The status `{ type: 'error', message }`. -/
def errorStatus (message : JSVal) : Record :=
  Record.literal [("type".toList, JSVal.str "error".toList), ("message".toList, message)]

/-- The status `{ type: 'success', message }`. -/
def successStatus (message : Str) : Record :=
  Record.literal [("type".toList, JSVal.str "success".toList), ("message".toList, JSVal.str message)]

/-- The record `{ ...formData, driveLink, fileId, fileName, uploadedAt }` handed to `onSave`
after an upload; `now` is the clock reading of `new Date()`. -/
def uploadedRecord (formData uploadResult : Record) (now : Nat) : Record :=
  Record.spread (Record.spread [] formData)
    [("driveLink".toList, uploadResult.get "driveLink".toList),
     ("fileId".toList, uploadResult.get "fileId".toList),
     ("fileName".toList, uploadResult.get "fileName".toList),
     ("uploadedAt".toList, JSVal.str (toISOString now))]

/-- The handler `handleSaveToDrive` up to its `await`, in the state `s` of the
render that created it: the events, and the `formData` of the closure when the
handler is suspended on `uploadSummary` (`none` when it has returned). -/
def handleSaveToDriveBegin (s : State) : List Event × Option Record :=
  if !s.isDriveConnected then
    ([Event.preventDefault, Event.alert refusalNotice], none)
  else
    ([Event.preventDefault, Event.setIsUploading true, Event.setUploadStatus none,
      Event.consoleLog "🚀 Starting Google Drive upload...".toList,
      Event.uploadSummary s.formData], some s.formData)

/-- The `catch` clause of `handleSaveToDrive`. When the template literal of
the message throws, `setUploadStatus` is not called and the clause throws. -/
def handleSaveToDriveCatch (error : Thrown) : Run :=
  match error.describe "Upload failed: ".toList with
  | Except.ok message =>
    { events := [Event.consoleError "❌ Upload error:".toList error,
                 Event.setUploadStatus (some (errorStatus (JSVal.str message)))],
      completion := Completion.normal }
  | Except.error e =>
    { events := [Event.consoleError "❌ Upload error:".toList error],
      completion := Completion.throw e }

/-- The `try` statement of `handleSaveToDrive` from the point where the promise
of `uploadSummary(formData)` settles, without its `finally` clause: the `try`
body after the `await`, or the `catch` clause. `onSave` tells whether the
callback was supplied. -/
def handleSaveToDriveSettled (onSave : Bool) (formData : Record) (now : Nat) : Settled → Run
  | Settled.fulfilled uploadResult =>
    { events :=
        if (uploadResult.get "success".toList).truthy then
          Event.setUploadStatus (some (uploadSuccessStatus uploadResult)) ::
            (if onSave then [Event.onSave (uploadedRecord formData uploadResult now)] else [])
        else
          [Event.setUploadStatus (some (errorStatus (uploadResult.get "message".toList)))],
      completion := Completion.normal }
  | Settled.rejected error => handleSaveToDriveCatch error

/-- The events of `handleSaveToDrive` from the point where the promise of
`uploadSummary(formData)` settles: those of the `try` body or of the `catch`
clause, and then the `finally` clause. -/
def handleSaveToDriveResume (onSave : Bool) (formData : Record) (now : Nat)
    (outcome : Settled) : List Event :=
  (handleSaveToDriveSettled onSave formData now outcome).events ++ [Event.setIsUploading false]

/-- A whole run of `handleSaveToDrive` from state `s`, when nothing else happens
while the upload is in flight. The handler returns as its `try` statement
does: the `finally` clause completes normally. -/
def handleSaveToDrive (onSave : Bool) (s : State) (outcome : Settled) (now : Nat) : Run :=
  match handleSaveToDriveBegin s with
  | (events, none) => { events := events, completion := Completion.normal }
  | (events, some formData) =>
    { events := events ++ handleSaveToDriveResume onSave formData now outcome,
      completion := (handleSaveToDriveSettled onSave formData now outcome).completion }

/-- The handler `handleConnectDrive` up to its `await`. -/
def handleConnectDriveBegin : List Event :=
  [Event.setIsUploading true, Event.testConnection]

/-- The `catch` clause of `handleConnectDrive`. When the template literal of
the message throws, `setUploadStatus` is not called and the clause throws. -/
def handleConnectDriveCatch (error : Thrown) : Run :=
  match error.describe "Connection error: ".toList with
  | Except.ok message =>
    { events := [Event.setUploadStatus (some (errorStatus (JSVal.str message)))],
      completion := Completion.normal }
  | Except.error e => { events := [], completion := Completion.throw e }

/-- The `try` statement of `handleConnectDrive` from the point where the promise
of `testConnection()` settles, without its `finally` clause. The template
literal of the `else` branch is inside the `try` body: what it throws is caught
by the `catch` clause. -/
def handleConnectDriveSettled : Settled → Run
  | Settled.fulfilled connectionResult =>
    if (connectionResult.get "success".toList).truthy then
      { events :=
          [Event.setIsDriveConnected true,
           Event.setUploadStatus
             (some (successStatus "Google Drive connected successfully!".toList))],
        completion := Completion.normal }
    else
      match labelled "Connection failed: ".toList (connectionResult.get "message".toList) with
      | Except.ok message =>
        { events := [Event.setUploadStatus (some (errorStatus (JSVal.str message)))],
          completion := Completion.normal }
      | Except.error e => handleConnectDriveCatch (Thrown.error e)
  | Settled.rejected error => handleConnectDriveCatch error

/-- The events of `handleConnectDrive` from the point where the promise of
`testConnection()` settles: those of the `try` body or of the `catch` clause,
and then the `finally` clause. -/
def handleConnectDriveResume (outcome : Settled) : List Event :=
  (handleConnectDriveSettled outcome).events ++ [Event.setIsUploading false]

/-- A whole run of `handleConnectDrive`, when nothing else happens while the
connection test is in flight. -/
def handleConnectDrive (outcome : Settled) : Run :=
  { events := handleConnectDriveBegin ++ handleConnectDriveResume outcome,
    completion := (handleConnectDriveSettled outcome).completion }

/-- The key of the backup slot in the local storage. -/
def backupKey : Str := "medhira_backups".toList

/-- The object `localBackup` of `handleSaveLocally`; `now1` is the clock reading
of `new Date()` and `now2` that of `Date.now()`. -/
def localBackup (formData : Record) (now1 now2 : Nat) : Record :=
  Record.spread (Record.spread [] formData)
    [("savedAt".toList, JSVal.str (toISOString now1)),
     ("id".toList, JSVal.str (natToString now2)),
     ("type".toList, JSVal.str "local_backup".toList)]

/-- The expression `localStorage.getItem('medhira_backups') || '[]'`; `slot` is
the content of the slot, `none` when there is none (`getItem` returns `null`). -/
def storedTextOrDefault (slot : Option Str) : Str :=
  match slot with
  | some text => if text.isEmpty then "[]".toList else text
  | none => "[]".toList

/-- The handler `handleSaveLocally`. -/
def handleSaveLocally (onSave : Bool) (s : State) (slot : Option Str) (now1 now2 : Nat) : Run :=
  let backup := localBackup s.formData now1 now2
  match JSON.parse (storedTextOrDefault slot) with
  | Except.error e => { events := [Event.getItem backupKey], completion := Completion.throw e }
  | Except.ok (JSVal.arr existing) =>
    { events :=
        [Event.getItem backupKey,
         Event.setItem backupKey
           ((JSON.stringify (JSVal.arr (existing ++ [JSVal.obj backup]))).getD "undefined".toList),
         Event.setUploadStatus (some (successStatus "Summary saved locally as backup!".toList))]
        ++ (if onSave then [Event.onSave s.formData] else []),
      completion := Completion.normal }
  | Except.ok _ => { events := [Event.getItem backupKey], completion := Completion.throw typeError }

/-- The text that `handleSaveLocally` leaves in the slot: the value of the last
`setItem`, or the previous content when the handler wrote nothing. -/
def slotAfter (slot : Option Str) (events : List Event) : Option Str :=
  events.foldl (fun acc e =>
    match e with
    | Event.setItem _ value => some value
    | _ => acc) slot

/-- The list of backups that a slot holds: the empty list when there is no slot,
the parsed list when the text is a serialized list, nothing otherwise. -/
def storedList (slot : Option Str) : Option (List JSVal) :=
  match slot with
  | none => some []
  | some text =>
    match JSON.parse text with
    | Except.ok (JSVal.arr items) => some items
    | _ => none

/-- The field `k` of the record is missing (it reads `undefined`) or empty. -/
def missingOrEmpty (r : Record) (k : Str) : Prop :=
  r.get k = JSVal.undefined ∨ r.get k = JSVal.str []

/-- The text `'Not specified'` of an empty optional section. -/
def notSpecified : Str := "Not specified".toList

/-- The template literal of `downloadAsText`, before `.trim()`; `localeDate` is
the result of `new Date().toLocaleDateString()`. -/
def exportTemplate (formData : Record) (localeDate : Str) : Str :=
  "\nMEDICAL SUMMARY - ".toList ++ (formData.get "patientName".toList).toStr
    ++ "\nGenerated: ".toList ++ localeDate
    ++ "\n\nPATIENT INFORMATION:\nName: ".toList ++ (formData.get "patientName".toList).toStr
    ++ "\nAge: ".toList ++ (formData.get "age".toList).toStr
    ++ "\nGender: ".toList ++ (formData.get "gender".toList).toStr
    ++ "\n\nSYMPTOMS:\n".toList ++ (formData.get "symptoms".toList).toStr
    ++ "\n\nMEDICAL HISTORY:\n".toList
    ++ ((formData.get "history".toList).orElse (JSVal.str notSpecified)).toStr
    ++ "\n\nEXAMINATION FINDINGS:\n".toList
    ++ ((formData.get "examination".toList).orElse (JSVal.str notSpecified)).toStr
    ++ "\n\nDIAGNOSIS:\n".toList ++ (formData.get "diagnosis".toList).toStr
    ++ "\n\nPRESCRIPTION:\n".toList
    ++ ((formData.get "prescription".toList).orElse (JSVal.str notSpecified)).toStr
    ++ "\n\nFOLLOW-UP:\n".toList
    ++ ((formData.get "followUp".toList).orElse (JSVal.str notSpecified)).toStr
    ++ "\n    ".toList

/-- The constant `content` of `downloadAsText`. -/
def exportContent (formData : Record) (localeDate : Str) : Str :=
  trim (exportTemplate formData localeDate)

/-- The `download` attribute of the anchor; `now` is the clock reading of the
second `new Date()`. -/
def exportFileName (formData : Record) (now : Nat) : Str :=
  "Medical_Summary_".toList ++ (formData.get "patientName".toList).toStr ++ "_".toList
    ++ beforeFirst 'T' (toISOString now) ++ ".txt".toList

/-- The handler `downloadAsText`. -/
def downloadAsText (s : State) (localeDate : Str) (now : Nat) : Run :=
  { events :=
      [Event.createObjectURL (exportContent s.formData localeDate) "text/plain".toList,
       Event.appendAnchor, Event.clickAnchor (exportFileName s.formData now),
       Event.removeAnchor, Event.revokeObjectURL],
    completion := Completion.normal }

/-- The attribute `disabled={isUploading || !isDriveConnected}` of the submit button. -/
def submitDisabled (s : State) : Bool := s.isUploading || !s.isDriveConnected

/-- The connect button is rendered only while the drive is not connected, with
`disabled={isUploading}`. -/
def connectEnabled (s : State) : Bool := !s.isDriveConnected && !s.isUploading


/-! ## The component in its environment

The handlers run one at a time on the event loop; what happens between the two
parts of an asynchronous handler is a sequence of `Action`s. -/

/-- The component and the part of its environment that the handlers depend on. -/
structure System where
  /-- The state of the component. -/
  ui : State
  /-- What `googleDriveService.isConnected()` returns at this moment. -/
  clientConnected : Bool
  /-- The calls of `uploadSummary` that have not settled: for each of them the
  `formData` of the suspended handler. -/
  uploadsInFlight : List Record
  /-- The number of calls of `testConnection` that have not settled. -/
  connectsInFlight : Nat
  /-- Every event so far, oldest first. -/
  log : List Event

/-- What can happen next. -/
inductive Action where
  /-- The timer of the effect fires: `checkDriveConnection()`. -/
  | tick
  /-- The storage client gets connected or disconnected, outside of the component. -/
  | clientChanges (connected : Bool)
  /-- The user types in a field: `handleChange(field, value)`. -/
  | edit (field : Str) (value : JSVal)
  /-- The user submits the form: `handleSaveToDrive(e)` runs up to its `await`. -/
  | submit
  /-- The oldest call of `uploadSummary` in flight settles. -/
  | uploadSettles (outcome : Settled) (now : Nat)
  /-- The user clicks the connect button: `handleConnectDrive()` runs up to its `await`. -/
  | clickConnect
  /-- A call of `testConnection` in flight settles. -/
  | connectSettles (outcome : Settled)
  /-- The user clicks the button of the local backup. -/
  | clickSaveLocally (slot : Option Str) (now1 now2 : Nat)
  /-- The user clicks the button of the text export. -/
  | clickDownload (localeDate : Str) (now : Nat)

/-- The events of a handler take place. -/
def System.perform (sys : System) (events : List Event) : System :=
  { sys with ui := sys.ui.replay events, log := sys.log ++ events }

/-- One step of the system; `none` when the action cannot happen: the form
cannot be submitted while its submit button is disabled, a button that is not
rendered or is disabled cannot be clicked, and only a call in flight can settle. -/
def step (onSave : Bool) (sys : System) : Action → Option System
  | Action.tick => some (sys.perform (checkDriveConnection sys.clientConnected))
  | Action.clientChanges connected => some { sys with clientConnected := connected }
  | Action.edit field value => some (sys.perform [Event.setFormData field value])
  | Action.submit =>
    if submitDisabled sys.ui then none
    else
      match handleSaveToDriveBegin sys.ui with
      | (events, none) => some (sys.perform events)
      | (events, some formData) =>
        some { sys.perform events with uploadsInFlight := sys.uploadsInFlight ++ [formData] }
  | Action.uploadSettles outcome now =>
    match sys.uploadsInFlight with
    | [] => none
    | formData :: rest =>
      some { sys.perform (handleSaveToDriveResume onSave formData now outcome) with
        uploadsInFlight := rest }
  | Action.clickConnect =>
    if connectEnabled sys.ui then
      some { sys.perform handleConnectDriveBegin with connectsInFlight := sys.connectsInFlight + 1 }
    else none
  | Action.connectSettles outcome =>
    match sys.connectsInFlight with
    | 0 => none
    | n + 1 => some { sys.perform (handleConnectDriveResume outcome) with connectsInFlight := n }
  | Action.clickSaveLocally slot now1 now2 =>
    some (sys.perform (handleSaveLocally onSave sys.ui slot now1 now2).events)
  | Action.clickDownload localeDate now =>
    some (sys.perform (downloadAsText sys.ui localeDate now).events)

/-- The system after the component is mounted: the first render and the first
run of `checkDriveConnection`. -/
def mount (summary : Record) (connected : Bool) : System :=
  { ui := (State.initial summary).replay (checkDriveConnection connected),
    clientConnected := connected,
    uploadsInFlight := [],
    connectsInFlight := 0,
    log := checkDriveConnection connected }

/-- The system after a sequence of actions; `none` when one of them cannot happen. -/
def runActions (onSave : Bool) (sys : System) : List Action → Option System
  | [] => some sys
  | a :: rest =>
    match step onSave sys a with
    | some sys' => runActions onSave sys' rest
    | none => none

/-- The record of the example of the specification. -/
def janeDoe : Record :=
  [("patientName".toList, JSVal.str "Jane Doe".toList), ("age".toList, JSVal.str "34".toList),
   ("gender".toList, JSVal.str "F".toList), ("symptoms".toList, JSVal.str "cough".toList),
   ("diagnosis".toList, JSVal.str "bronchitis".toList)]


/-- The invariant of the busy flag: at most one asynchronous handler is
suspended, and the busy flag is set while one is. -/
def BusyInvariant (sys : System) : Prop :=
  sys.uploadsInFlight.length + sys.connectsInFlight ≤ 1 ∧
    (0 < sys.uploadsInFlight.length + sys.connectsInFlight → sys.ui.isUploading = true)
/-! ## Array-index keys -/

theorem digitVal_lt (c : Char) (h : c.isDigit = true) : digitVal c < 10 := by
  simp only [Char.isDigit, Bool.and_eq_true, decide_eq_true_eq, UInt32.le_def,
    Fin.le_def] at h
  have h2 : c.val.val.val ≤ 57 := h.2
  show c.val.val.val - 48 < 10
  omega

theorem digitVal_inj (c d : Char) (hc : c.isDigit = true) (hd : d.isDigit = true)
    (h : digitVal c = digitVal d) : c = d := by
  simp only [Char.isDigit, Bool.and_eq_true, decide_eq_true_eq, UInt32.le_def,
    Fin.le_def] at hc hd
  have hc1 : 48 ≤ c.val.val.val := hc.1
  have hd1 : 48 ≤ d.val.val.val := hd.1
  have h' : c.val.val.val - 48 = d.val.val.val - 48 := h
  have e : c.val.val.val = d.val.val.val := by omega
  apply Char.ext
  apply UInt32.ext
  exact e

theorem digitVal_pos (c : Char) (hc : c.isDigit = true) (h0 : c ≠ '0') : 1 ≤ digitVal c := by
  by_contra hlt
  have hz : digitVal c = digitVal '0' := by
    have : digitVal '0' = 0 := by decide
    omega
  exact h0 (digitVal_inj c '0' hc (by decide) hz)

theorem decimalValue_snoc (s : Str) (c : Char) :
    decimalValue (s ++ [c]) = 10 * decimalValue s + digitVal c := by
  simp [decimalValue, List.foldl_append]

theorem foldl_digits_ge (s : Str) (acc : Nat) :
    acc ≤ s.foldl (fun acc c => 10 * acc + digitVal c) acc := by
  induction s generalizing acc with
  | nil => simp
  | cons c cs ih =>
    simp only [List.foldl_cons]
    have := ih (10 * acc + digitVal c)
    omega

theorem decimalValue_pos (s : Str) (h : NoLeadingZero s) : 1 ≤ decimalValue s := by
  obtain ⟨hd, c, cs, rfl, hc⟩ := h
  have h1 := digitVal_pos c (hd c (by simp)) hc
  have h2 := foldl_digits_ge cs (10 * 0 + digitVal c)
  simp only [decimalValue, List.foldl_cons]
  omega

theorem NoLeadingZero.of_snoc (s : Str) (c : Char) (hs : s ≠ [])
    (h : NoLeadingZero (s ++ [c])) : NoLeadingZero s := by
  obtain ⟨hd, c0, cs0, heq, hc0⟩ := h
  refine ⟨fun x hx => hd x (by simp [hx]), ?_⟩
  cases s with
  | nil => exact absurd rfl hs
  | cons a as =>
    simp only [List.cons_append, List.cons.injEq] at heq
    exact ⟨a, as, rfl, heq.1 ▸ hc0⟩

theorem decimalValue_inj (a : Str) : ∀ b : Str, NoLeadingZero a → NoLeadingZero b →
    decimalValue a = decimalValue b → a = b := by
  induction a using List.reverseRecOn with
  | nil => intro b ha; obtain ⟨_, c, cs, h, _⟩ := ha; cases h
  | append_singleton a' c ih =>
    intro b ha hb hv
    rcases List.eq_nil_or_concat b with hbn | ⟨b', d, rfl⟩
    · subst hbn; obtain ⟨_, c, cs, h, _⟩ := hb; cases h
    · rw [List.concat_eq_append] at hb hv ⊢
      rw [decimalValue_snoc, decimalValue_snoc] at hv
      have hcd := digitVal_lt c (ha.1 c (by simp))
      have hdd := digitVal_lt d (hb.1 d (by simp))
      have hval : decimalValue a' = decimalValue b' := by omega
      have hdig : digitVal c = digitVal d := by omega
      have hcd' : c = d := digitVal_inj c d (ha.1 c (by simp)) (hb.1 d (by simp)) hdig
      subst hcd'
      by_cases hane : a' = []
      · subst hane
        by_cases hbne : b' = []
        · subst hbne; rfl
        · have := decimalValue_pos b' (NoLeadingZero.of_snoc b' c hbne hb)
          have h0 : decimalValue ([] : Str) = 0 := rfl
          omega
      · by_cases hbne : b' = []
        · subst hbne
          have := decimalValue_pos a' (NoLeadingZero.of_snoc a' c hane ha)
          have h0 : decimalValue ([] : Str) = 0 := rfl
          omega
        · rw [ih b' (NoLeadingZero.of_snoc a' c hane ha) (NoLeadingZero.of_snoc b' c hbne hb) hval]

theorem arrayIndex?_spec (k : Str) (n : Nat) (h : arrayIndex? k = some n) :
    decimalValue k = n ∧ (NoLeadingZero k ∨ k = ['0']) := by
  cases k with
  | nil => simp [arrayIndex?] at h
  | cons c cs =>
    simp only [arrayIndex?] at h
    split at h
    · rename_i hc
      simp only [Bool.and_eq_true, Bool.or_eq_true, bne_iff_ne, ne_eq, List.isEmpty_iff,
        decide_eq_true_eq, List.all_eq_true] at hc
      obtain ⟨⟨hdig, hlead⟩, _⟩ := hc
      refine ⟨by simpa using h, ?_⟩
      by_cases hz : c = '0'
      · right
        rcases hlead with h1 | h1
        · exact absurd hz h1
        · rw [hz, h1]
      · left
        exact ⟨hdig, c, cs, rfl, hz⟩
    · cases h

/-- Two array-index keys of the same index are the same key. -/
theorem arrayIndex?_inj (a b : Str) (n : Nat) (ha : arrayIndex? a = some n)
    (hb : arrayIndex? b = some n) : a = b := by
  obtain ⟨hva, hca⟩ := arrayIndex?_spec a n ha
  obtain ⟨hvb, hcb⟩ := arrayIndex?_spec b n hb
  rcases hca with hca | hca <;> rcases hcb with hcb | hcb
  · exact decimalValue_inj a b hca hcb (hva.trans hvb.symm)
  · have := decimalValue_pos a hca
    subst hcb
    have h0 : decimalValue ['0'] = 0 := by decide
    omega
  · have := decimalValue_pos b hcb
    subst hca
    have h0 : decimalValue ['0'] = 0 := by decide
    omega
  · rw [hca, hcb]

/-! ## Lemmas on records -/

namespace Record

theorem has_iff_mem (r : Record) (k : Str) : r.has k = true ↔ k ∈ r.keys := by
  induction r with
  | nil => simp [has, keys]
  | cons kv rest ih =>
    simp only [has, keys, List.any_cons, List.map_cons, List.mem_cons, Bool.or_eq_true,
      beq_iff_eq] at ih ⊢
    constructor
    · rintro (h | h)
      · exact Or.inl h.symm
      · exact Or.inr (ih.mp h)
    · rintro (h | h)
      · exact Or.inl h.symm
      · exact Or.inr (ih.mpr h)

theorem has_eq_false_iff (r : Record) (k : Str) : r.has k = false ↔ k ∉ r.keys := by
  rw [← has_iff_mem]; simp

theorem lookup_eq_none_iff (r : Record) (k : Str) : r.lookup k = none ↔ k ∉ r.keys := by
  induction r with
  | nil => simp [lookup, keys]
  | cons kv rest ih =>
    obtain ⟨k', v'⟩ := kv
    by_cases h : k' = k
    · simp [lookup, keys, h]
    · have h' : ¬ k = k' := fun e => h e.symm
      simpa [lookup, keys, h, h'] using ih

theorem lookup_isSome_iff (r : Record) (k : Str) : (r.lookup k).isSome = true ↔ k ∈ r.keys := by
  rw [← not_iff_not, ← lookup_eq_none_iff]; simp

theorem keys_replace (r : Record) (k : Str) (v : JSVal) : (r.replace k v).keys = r.keys := by
  induction r with
  | nil => rfl
  | cons kv rest ih =>
    obtain ⟨k', v'⟩ := kv
    by_cases h : k' = k
    · simp [replace, keys, h]
    · simpa [replace, keys, h] using ih

theorem lookup_replace (r : Record) (k : Str) (v : JSVal) (k' : Str) :
    (r.replace k v).lookup k' =
      if k = k' then (if r.has k then some v else none) else r.lookup k' := by
  induction r with
  | nil => simp [replace, lookup, has]
  | cons kv rest ih =>
    obtain ⟨k0, v0⟩ := kv
    by_cases h : k0 = k
    · subst h
      by_cases h2 : k0 = k'
      · simp [replace, lookup, has, h2]
      · simp [replace, lookup, h2]
    · by_cases h2 : k0 = k'
      · subst h2
        have h' : ¬ k = k0 := fun e => h e.symm
        simp [replace, lookup, h, h']
      · simp only [replace, h, if_false, lookup, h2, ih]
        by_cases h3 : k = k'
        · subst h3
          have hb : (k0 == k) = false := by simpa using h
          simp only [has, List.any_cons, hb, Bool.false_or]
        · simp [h3]

theorem insertIndex_split (r : Record) (n : Nat) (k : Str) (v : JSVal) :
    ∃ a b, r = a ++ b ∧ r.insertIndex n k v = a ++ (k, v) :: b := by
  induction r with
  | nil => exact ⟨[], [], rfl, rfl⟩
  | cons kv rest ih =>
    obtain ⟨k0, v0⟩ := kv
    obtain ⟨a, b, hab, hins⟩ := ih
    simp only [insertIndex]
    split
    · split
      · exact ⟨(k0, v0) :: a, b, by simp [hab], by simp [hins]⟩
      · exact ⟨[], (k0, v0) :: rest, rfl, rfl⟩
    · exact ⟨[], (k0, v0) :: rest, rfl, rfl⟩

theorem set_split (r : Record) (k : Str) (v : JSVal) (h : r.has k = false) :
    ∃ a b, r = a ++ b ∧ r.set k v = a ++ (k, v) :: b := by
  unfold set
  rw [h]
  simp only [Bool.false_eq_true, if_false]
  split
  · exact insertIndex_split r _ k v
  · exact ⟨r, [], by simp, by simp⟩

theorem lookup_append (a b : Record) (k : Str) :
    (a ++ b).lookup k = (a.lookup k).orElse (fun _ => b.lookup k) := by
  induction a with
  | nil => simp [lookup]
  | cons kv rest ih =>
    obtain ⟨k0, v0⟩ := kv
    by_cases h : k0 = k
    · simp [lookup, h]
    · simp [lookup, h, ih]

theorem keys_append (a b : Record) : keys (a ++ b) = keys a ++ keys b := by
  simp [keys]

theorem lookup_set (r : Record) (k : Str) (v : JSVal) (k' : Str) :
    (r.set k v).lookup k' = if k = k' then some v else r.lookup k' := by
  by_cases h : r.has k = true
  · simp [set, h, lookup_replace]
  · have h' : r.has k = false := by simpa using h
    obtain ⟨a, b, hab, hset⟩ := set_split r k v h'
    have hk : k ∉ r.keys := (has_eq_false_iff r k).mp h'
    rw [hab, keys_append, List.mem_append, not_or] at hk
    have ha : a.lookup k = none := (lookup_eq_none_iff a k).mpr hk.1
    rw [hset, hab, lookup_append, lookup_append]
    by_cases h2 : k = k'
    · subst h2; simp [ha, lookup]
    · simp [lookup, h2]

theorem keys_set_of_has (r : Record) (k : Str) (v : JSVal) (h : r.has k = true) :
    (r.set k v).keys = r.keys := by
  simp [set, h, keys_replace]

theorem keyBefore_trans (a b c : Str) (hab : keyBefore a b) (hbc : keyBefore b c) :
    keyBefore a c := by
  unfold keyBefore at *
  cases ha : arrayIndex? a <;> cases hb : arrayIndex? b <;> cases hc : arrayIndex? c <;>
    simp only [ha, hb, hc] at hab hbc ⊢
  all_goals first | trivial | omega

theorem mem_keys_insertIndex (r : Record) (n : Nat) (k : Str) (v : JSVal) (x : Str) :
    x ∈ (r.insertIndex n k v).keys ↔ x = k ∨ x ∈ r.keys := by
  obtain ⟨a, b, hab, hins⟩ := insertIndex_split r n k v
  rw [hins, hab]
  simp only [keys, List.map_append, List.map_cons, List.mem_append, List.mem_cons]
  tauto

theorem nodup_keys_insertIndex (r : Record) (n : Nat) (k : Str) (v : JSVal)
    (hk : k ∉ r.keys) (hn : r.keys.Nodup) : (r.insertIndex n k v).keys.Nodup := by
  obtain ⟨a, b, hab, hins⟩ := insertIndex_split r n k v
  rw [hins]
  rw [hab] at hk hn
  simp only [keys, List.map_append, List.map_cons] at hk hn ⊢
  have hp : (List.map Prod.fst a ++ k :: List.map Prod.fst b).Perm
      (k :: (List.map Prod.fst a ++ List.map Prod.fst b)) := List.perm_middle
  rw [hp.nodup_iff, List.nodup_cons]
  exact ⟨hk, hn⟩

theorem pairwise_keys_insertIndex (r : Record) (n : Nat) (k : Str) (v : JSVal)
    (hidx : arrayIndex? k = some n) (hk : k ∉ r.keys) (hp : r.keys.Pairwise keyBefore) :
    (r.insertIndex n k v).keys.Pairwise keyBefore := by
  induction r with
  | nil => simp [insertIndex, keys]
  | cons kv rest ih =>
    obtain ⟨k0, v0⟩ := kv
    have hk0 : k ≠ k0 := fun e => hk (by simp [keys, e])
    have hkr : k ∉ keys rest := fun e => hk (by simp only [keys, List.map_cons, List.mem_cons]; exact Or.inr e)
    have hp' : (∀ x ∈ keys rest, keyBefore k0 x) ∧ (keys rest).Pairwise keyBefore := by
      simpa [keys] using hp
    have hfront : keyBefore k k0 → (keys ((k, v) :: (k0, v0) :: rest)).Pairwise keyBefore := by
      intro hkk0
      simp only [keys, List.map_cons, List.pairwise_cons, List.mem_cons]
      refine ⟨?_, hp'.1, hp'.2⟩
      rintro x (rfl | hx)
      · exact hkk0
      · exact keyBefore_trans _ _ _ hkk0 (hp'.1 x hx)
    simp only [insertIndex]
    cases h0 : arrayIndex? k0 with
    | none =>
      simp only
      apply hfront
      simp [keyBefore, hidx, h0]
    | some m =>
      simp only
      by_cases hmn : m < n
      · simp only [hmn, if_true]
        have ih' := ih hkr hp'.2
        show List.Pairwise keyBefore (k0 :: keys (insertIndex rest n k v))
        rw [List.pairwise_cons]
        refine ⟨?_, ih'⟩
        intro x hx
        rcases (mem_keys_insertIndex rest n k v x).mp hx with rfl | hx
        · simp [keyBefore, hidx, h0, hmn]
        · exact hp'.1 x hx
      · simp only [hmn, if_false]
        apply hfront
        have hne : m ≠ n := fun e => hk0 (arrayIndex?_inj k k0 n hidx (e ▸ h0))
        simp only [keyBefore, hidx, h0]
        omega

/-- The object stays in a well-formed state when a property is written. -/
theorem wf_set (r : Record) (k : Str) (v : JSVal) (h : WF r) : WF (r.set k v) := by
  by_cases hh : r.has k = true
  · unfold WF; rw [keys_set_of_has r k v hh]; exact h
  · have hh' : r.has k = false := by simpa using hh
    have hk : k ∉ r.keys := (has_eq_false_iff r k).mp hh'
    unfold set
    rw [hh']
    simp only [Bool.false_eq_true, if_false]
    cases hidx : arrayIndex? k with
    | some n =>
      exact ⟨nodup_keys_insertIndex r n k v hk h.1, pairwise_keys_insertIndex r n k v hidx hk h.2⟩
    | none =>
      simp only
      constructor
      · rw [keys_append]
        simp only [keys, List.map_cons, List.map_nil]
        rw [List.nodup_append]
        refine ⟨h.1, by simp, ?_⟩
        intro x hx hx'
        simp only [List.mem_singleton] at hx'
        exact hk (hx' ▸ hx)
      · rw [keys_append]
        simp only [keys, List.map_cons, List.map_nil]
        rw [List.pairwise_append]
        refine ⟨h.2, by simp, ?_⟩
        intro x _ y hy
        simp only [List.mem_singleton] at hy
        subst hy
        unfold keyBefore
        cases arrayIndex? x <;> simp [hidx]

theorem insertIndex_eq_append (r : Record) (n : Nat) (k : Str) (v : JSVal)
    (hidx : arrayIndex? k = some n) (hb : ∀ x ∈ r.keys, keyBefore x k) :
    r.insertIndex n k v = r ++ [(k, v)] := by
  induction r with
  | nil => rfl
  | cons kv rest ih =>
    obtain ⟨k0, v0⟩ := kv
    have h0 : keyBefore k0 k := hb k0 (by simp [keys])
    have hrest : ∀ x ∈ keys rest, keyBefore x k := fun x hx =>
      hb x (by simp only [keys, List.map_cons, List.mem_cons]; exact Or.inr hx)
    simp only [insertIndex]
    unfold keyBefore at h0
    cases hk0 : arrayIndex? k0 with
    | none => simp [hk0, hidx] at h0
    | some m =>
      simp only [hk0, hidx] at h0
      simp [h0, ih hrest]

theorem set_eq_append (r : Record) (k : Str) (v : JSVal) (hk : k ∉ r.keys)
    (hb : ∀ x ∈ r.keys, keyBefore x k) : r.set k v = r ++ [(k, v)] := by
  have hh : r.has k = false := (has_eq_false_iff r k).mpr hk
  unfold set
  rw [hh]
  simp only [Bool.false_eq_true, if_false]
  cases hidx : arrayIndex? k with
  | some n => exact insertIndex_eq_append r n k v hidx hb
  | none => rfl

theorem spread_eq_append (source : Record) : ∀ target : Record, WF (target ++ source) →
    spread target source = target ++ source := by
  induction source with
  | nil => intro target _; simp [spread]
  | cons kv rest ih =>
    intro target h
    obtain ⟨k, v⟩ := kv
    have hn := h.1
    have hp := h.2
    rw [keys_append] at hn hp
    simp only [keys, List.map_cons] at hn hp
    have hk : k ∉ keys target := by
      intro hmem
      rw [List.nodup_append] at hn
      exact hn.2.2 hmem (by simp)
    have hb : ∀ x ∈ keys target, keyBefore x k := by
      intro x hx
      rw [List.pairwise_append] at hp
      exact hp.2.2 x hx k (by simp)
    have hset := set_eq_append target k v hk hb
    show spread (target.set k v) rest = _
    rw [hset, ih (target ++ [(k, v)]) (by simpa using h)]
    simp

/-- Spreading a well-formed object into a fresh one copies it. -/
theorem spread_nil (r : Record) (h : WF r) : spread [] r = r := by
  simpa using spread_eq_append r [] (by simpa using h)

end Record

theorem handleChange_eq_set (field : Str) (value : JSVal) (prev : Record) (h : prev.WF) :
    handleChange field value prev = prev.set field value := by
  unfold handleChange
  rw [Record.spread_nil prev h]

theorem handleChange_wf (field : Str) (value : JSVal) (prev : Record) (h : prev.WF) :
    (handleChange field value prev).WF := by
  rw [handleChange_eq_set field value prev h]
  exact Record.wf_set prev field value h

namespace Record

theorem ext_of_lookup (a : Record) : ∀ b : Record, a.keys = b.keys → a.keys.Nodup →
    (∀ k, a.lookup k = b.lookup k) → a = b := by
  induction a with
  | nil =>
    intro b hk _ _
    cases b with
    | nil => rfl
    | cons x xs => simp [keys] at hk
  | cons kv rest ih =>
    intro b hk hn hl
    obtain ⟨k, v⟩ := kv
    cases b with
    | nil => simp [keys] at hk
    | cons kv' rest' =>
      obtain ⟨k', v'⟩ := kv'
      simp only [keys, List.map_cons, List.cons.injEq] at hk
      obtain ⟨hkk, hkeys⟩ := hk
      subst hkk
      simp only [keys, List.map_cons, List.nodup_cons] at hn
      have hv : v = v' := by
        have := hl k
        simpa [lookup] using this
      subst hv
      have hrest : rest = rest' := by
        apply ih rest' hkeys hn.2
        intro x
        by_cases hx : k = x
        · subst hx
          rw [(lookup_eq_none_iff rest k).mpr hn.1,
            (lookup_eq_none_iff rest' k).mpr (by rw [keys, ← hkeys]; exact hn.1)]
        · have := hl x
          simpa [lookup, hx] using this
      rw [hrest]

theorem keys_filter (r : Record) (p : Str → Bool) :
    keys (r.filter (fun kv => p kv.1)) = r.keys.filter p := by
  induction r with
  | nil => rfl
  | cons kv rest ih =>
    by_cases h : p kv.1 = true
    · simp only [keys] at ih
      simp [keys, List.filter_cons, h, ih]
    · simp only [keys] at ih
      simp [keys, List.filter_cons, h, ih]

theorem lookup_filter (r : Record) (p : Str → Bool) (k : Str) :
    lookup (r.filter (fun kv => p kv.1)) k = if p k then r.lookup k else none := by
  induction r with
  | nil => simp [lookup]
  | cons kv rest ih =>
    obtain ⟨k0, v0⟩ := kv
    by_cases h : p k0 = true
    · by_cases hk : k0 = k
      · subst hk; simp [List.filter_cons, h, lookup]
      · simp [List.filter_cons, h, lookup, hk, ih]
    · by_cases hk : k0 = k
      · subst hk
        have hf : p k0 = false := by simpa using h
        simp only [List.filter_cons, hf, Bool.false_eq_true, if_false, ih]
      · simp [List.filter_cons, h, lookup, hk, ih]

theorem lookup_map_value (r : Record) (f : Str → JSVal → JSVal) (k : Str) :
    lookup (r.map (fun kv => (kv.1, f kv.1 kv.2))) k = (r.lookup k).map (f k) := by
  induction r with
  | nil => simp [lookup]
  | cons kv rest ih =>
    obtain ⟨k0, v0⟩ := kv
    by_cases hk : k0 = k
    · subst hk; simp [lookup]
    · simp [lookup, hk, ih]

theorem keys_filter_set (r : Record) (k : Str) (v : JSVal) (ks : List Str)
    (h : r.keys.filter (fun x => decide (x ∈ ks)) = ks) :
    (r.set k v).keys.filter (fun x => decide (x ∈ ks)) = ks := by
  by_cases hh : r.has k = true
  · rw [keys_set_of_has r k v hh]; exact h
  · have hh' : r.has k = false := by simpa using hh
    have hk : k ∉ r.keys := (has_eq_false_iff r k).mp hh'
    have hks : k ∉ ks := by
      intro hmem
      rw [← h] at hmem
      exact hk (List.mem_filter.mp hmem).1
    obtain ⟨a, b, hab, hset⟩ := set_split r k v hh'
    rw [hset]
    rw [hab] at h
    simp only [keys, List.map_append, List.map_cons, List.filter_append, List.filter_cons,
      hks, decide_False, Bool.false_eq_true, if_false] at h ⊢
    exact h

end Record

theorem lookup_applyEdits (edits : List (Str × JSVal)) : ∀ init : Record, init.WF → ∀ k : Str,
    (applyEdits init edits).lookup k =
      match lastEdit edits k with
      | some v => some v
      | none => init.lookup k := by
  induction edits with
  | nil => intro init _ k; simp [applyEdits, lastEdit]
  | cons e rest ih =>
    intro init h k
    have hstep : applyEdits init (e :: rest) = applyEdits (handleChange e.1 e.2 init) rest := rfl
    rw [hstep, ih _ (handleChange_wf e.1 e.2 init h) k, handleChange_eq_set _ _ _ h,
      Record.lookup_set]
    simp only [lastEdit]
    cases lastEdit rest k with
    | some v => rfl
    | none => by_cases hk : e.1 = k <;> simp [hk]

theorem wf_applyEdits (edits : List (Str × JSVal)) : ∀ init : Record, init.WF →
    (applyEdits init edits).WF := by
  induction edits with
  | nil => intro init h; exact h
  | cons e rest ih =>
    intro init h
    exact ih _ (handleChange_wf e.1 e.2 init h)

theorem keys_filter_applyEdits (edits : List (Str × JSVal)) (ks : List Str) :
    ∀ r : Record, r.WF → r.keys.filter (fun x => decide (x ∈ ks)) = ks →
      (applyEdits r edits).keys.filter (fun x => decide (x ∈ ks)) = ks := by
  induction edits with
  | nil => intro r _ h; exact h
  | cons e rest ih =>
    intro r hwf h
    apply ih _ (handleChange_wf e.1 e.2 r hwf)
    rw [handleChange_eq_set _ _ _ hwf]
    exact Record.keys_filter_set r e.1 e.2 ks h

theorem filter_applyEdits (init : Record) (edits : List (Str × JSVal)) (h : init.WF) :
    (applyEdits init edits).filter (fun kv => decide (kv.1 ∈ init.keys)) =
      withLastEdits edits init := by
  have hkeys := keys_filter_applyEdits edits init.keys init h (by simp)
  apply Record.ext_of_lookup
  · rw [Record.keys_filter (applyEdits init edits) (fun x => decide (x ∈ init.keys)), hkeys]
    simp [withLastEdits, Record.keys]
  · rw [Record.keys_filter (applyEdits init edits) (fun x => decide (x ∈ init.keys)), hkeys]
    exact h.1
  · intro k
    rw [Record.lookup_filter (applyEdits init edits) (fun x => decide (x ∈ init.keys)) k,
      lookup_applyEdits edits init h k]
    unfold withLastEdits
    rw [Record.lookup_map_value init (fun k v => (lastEdit edits k).getD v) k]
    by_cases hk : k ∈ init.keys
    · obtain ⟨v0, hv0⟩ := Option.isSome_iff_exists.mp ((Record.lookup_isSome_iff init k).mpr hk)
      simp only [hk, decide_True, if_true, hv0, Option.map_some']
      cases lastEdit edits k <;> simp
    · simp [hk, (Record.lookup_eq_none_iff init k).mpr hk]

/-! ## Lemmas on decimal digits -/

theorem digitChar_isDigit (n : Nat) : (digitChar n).isDigit = true := by
  unfold digitChar
  have h : n % 10 < 10 := Nat.mod_lt _ (by decide)
  generalize n % 10 = k at h
  interval_cases k <;> rfl

theorem digitVal_digitChar (n : Nat) : digitVal (digitChar n) = n % 10 := by
  unfold digitChar
  have h : n % 10 < 10 := Nat.mod_lt _ (by decide)
  generalize n % 10 = k at h
  interval_cases k <;> rfl

theorem pad_length (w : Nat) : ∀ n : Nat, (pad w n).length = w := by
  induction w with
  | zero => intro n; rfl
  | succ w ih => intro n; simp [pad, ih]

theorem pad_digits (w : Nat) : ∀ n : Nat, ∀ c ∈ pad w n, c.isDigit = true := by
  induction w with
  | zero => intro n c hc; simp [pad] at hc
  | succ w ih =>
    intro n c hc
    simp only [pad, List.mem_append, List.mem_singleton] at hc
    rcases hc with hc | rfl
    · exact ih _ c hc
    · exact digitChar_isDigit n

theorem decimalValue_pad (w : Nat) : ∀ n : Nat, decimalValue (pad w n) = n % 10 ^ w := by
  induction w with
  | zero => intro n; simp [pad, decimalValue, Nat.mod_one]
  | succ w ih =>
    intro n
    rw [pad, decimalValue_snoc, ih, digitVal_digitChar, pow_succ, Nat.mul_comm (10 ^ w) 10,
      Nat.mod_mul]
    omega


theorem decimalValue_append (a : Str) : ∀ b : Str,
    decimalValue (a ++ b) = decimalValue a * 10 ^ b.length + decimalValue b := by
  intro b
  induction b using List.reverseRecOn with
  | nil => simp [decimalValue]
  | append_singleton b c ih =>
    rw [← List.append_assoc, decimalValue_snoc, ih, decimalValue_snoc, List.length_append,
      List.length_singleton, pow_succ]
    ring

theorem decimalValue_replicate_zero (j : Nat) : decimalValue (List.replicate j '0') = 0 := by
  induction j with
  | zero => rfl
  | succ j ih =>
    rw [List.replicate_succ', decimalValue_snoc, ih]
    rfl

theorem natDigitChar_spec (d : Nat) (h : d < 10) :
    (Nat.digitChar d).isDigit = true ∧ digitVal (Nat.digitChar d) = d ∧
      (d ≠ 0 → Nat.digitChar d ≠ '0') := by
  interval_cases d <;> exact ⟨by decide, by decide, by decide⟩

theorem toDigitsCore_spec : ∀ (fuel n : Nat) (ds : List Char), n < fuel →
    ∃ pre, Nat.toDigitsCore 10 fuel n ds = pre ++ ds ∧ (∀ c ∈ pre, c.isDigit = true) ∧
      decimalValue pre = n ∧ pre ≠ [] ∧ (n ≠ 0 → ∀ c ∈ pre.head?, c ≠ '0') := by
  intro fuel
  induction fuel with
  | zero => intro n ds h; omega
  | succ fuel ih =>
    intro n ds h
    obtain ⟨hd, hv, hz⟩ := natDigitChar_spec (n % 10) (Nat.mod_lt _ (by decide))
    rw [Nat.toDigitsCore]
    by_cases h0 : n / 10 = 0
    · simp only [h0, if_true]
      refine ⟨[Nat.digitChar (n % 10)], rfl, ?_, ?_, by simp, ?_⟩
      · intro c hc
        simp only [List.mem_singleton] at hc
        rw [hc]; exact hd
      · have : decimalValue [Nat.digitChar (n % 10)] = digitVal (Nat.digitChar (n % 10)) := by
          simp [decimalValue]
        rw [this, hv]
        omega
      · intro hn c hc
        simp only [List.head?_cons, Option.mem_def, Option.some.injEq] at hc
        rw [← hc]
        exact hz (by omega)
    · simp only [h0, if_false]
      obtain ⟨pre, hpre, hdig, hval, hne, hhead⟩ :=
        ih (n / 10) (Nat.digitChar (n % 10) :: ds) (by omega)
      refine ⟨pre ++ [Nat.digitChar (n % 10)], ?_, ?_, ?_, by simp, ?_⟩
      · rw [hpre]; simp
      · intro c hc
        simp only [List.mem_append, List.mem_singleton] at hc
        rcases hc with hc | hc
        · exact hdig c hc
        · rw [hc]; exact hd
      · rw [decimalValue_snoc, hval, hv]
        omega
      · intro _ c hc
        cases pre with
        | nil => exact absurd rfl hne
        | cons p ps =>
          simp only [List.cons_append, List.head?_cons, Option.mem_def, Option.some.injEq] at hc
          exact hhead h0 c (by simp [hc])

/-- The decimal string of a natural number: digits, with the value of the
number, and without a leading zero unless the number is zero. -/
theorem natToString_spec (n : Nat) :
    (∀ c ∈ natToString n, c.isDigit = true) ∧ decimalValue (natToString n) = n ∧
      natToString n ≠ [] ∧ (n ≠ 0 → ∀ c ∈ (natToString n).head?, c ≠ '0') := by
  obtain ⟨pre, hpre, hdig, hval, hne, hhead⟩ := toDigitsCore_spec (n + 1) n [] (by omega)
  have e : natToString n = pre := by
    unfold natToString Nat.toDigits
    rw [hpre, List.append_nil]
  rw [e]
  exact ⟨hdig, hval, hne, hhead⟩

theorem pad_head (k : Nat) : ∀ s : Nat, 10 ^ k ≤ s → s < 10 ^ (k + 1) →
    ∃ c t, pad (k + 1) s = c :: t ∧ c.isDigit = true ∧ c ≠ '0' := by
  induction k with
  | zero =>
    intro s h1 h2
    refine ⟨digitChar s, [], by simp [pad], digitChar_isDigit s, ?_⟩
    intro e
    have := digitVal_digitChar s
    rw [e] at this
    have hz : digitVal '0' = 0 := by decide
    simp only [pow_zero, zero_add, pow_one] at h1 h2
    omega
  | succ k ih =>
    intro s h1 h2
    obtain ⟨c, t, ht, hc, hz⟩ := ih (s / 10) (by rw [pow_succ] at h1; omega)
      (by rw [pow_succ] at h2; omega)
    refine ⟨c, t ++ [digitChar s], ?_, hc, hz⟩
    rw [pad, ht]
    rfl

/-! ## Lemmas on the clock -/

theorem civil_core (era doe c doc q doq a doy mp d m y : Nat) (hdoe : doe < 146097)
    (hc : c = min (doe / 36524) 3) (hdoc : doc = doe - c * 36524) (hq : q = doc / 1461)
    (hdoq : doq = doc % 1461) (ha : a = min (doq / 365) 3) (hdoy : doy = doq - a * 365)
    (hmp : mp = (5 * doy + 2) / 153) (hd : d = doy - (153 * mp + 2) / 5 + 1)
    (hm : m = if mp < 10 then mp + 3 else mp - 9)
    (hy : y = era * 400 + c * 100 + q * 4 + a + (if m ≤ 2 then 1 else 0)) :
    daysFromCivil y m d = ((era * 146097 + doe : Nat) : Int) - 719468 ∧
    1 ≤ m ∧ m ≤ 12 ∧ 1 ≤ d ∧ d ≤ daysInMonth y m := by
  have c3 : c ≤ 3 := by omega
  have cdoe : c * 36524 + doc = doe := by omega
  have doc_le : doc ≤ 36524 := by omega
  have doc_lt : c < 3 → doc < 36524 := by omega
  have q24 : q ≤ 24 := by omega
  have qdoc : q * 1461 + doq = doc := by omega
  have doq_lt : doq < 1461 := by omega
  have a3 : a ≤ 3 := by omega
  have adoq : a * 365 + doy = doq := by omega
  have doy_le : doy ≤ 365 := by omega
  have doy_lt : a < 3 → doy < 365 := by omega
  have q24' : q = 24 → doq ≤ 1460 ∧ (c < 3 → doq < 1460) := by omega
  have mp11 : mp ≤ 11 := by omega
  have mpd : (153 * mp + 2) / 5 + (d - 1) = doy ∧ 1 ≤ d := by omega
  have hm1 : 1 ≤ m ∧ m ≤ 12 := by subst hm; split <;> omega
  have hmp' : (if m > 2 then m - 3 else m + 9) = mp := by subst hm; split <;> split <;> omega
  have hy' : (if m ≤ 2 then y - 1 else y) = era * 400 + (c * 100 + q * 4 + a) := by
    subst hy; split <;> omega
  refine ⟨?_, hm1.1, hm1.2, mpd.2, ?_⟩
  · simp only [daysFromCivil, hmp', hy']
    have e1 : (era * 400 + (c * 100 + q * 4 + a)) / 400 = era := by omega
    have e2 : (era * 400 + (c * 100 + q * 4 + a)) % 400 = c * 100 + q * 4 + a := by omega
    rw [e1, e2]
    have e3 : (c * 100 + q * 4 + a) / 4 = c * 25 + q := by omega
    have e4 : (c * 100 + q * 4 + a) / 100 = c := by omega
    rw [e3, e4]
    have e5 : (c * 100 + q * 4 + a) * 365 + (c * 25 + q) - c
        + ((153 * mp + 2) / 5 + d - 1) = doe := by
      omega
    rw [e5]
  · have hmpc : 153 * mp ≤ 5 * doy + 2 ∧ 5 * doy + 2 < 153 * mp + 153 := by omega
    by_cases hfeb : mp = 11
    · have hm2 : m = 2 := by subst hm; subst hfeb; rfl
      have hyv : y = era * 400 + c * 100 + q * 4 + a + 1 := by subst hy; rw [hm2]; rfl
      by_cases hlast : doy = 365
      · have ha3 : a = 3 := by omega
        have hleap : isLeapYear y = true := by
          simp only [isLeapYear, Bool.and_eq_true, beq_iff_eq, Bool.or_eq_true, bne_iff_ne, ne_eq]
          by_cases hq : q = 24
          · have hc3 : c = 3 := by omega
            omega
          · omega
        simp only [daysInMonth, hm2, hleap, beq_self_eq_true, if_true]
        omega
      · simp only [daysInMonth, hm2, beq_self_eq_true, if_true]
        split <;> omega
    · have hmp10 : mp ≤ 10 := by omega
      have hmv : m = if mp < 10 then mp + 3 else mp - 9 := hm
      clear hm hy hmp' hy'
      interval_cases mp <;> simp only [daysInMonth] <;> simp [hmv] <;> omega

/-- The calendar date of a day number is a date of the calendar, and its day
number is the one it was computed from. -/
theorem civilFromDays_spec (days : Nat) :
    daysFromCivil (civilFromDays days).1 (civilFromDays days).2.1 (civilFromDays days).2.2
        = (days : Int) ∧
    1 ≤ (civilFromDays days).2.1 ∧ (civilFromDays days).2.1 ≤ 12 ∧
    1 ≤ (civilFromDays days).2.2 ∧
    (civilFromDays days).2.2 ≤ daysInMonth (civilFromDays days).1 (civilFromDays days).2.1 := by
  have h := civil_core ((days + 719468) / 146097) ((days + 719468) % 146097) _ _ _ _ _ _ _
    (civilFromDays days).2.2 (civilFromDays days).2.1 (civilFromDays days).1
    (Nat.mod_lt _ (by decide)) rfl rfl rfl rfl rfl rfl rfl rfl rfl rfl
  refine ⟨?_, h.2⟩
  rw [h.1]
  have := Nat.div_add_mod (days + 719468) 146097
  omega

theorem civilFromDays_year_lt (days : Nat) (h : days ≤ 100000000) :
    (civilFromDays days).1 < 1000000 := by
  simp only [civilFromDays]
  split_ifs <;> omega


/-! ## Lemmas on date-time strings -/

theorem readField_pad (w n : Nat) (rest : Str) :
    readField w (pad w n ++ rest) = some (n % 10 ^ w, rest) := by
  have hl := pad_length w n
  have htake : (pad w n ++ rest).take w = pad w n := List.take_left' hl
  have hdrop : (pad w n ++ rest).drop w = rest := List.drop_left' hl
  have hall : (pad w n).all Char.isDigit = true := by
    rw [List.all_eq_true]; exact pad_digits w n
  unfold readField
  rw [htake, hdrop, hall, decimalValue_pad]
  have hlen : w ≤ (pad w n ++ rest).length := by
    rw [List.length_append, hl]; omega
  rw [if_pos ⟨hlen, rfl⟩]

theorem expectChar_cons (c : Char) (rest : Str) : expectChar c (c :: rest) = some rest := by
  simp [expectChar]

theorem readYear_isoYear (y : Nat) (h : y < 1000000) (rest : Str) :
    readYear (isoYear y ++ rest) = some (y, rest) := by
  unfold isoYear
  by_cases hy : y ≤ 9999
  · simp only [hy, if_true]
    have hhead : (pad 4 y ++ rest).head? ≠ some '+' := by
      intro hh
      have hlen := pad_length 4 y
      cases hp : pad 4 y with
      | nil => rw [hp] at hlen; cases hlen
      | cons c tail =>
        rw [hp] at hh
        simp only [List.cons_append, List.head?_cons, Option.some.injEq] at hh
        have hdig := pad_digits 4 y c (by rw [hp]; exact List.mem_cons_self _ _)
        rw [hh] at hdig
        revert hdig
        decide
    unfold readYear
    rw [if_neg hhead, readField_pad]
    have : y % 10 ^ 4 = y := Nat.mod_eq_of_lt (by omega)
    rw [this]
  · simp only [hy, if_false]
    unfold readYear
    simp only [List.cons_append, List.head?_cons, if_true, List.drop_succ_cons, List.drop_zero]
    rw [readField_pad]
    have : y % 10 ^ 6 = y := Nat.mod_eq_of_lt (by omega)
    rw [this]

theorem parseISODateTime_fields (y m d h mi sec ms : Nat) (hy : y < 1000000) (hm : m < 100)
    (hd : d < 100) (hh : h < 100) (hmi : mi < 100) (hsec : sec < 100) (hms : ms < 1000) :
    parseISODateTime (isoYear y ++ ('-' :: (pad 2 m ++ ('-' :: (pad 2 d ++ ('T' :: (pad 2 h
      ++ (':' :: (pad 2 mi ++ (':' :: (pad 2 sec ++ ('.' :: (pad 3 ms ++ ['Z'])))))))))))))
      = timeValueOfFields y m d h mi sec ms := by
  have e2 : ∀ n, n < 100 → n % 10 ^ 2 = n := fun n hn => Nat.mod_eq_of_lt (by omega)
  have e3 : ∀ n, n < 1000 → n % 10 ^ 3 = n := fun n hn => Nat.mod_eq_of_lt (by omega)
  unfold parseISODateTime
  rw [readYear_isoYear y hy]
  simp only [dateTimeFormat, readFormat, expectChar_cons, readField_pad]
  rw [e2 m hm, e2 d hd, e2 h hh, e2 mi hmi, e2 sec hsec, e3 ms hms]

theorem toISOString_eq (t : Nat) :
    toISOString t =
      isoYear (civilFromDays (t / msPerDay)).1 ++ ('-' :: (pad 2 (civilFromDays (t / msPerDay)).2.1
        ++ ('-' :: (pad 2 (civilFromDays (t / msPerDay)).2.2 ++ ('T' :: (pad 2 (t % msPerDay / 3600000)
        ++ (':' :: (pad 2 (t % msPerDay / 60000 % 60) ++ (':' :: (pad 2 (t % msPerDay / 1000 % 60)
        ++ ('.' :: (pad 3 (t % msPerDay % 1000) ++ ['Z'])))))))))))) := by
  simp only [toISOString, List.append_assoc, List.cons_append]

/-- Parsing the string of `toISOString` gives back the time value: the string
is a valid date. -/
theorem parseISODateTime_toISOString (t : Nat) (h : t ≤ maxTimeValue) :
    parseISODateTime (toISOString t) = some (t : Int) := by
  have hdays : t / msPerDay ≤ 100000000 := by
    unfold maxTimeValue at h; unfold msPerDay; omega
  obtain ⟨hround, hm1, hm12, hd1, hdim⟩ := civilFromDays_spec (t / msPerDay)
  have hyear := civilFromDays_year_lt (t / msPerDay) hdays
  have hr : t % msPerDay < 86400000 := Nat.mod_lt _ (by decide)
  have hdm : (civilFromDays (t / msPerDay)).2.2 ≤ 31 := by
    refine le_trans hdim ?_
    unfold daysInMonth
    split
    · split <;> omega
    · split <;> omega
  rw [toISOString_eq, parseISODateTime_fields _ _ _ _ _ _ _ hyear (by omega) (by omega)
    (by omega) (by omega) (by omega) (by omega)]
  unfold timeValueOfFields
  have hcond : 1 ≤ (civilFromDays (t / msPerDay)).2.1 ∧ (civilFromDays (t / msPerDay)).2.1 ≤ 12 ∧
      1 ≤ (civilFromDays (t / msPerDay)).2.2 ∧
      (civilFromDays (t / msPerDay)).2.2
        ≤ daysInMonth (civilFromDays (t / msPerDay)).1 (civilFromDays (t / msPerDay)).2.1 ∧
      t % msPerDay / 3600000 ≤ 23 ∧ t % msPerDay / 60000 % 60 ≤ 59 ∧
      t % msPerDay / 1000 % 60 ≤ 59 := ⟨hm1, hm12, hd1, hdim, by omega, by omega, by omega⟩
  rw [if_pos hcond, hround]
  have hval : ((t / msPerDay : Nat) : Int) * 86400000
      + ((t % msPerDay / 3600000 * 3600000 + t % msPerDay / 60000 % 60 * 60000
          + t % msPerDay / 1000 % 60 * 1000 + t % msPerDay % 1000 : Nat) : Int) = (t : Int) := by
    have := Nat.div_add_mod t msPerDay
    unfold msPerDay at this ⊢
    omega
  rw [hval]
  simp only [Int.natAbs_ofNat, h, if_true]

/-! ## Lemmas on JSON strings -/

namespace JSON

theorem char_not_surrogate (c : Char) : ¬ (0xD800 ≤ c.toNat ∧ c.toNat ≤ 0xDFFF) := by
  have h := c.valid
  simp only [UInt32.isValidChar, Nat.isValidChar] at h
  show ¬ (0xD800 ≤ c.val.toNat ∧ c.val.toNat ≤ 0xDFFF)
  omega

theorem codeUnitChar_toNat (c : Char) : codeUnitChar c.toNat = c := by
  unfold codeUnitChar
  rw [if_neg (char_not_surrogate c)]
  exact Char.ofNat_toNat c

theorem hex4_control (n : Nat) (h : n < 32) :
    hex4? '0' '0' (hexDigit (n / 16)) (hexDigit (n % 16)) = some n := by
  interval_cases n <;> decide

theorem parseStringBody_escape (c : Char) (t : Str) (acc : Str) :
    parseStringBody (escapeChar c ++ t) acc = parseStringBody t (c :: acc) := by
  unfold escapeChar
  split
  · rename_i h; have hc : c = '"' := by simpa using h
    subst hc
    show parseStringBody ('\\' :: '"' :: t) acc = _
    rw [parseStringBody.eq_def]
    simp [escapeUnit?, codeUnitChar]
  split
  · rename_i h; have hc : c = '\\' := by simpa using h
    subst hc
    show parseStringBody ('\\' :: '\\' :: t) acc = _
    rw [parseStringBody.eq_def]
    simp [escapeUnit?, codeUnitChar]
  split
  · rename_i h; have hc : c = '\x08' := by simpa using h
    subst hc
    show parseStringBody ('\\' :: 'b' :: t) acc = _
    rw [parseStringBody.eq_def]
    simp [escapeUnit?, codeUnitChar]
  split
  · rename_i h; have hc : c = '\x0c' := by simpa using h
    subst hc
    show parseStringBody ('\\' :: 'f' :: t) acc = _
    rw [parseStringBody.eq_def]
    simp [escapeUnit?, codeUnitChar]
  split
  · rename_i h; have hc : c = '\n' := by simpa using h
    subst hc
    show parseStringBody ('\\' :: 'n' :: t) acc = _
    rw [parseStringBody.eq_def]
    simp [escapeUnit?, codeUnitChar]
  split
  · rename_i h; have hc : c = '\r' := by simpa using h
    subst hc
    show parseStringBody ('\\' :: 'r' :: t) acc = _
    rw [parseStringBody.eq_def]
    simp [escapeUnit?, codeUnitChar]
  split
  · rename_i h; have hc : c = '\t' := by simpa using h
    subst hc
    show parseStringBody ('\\' :: 't' :: t) acc = _
    rw [parseStringBody.eq_def]
    simp [escapeUnit?, codeUnitChar]
  split
  · rename_i hlt
    show parseStringBody ('\\' :: 'u' :: '0' :: '0' :: hexDigit (c.toNat / 16)
      :: hexDigit (c.toNat % 16) :: t) acc = _
    rw [parseStringBody.eq_def]
    simp only [Char.reduceEq, if_false, if_true, hex4_control c.toNat hlt, codeUnitChar_toNat]
  · rename_i h1 h2 h3 h4 h5 h6 h7 hlt
    have hq : c ≠ '"' := by simpa using h1
    have hb : c ≠ '\\' := by simpa using h2
    show parseStringBody (c :: t) acc = _
    rw [parseStringBody.eq_def]
    simp only [hq, hb, hlt, if_false]

theorem hexVal_hexDigit (k : Nat) (h : k < 16) : hexVal? (hexDigit k) = some k := by
  interval_cases k <;> decide

theorem hex4_hexDigit (u : Nat) (h : u < 65536) :
    hex4? (hexDigit (u / 4096)) (hexDigit (u / 256 % 16)) (hexDigit (u / 16 % 16))
      (hexDigit (u % 16)) = some u := by
  unfold hex4?
  rw [hexVal_hexDigit _ (by omega), hexVal_hexDigit _ (by omega), hexVal_hexDigit _ (by omega),
    hexVal_hexDigit _ (by omega)]
  simp only [Option.some.injEq]
  omega

theorem char_toNat_le (c : Char) : c.toNat ≤ 0x10FFFF := by
  have h := c.valid
  simp only [UInt32.isValidChar, Nat.isValidChar] at h
  show c.val.toNat ≤ 0x10FFFF
  omega

theorem parseStringBody_unicodeEscape (u : Nat) (c : Char) (t : Str) (acc : Str)
    (hu : u < 65536) (hback : codeUnitChar u = c) :
    parseStringBody ('\\' :: 'u' :: hexDigit (u / 4096) :: hexDigit (u / 256 % 16)
      :: hexDigit (u / 16 % 16) :: hexDigit (u % 16) :: t) acc
      = parseStringBody t (c :: acc) := by
  rw [parseStringBody.eq_def]
  simp only [Char.reduceEq, if_false, if_true, hex4_hexDigit _ hu, hback]

theorem codeUnitChar_surrogate (u n : Nat) (hlo : 0xD800 ≤ u) (hhi : u ≤ 0xDFFF)
    (hn : 0x10F800 + (u - 0xD800) = n) : codeUnitChar u = Char.ofNat n := by
  unfold codeUnitChar
  rw [if_pos ⟨hlo, hhi⟩, hn]

theorem parseStringBody_surrogateEscape (c : Char) (t : Str) (acc : Str)
    (h : isSurrogate c = true) :
    parseStringBody (surrogateEscape c ++ t) acc = parseStringBody t (c :: acc) := by
  have hlo : 0x10F800 ≤ c.toNat := by simpa [isSurrogate] using h
  have hhi := char_toNat_le c
  obtain ⟨u, hu⟩ : ∃ u, u = c.toNat - 0x10F800 + 0xD800 := ⟨_, rfl⟩
  have hback : codeUnitChar u = c := by
    rw [codeUnitChar_surrogate u c.toNat (by omega) (by omega) (by omega)]
    exact Char.ofNat_toNat c
  have := parseStringBody_unicodeEscape u c t acc (by omega) hback
  rw [hu] at this
  exact this

theorem parseStringBody_raw (c : Char) (t : Str) (acc : Str) (h : isSurrogate c = true) :
    parseStringBody (c :: t) acc = parseStringBody t (c :: acc) := by
  have hlo : 0x10F800 ≤ c.toNat := by simpa [isSurrogate] using h
  have hq : c ≠ '"' := by intro e; rw [e] at hlo; revert hlo; decide
  have hb : c ≠ '\\' := by intro e; rw [e] at hlo; revert hlo; decide
  have hlt : ¬ c.toNat < 0x20 := by omega
  rw [parseStringBody.eq_def]
  simp only [hq, hb, hlt, if_false]

theorem parseStringBody_escapeUnit (c : Char) (t : Str) (acc : Str) :
    parseStringBody (escapeUnit c ++ t) acc = parseStringBody t (c :: acc) := by
  unfold escapeUnit
  split
  · rename_i h
    exact parseStringBody_surrogateEscape c t acc h
  · exact parseStringBody_escape c t acc

theorem parseStringBody_quoteBody (rest : Str) : ∀ (n : Nat) (s acc : Str), s.length ≤ n →
    parseStringBody (quoteBody s ++ rest) acc = some (acc.reverse ++ s, rest) := by
  intro n
  induction n with
  | zero =>
    intro s acc h
    have hs : s = [] := List.length_eq_zero.mp (by omega)
    subst hs
    show parseStringBody ('"' :: rest) acc = _
    rw [parseStringBody.eq_def]
    simp
  | succ n ih =>
    intro s acc h
    match s, h with
    | [], _ =>
      show parseStringBody ('"' :: rest) acc = _
      rw [parseStringBody.eq_def]
      simp
    | [c], _ =>
      show parseStringBody (escapeUnit c ++ ['"'] ++ rest) acc = _
      rw [List.append_assoc, parseStringBody_escapeUnit]
      show parseStringBody ('"' :: rest) (c :: acc) = _
      rw [parseStringBody.eq_def]
      simp
    | c :: d :: more, h =>
      rw [quoteBody]
      split
      · rename_i hpair
        simp only [Bool.and_eq_true] at hpair
        have hc : isSurrogate c = true := by
          have := hpair.1
          simp only [isLeadingSurrogate, Bool.and_eq_true, decide_eq_true_eq] at this
          simp [isSurrogate, this.1]
        have hd : isSurrogate d = true := by
          have := hpair.2
          simp only [isTrailingSurrogate, decide_eq_true_eq] at this
          simp only [isSurrogate, decide_eq_true_eq]
          omega
        rw [List.cons_append, List.cons_append, parseStringBody_raw c _ acc hc,
          parseStringBody_raw d _ (c :: acc) hd,
          ih more (d :: c :: acc) (by simp only [List.length_cons] at h; omega)]
        simp
      · rw [List.append_assoc, parseStringBody_escapeUnit,
          ih (d :: more) (c :: acc) (by simp only [List.length_cons] at h ⊢; omega)]
        simp

/-- A quoted string is read back as the string. -/
theorem parseStringBody_quote (s rest : Str) :
    ∃ body, quote s ++ rest = '"' :: body ∧ parseStringBody body [] = some (s, rest) := by
  refine ⟨quoteBody s ++ rest, rfl, ?_⟩
  rw [parseStringBody_quoteBody rest s.length s [] (Nat.le_refl _)]
  rfl

end JSON

/-! ## Lemmas on JSON numbers -/

namespace JSON

theorem takeWhile_append_stop (p : Char → Bool) (a b : Str) (ha : ∀ c ∈ a, p c = true)
    (hb : ∀ c ∈ b.head?, p c = false) : (a ++ b).takeWhile p = a := by
  induction a with
  | nil =>
    cases b with
    | nil => rfl
    | cons c rest =>
      have := hb c (by simp)
      simp [List.takeWhile_cons, this]
  | cons c rest ih =>
    have hc := ha c (List.mem_cons_self _ _)
    simp only [List.cons_append, List.takeWhile_cons, hc, if_true]
    rw [ih (fun x hx => ha x (List.mem_cons_of_mem _ hx))]

theorem dropWhile_append_stop (p : Char → Bool) (a b : Str) (ha : ∀ c ∈ a, p c = true)
    (hb : ∀ c ∈ b.head?, p c = false) : (a ++ b).dropWhile p = b := by
  induction a with
  | nil =>
    cases b with
    | nil => rfl
    | cons c rest =>
      have := hb c (by simp)
      simp [List.dropWhile_cons, this]
  | cons c rest ih =>
    have hc := ha c (List.mem_cons_self _ _)
    simp only [List.cons_append, List.dropWhile_cons, hc, if_true]
    exact ih (fun x hx => ha x (List.mem_cons_of_mem _ hx))

theorem takeWhile_all (p : Char → Bool) (s : Str) : ∀ c ∈ s.takeWhile p, p c = true := by
  intro c hc
  exact (List.mem_takeWhile_imp hc)

theorem dropWhile_head (p : Char → Bool) (s : Str) : ∀ c ∈ (s.dropWhile p).head?, p c = false := by
  induction s with
  | nil => intro c hc; simp at hc
  | cons x rest ih =>
    intro c hc
    by_cases hx : p x = true
    · simp only [List.dropWhile_cons, hx, if_true] at hc
      exact ih c hc
    · simp only [List.dropWhile_cons, hx] at hc
      simp only [Bool.false_eq_true, if_false, List.head?_cons, Option.mem_def,
        Option.some.injEq] at hc
      subst hc
      simpa using hx

theorem scanInt_rereads (s tok rest : Str) (h : scanInt s = some (tok, rest)) :
    Rereads scanInt (fun _ r => NoDigitNext r) s tok rest ∧
      (∃ d ds, tok = d :: ds ∧ d.isDigit = true) := by
  unfold scanInt at h
  split at h
  · cases h
  · rename_i hcond
    simp only [Option.some.injEq, Prod.mk.injEq] at h
    obtain ⟨htok, hrest⟩ := h
    have hall : ∀ c ∈ tok, c.isDigit = true := htok ▸ takeWhile_all _ s
    refine ⟨⟨?_, ?_, ?_⟩, ?_⟩
    · rw [← htok, ← hrest, List.takeWhile_append_dropWhile]
    · exact hrest ▸ dropWhile_head _ s
    · intro rest' hstop
      unfold scanInt
      rw [takeWhile_append_stop _ tok rest' hall hstop, dropWhile_append_stop _ tok rest' hall hstop,
        ← htok]
      rw [if_neg hcond]
    · cases htk : tok with
      | nil =>
        rw [← htok] at htk
        simp [htk] at hcond
      | cons d ds => exact ⟨d, ds, rfl, hall d (htk ▸ List.mem_cons_self _ _)⟩

theorem scanFrac_rereads (s tok rest : Str) (h : scanFrac s = some (tok, rest))
    (hs : NoDigitNext s) :
    Rereads scanFrac FracStop s tok rest ∧ (tok = [] ∨ ∃ ds, tok = '.' :: ds) := by
  unfold scanFrac at h
  split at h
  · simp only [Option.some.injEq, Prod.mk.injEq] at h
    obtain ⟨htok, hrest⟩ := h
    subst htok; subst hrest
    refine ⟨⟨rfl, ⟨fun c hc => by simp at hc, fun _ c hc => by simp at hc⟩, ?_⟩, Or.inl rfl⟩
    intro rest' hstop
    cases rest' with
    | nil => rfl
    | cons c r =>
      have hc : c ≠ '.' := hstop.2 rfl c (by simp)
      simp [scanFrac, hc]
  · rename_i c r
    split at h
    · rename_i hdot
      split at h
      · cases h
      · rename_i hne
        simp only [Option.some.injEq, Prod.mk.injEq] at h
        obtain ⟨htok, hrest⟩ := h
        have hall : ∀ x ∈ r.takeWhile Char.isDigit, x.isDigit = true := takeWhile_all _ r
        refine ⟨⟨?_, ?_, ?_⟩, Or.inr ⟨_, htok.symm⟩⟩
        · rw [← htok, ← hrest, hdot, List.cons_append, List.takeWhile_append_dropWhile]
        · refine ⟨hrest ▸ dropWhile_head _ r, ?_⟩
          intro he
          rw [← htok] at he
          cases he
        · intro rest' hstop
          rw [← htok]
          simp only [List.cons_append, scanFrac, if_true]
          rw [takeWhile_append_stop _ _ rest' hall hstop.1,
            dropWhile_append_stop _ _ rest' hall hstop.1, if_neg hne]
    · rename_i hdot
      simp only [Option.some.injEq, Prod.mk.injEq] at h
      obtain ⟨htok, hrest⟩ := h
      subst htok; subst hrest
      refine ⟨⟨rfl, ⟨hs, fun _ x hx => ?_⟩, ?_⟩, Or.inl rfl⟩
      · simp only [List.head?_cons, Option.mem_def, Option.some.injEq] at hx
        exact hx ▸ hdot
      · intro rest' hstop
        cases rest' with
        | nil => rfl
        | cons x r' =>
          have hx : x ≠ '.' := hstop.2 rfl x (by simp)
          simp [scanFrac, hx]

theorem scanExpDigits_rereads (mark s tok rest : Str)
    (h : scanExpDigits mark s = some (tok, rest)) :
    ∃ ds, tok = mark ++ ds ∧ s = ds ++ rest ∧ ds ≠ [] ∧ NoDigitNext rest ∧
      (∀ c ∈ ds, c.isDigit = true) ∧
      ∀ rest', NoDigitNext rest' → scanExpDigits mark (ds ++ rest') = some (tok, rest') := by
  unfold scanExpDigits at h
  split at h
  · cases h
  · rename_i hne
    simp only [Option.some.injEq, Prod.mk.injEq] at h
    obtain ⟨htok, hrest⟩ := h
    have hall : ∀ x ∈ s.takeWhile Char.isDigit, x.isDigit = true := takeWhile_all _ s
    refine ⟨s.takeWhile Char.isDigit, htok.symm, ?_, ?_, hrest ▸ dropWhile_head _ s, hall, ?_⟩
    · rw [← hrest, List.takeWhile_append_dropWhile]
    · intro he; simp [he] at hne
    · intro rest' hstop
      unfold scanExpDigits
      rw [takeWhile_append_stop _ _ rest' hall hstop, dropWhile_append_stop _ _ rest' hall hstop,
        if_neg hne, htok]

theorem scanExp_rereads (s tok rest : Str) (h : scanExp s = some (tok, rest))
    (hs : NoDigitNext s) :
    Rereads scanExp ExpStop s tok rest ∧
      (tok = [] ∨ ∃ c t, tok = c :: t ∧ (c = 'e' ∨ c = 'E')) := by
  unfold scanExp at h
  split at h
  · simp only [Option.some.injEq, Prod.mk.injEq] at h
    obtain ⟨htok, hrest⟩ := h
    subst htok; subst hrest
    refine ⟨⟨rfl, ⟨fun c hc => by simp at hc, fun _ c hc => by simp at hc⟩, ?_⟩, Or.inl rfl⟩
    intro rest' hstop
    cases rest' with
    | nil => rfl
    | cons c r =>
      have hc := hstop.2 rfl c (by simp)
      simp [scanExp, hc.1, hc.2]
  · rename_i c r
    split at h
    · rename_i hmark
      split at h
      · cases h
      · rename_i g r1
        split at h
        · rename_i hsign
          obtain ⟨ds, htok, hsr, hne, hstop, hall, hre⟩ := scanExpDigits_rereads _ _ _ _ h
          refine ⟨⟨?_, ⟨hstop, ?_⟩, ?_⟩, Or.inr ⟨c, g :: ds, by rw [htok]; rfl, hmark⟩⟩
          · rw [htok, hsr]; rfl
          · intro he; rw [htok] at he; cases he
          · intro rest' hstop'
            rw [htok]
            show scanExp (c :: g :: (ds ++ rest')) = _
            unfold scanExp
            simp only [hmark, hsign, if_true]
            rw [hre rest' hstop'.1, htok]
        · rename_i hsign
          obtain ⟨ds, htok, hsr, hne, hstop, hall, hre⟩ := scanExpDigits_rereads _ _ _ _ h
          cases ds with
          | nil => exact absurd rfl hne
          | cons d ds' =>
            simp only [List.cons_append, List.cons.injEq] at hsr
            obtain ⟨hgd, hr1⟩ := hsr
            subst hgd
            refine ⟨⟨?_, ⟨hstop, ?_⟩, ?_⟩, Or.inr ⟨c, g :: ds', by rw [htok]; rfl, hmark⟩⟩
            · rw [htok, hr1]; rfl
            · intro he; rw [htok] at he; cases he
            · intro rest' hstop'
              rw [htok]
              show scanExp (c :: g :: (ds' ++ rest')) = _
              unfold scanExp
              simp only [hmark, hsign, if_true, if_false]
              have := hre rest' hstop'.1
              simp only [List.cons_append] at this
              rw [this, htok]
    · rename_i hmark
      simp only [Option.some.injEq, Prod.mk.injEq] at h
      obtain ⟨htok, hrest⟩ := h
      subst htok; subst hrest
      have hce : c ≠ 'e' ∧ c ≠ 'E' := by
        constructor
        · intro e; exact hmark (Or.inl e)
        · intro e; exact hmark (Or.inr e)
      refine ⟨⟨rfl, ⟨hs, fun _ x hx => ?_⟩, ?_⟩, Or.inl rfl⟩
      · simp only [List.head?_cons, Option.mem_def, Option.some.injEq] at hx
        exact hx ▸ hce
      · intro rest' hstop
        cases rest' with
        | nil => rfl
        | cons x r' =>
          have hx := hstop.2 rfl x (by simp)
          simp [scanExp, hx.1, hx.2]

theorem noDigitNext_append (a b : Str) (ha : a = [] ∨ ∃ c t, a = c :: t ∧ c.isDigit = false)
    (hb : NoDigitNext b) : NoDigitNext (a ++ b) := by
  rcases ha with rfl | ⟨c, t, rfl, hc⟩
  · exact hb
  · intro x hx
    simp only [List.cons_append, List.head?_cons, Option.mem_def, Option.some.injEq] at hx
    exact hx ▸ hc

/-- A number that was read is read again when it is followed by a text that
cannot continue it. -/
theorem parseNumber_rereads (s lit rest : Str) (h : parseNumber s = some (lit, rest)) :
    (∃ c t, lit = c :: t ∧ (c = '-' ∨ c.isDigit = true)) ∧
    ∀ rest', NumberStop rest' → parseNumber (lit ++ rest') = some (lit, rest') := by
  unfold parseNumber at h
  split at h
  · cases h
  · rename_i int s2 hint
    split at h
    · cases h
    · rename_i frac s3 hfrac
      split at h
      · cases h
      · rename_i exp s4 hexp
        simp only [Option.some.injEq, Prod.mk.injEq] at h
        obtain ⟨hlit, hrest⟩ := h
        obtain ⟨⟨hs1, hstop1, hre1⟩, ⟨d, ds, hd, hdd⟩⟩ := scanInt_rereads _ _ _ hint
        obtain ⟨⟨hs2, hstop2, hre2⟩, hfshape⟩ := scanFrac_rereads _ _ _ hfrac hstop1
        obtain ⟨⟨hs3, hstop3, hre3⟩, heshape⟩ := scanExp_rereads _ _ _ hexp hstop2.1
        have hsign : (scanSign s).1 = [] ∨ (scanSign s).1 = ['-'] := by
          unfold scanSign
          split
          · exact Or.inl rfl
          · split
            · exact Or.inr rfl
            · exact Or.inl rfl
        have hfrac_nd : frac = [] ∨ ∃ c t, frac = c :: t ∧ c.isDigit = false := by
          rcases hfshape with hf | ⟨fs, hf⟩
          · exact Or.inl hf
          · exact Or.inr ⟨'.', fs, hf, by decide⟩
        have hexp_nd : exp = [] ∨ ∃ c t, exp = c :: t ∧ c.isDigit = false := by
          rcases heshape with he | ⟨c, t, he, hc⟩
          · exact Or.inl he
          · refine Or.inr ⟨c, t, he, ?_⟩
            rcases hc with rfl | rfl <;> decide
        refine ⟨?_, ?_⟩
        · rcases hsign with hsg | hsg
          · exact ⟨d, ds ++ frac ++ exp, by rw [← hlit, hsg, hd]; simp, Or.inr hdd⟩
          · exact ⟨'-', int ++ frac ++ exp, by rw [← hlit, hsg]; simp, Or.inl rfl⟩
        · intro rest' hstop
          have hnd : NoDigitNext rest' := fun c hc => (hstop c hc).1
          have hsign' : scanSign (lit ++ rest') = ((scanSign s).1, int ++ (frac ++ (exp ++ rest'))) := by
            rw [← hlit]
            rcases hsign with hsg | hsg
            · rw [hsg, hd]
              have hdm : d ≠ '-' := by
                intro e; rw [e] at hdd; revert hdd; decide
              simp [scanSign, hdm]
            · rw [hsg]
              simp [scanSign]
          have hexpstop : ExpStop exp rest' :=
            ⟨hnd, fun _ c hc => ⟨(hstop c hc).2.2.1, (hstop c hc).2.2.2⟩⟩
          have hfracstop : FracStop frac (exp ++ rest') := by
            refine ⟨noDigitNext_append exp rest' hexp_nd hnd, ?_⟩
            intro _ c hc
            rcases heshape with he | ⟨x, t, he, hx⟩
            · rw [he] at hc
              exact (hstop c hc).2.1
            · rw [he] at hc
              simp only [List.cons_append, List.head?_cons, Option.mem_def,
                Option.some.injEq] at hc
              rw [← hc]
              rcases hx with rfl | rfl <;> decide
          have hintstop : NoDigitNext (frac ++ (exp ++ rest')) :=
            noDigitNext_append frac _ hfrac_nd (noDigitNext_append exp rest' hexp_nd hnd)
          unfold parseNumber
          rw [hsign']
          simp only
          rw [hre1 _ hintstop]
          simp only
          rw [hre2 _ hfracstop]
          simp only
          rw [hre3 _ hexpstop]
          simp only [Option.some.injEq, Prod.mk.injEq, and_true]
          exact hlit

theorem numberStop_of_delimited (rest : Str) (h : delimited rest = true) : NumberStop rest := by
  intro c hc
  cases rest with
  | nil => simp at hc
  | cons x r =>
    simp only [List.head?_cons, Option.mem_def, Option.some.injEq] at hc
    subst hc
    simp only [delimited, Bool.or_eq_true, beq_iff_eq] at h
    rcases h with (rfl | rfl) | rfl <;> decide

theorem isNumberLiteral_of_parseNumber (s lit rest : Str)
    (h : parseNumber s = some (lit, rest)) : isNumberLiteral lit = true := by
  have := (parseNumber_rereads s lit rest h).2 [] (fun c hc => by simp at hc)
  rw [List.append_nil] at this
  simp [isNumberLiteral, this]

theorem parseNumber_literal (lit rest : Str) (h : isNumberLiteral lit = true)
    (hd : delimited rest = true) :
    parseNumber (lit ++ rest) = some (lit, rest) ∧
      ∃ c t, lit = c :: t ∧ (c = '-' ∨ c.isDigit = true) := by
  have hp : parseNumber lit = some (lit, []) := by
    simpa [isNumberLiteral] using h
  have := parseNumber_rereads lit lit [] hp
  exact ⟨this.2 rest (numberStop_of_delimited rest hd), this.1⟩

end JSON

/-! ## Lemmas on the texts of numbers -/

namespace Number

theorem digitsOfLength_isDecimalOf (m e : Nat) (n0 : Int) (k s : Nat) (n : Int)
    (h : digitsOfLength m e n0 k = some (s, n)) : isDecimalOf m e s k n = true := by
  unfold digitsOfLength at h
  simp only at h
  split_ifs at h with h1 h2 h3 h4 h5 h6 h7 h8 h9 h10 <;>
    simp only [Option.some.injEq, Prod.mk.injEq] at h <;>
    obtain ⟨hs, hn⟩ := h <;> subst hs <;> subst hn <;>
    first
      | exact h1
      | exact h2
      | exact h3
      | (simp only [‹_ = (10 : Nat) ^ k›, if_true] at *; assumption)
      | (simp only [‹¬ _ = (10 : Nat) ^ k›, if_false] at *; assumption)

theorem shortestFrom_spec (m e : Nat) (n0 : Int) : ∀ (fuel k0 s k : Nat) (n : Int),
    shortestFrom m e n0 fuel k0 = some (s, k, n) → k0 ≤ k ∧ isDecimalOf m e s k n = true := by
  intro fuel
  induction fuel with
  | zero => intro k0 s k n h; simp [shortestFrom] at h
  | succ fuel ih =>
    intro k0 s k n h
    rw [shortestFrom] at h
    split at h
    · rename_i s' n' hd
      simp only [Option.some.injEq, Prod.mk.injEq] at h
      obtain ⟨rfl, rfl, rfl⟩ := h
      exact ⟨Nat.le_refl _, digitsOfLength_isDecimalOf m e n0 _ _ _ hd⟩
    · obtain ⟨hk, hdec⟩ := ih (k0 + 1) s k n h
      exact ⟨by omega, hdec⟩

/-- What `shortest` finds satisfies the condition of `Number::toString`. -/
theorem shortest_spec (m e s k : Nat) (n : Int) (h : shortest m e = some (s, k, n)) :
    1 ≤ k ∧ 10 ^ (k - 1) ≤ s ∧ s < 10 ^ k ∧
      roundToBinary64 (scaled s (n - k)).1 (scaled s (n - k)).2 = some (m, e) := by
  obtain ⟨hk, hdec⟩ := shortestFrom_spec m e _ 17 1 s k n h
  simp only [isDecimalOf, Bool.and_eq_true, decide_eq_true_eq, beq_iff_eq] at hdec
  exact ⟨hk, hdec.1.1, hdec.1.2, hdec.2⟩

open JSON in
theorem scanInt_assemble (int tail : Str) (hint : ∀ c ∈ int, c.isDigit = true)
    (hint0 : ∃ d ds, int = d :: ds ∧ (d ≠ '0' ∨ ds = []))
    (htail : ∀ c ∈ tail.head?, c.isDigit = false) :
    scanInt (int ++ tail) = some (int, tail) := by
  obtain ⟨d, ds, rfl, h0⟩ := hint0
  unfold scanInt
  rw [takeWhile_append_stop _ _ _ hint htail, dropWhile_append_stop _ _ _ hint htail]
  rcases h0 with h0 | h0
  · have : ('0' == d) = false := by simpa using fun e => h0 e.symm
    simp [this, h0]
  · subst h0
    simp

open JSON in
theorem scanFrac_assemble (fracTok fd expTok : Str)
    (hfrac : (fracTok = [] ∧ fd = []) ∨ (fracTok = '.' :: fd ∧ fd ≠ []))
    (hfd : ∀ c ∈ fd, c.isDigit = true)
    (hexp : ∀ c ∈ expTok.head?, c = 'e') :
    scanFrac (fracTok ++ expTok) = some (fracTok, expTok) := by
  have hstop : ∀ c ∈ expTok.head?, c.isDigit = false := by
    intro c hc; rw [hexp c hc]; decide
  rcases hfrac with ⟨rfl, rfl⟩ | ⟨rfl, hne⟩
  · cases expTok with
    | nil => rfl
    | cons c t =>
      have hc : c = 'e' := hexp c (by simp)
      subst hc
      simp [scanFrac]
  · show scanFrac ('.' :: (fd ++ expTok)) = _
    unfold scanFrac
    simp only [if_true]
    rw [takeWhile_append_stop _ _ _ hfd hstop, dropWhile_append_stop _ _ _ hfd hstop]
    cases fd with
    | nil => exact absurd rfl hne
    | cons x xs => simp

open JSON in
theorem scanExp_assemble (expTok ed : Str) (eneg : Bool)
    (hexp : (expTok = [] ∧ ed = []) ∨
      (expTok = 'e' :: (if eneg then '-' else '+') :: ed ∧ ed ≠ []))
    (hed : ∀ c ∈ ed, c.isDigit = true) :
    scanExp expTok = some (expTok, []) := by
  rcases hexp with ⟨rfl, rfl⟩ | ⟨rfl, hne⟩
  · rfl
  · have htw : ed.takeWhile Char.isDigit = ed := by
      have := takeWhile_append_stop Char.isDigit ed [] hed (by simp)
      rwa [List.append_nil] at this
    have hdw : ed.dropWhile Char.isDigit = [] := by
      have := dropWhile_append_stop Char.isDigit ed [] hed (by simp)
      rwa [List.append_nil] at this
    cases ed with
    | nil => exact absurd rfl hne
    | cons x xs =>
      cases eneg <;> simp [scanExp, scanExpDigits, htw, hdw]


open JSON in
theorem parseNumber_assemble (neg eneg : Bool) (int fracTok fd expTok ed : Str)
    (hint : ∀ c ∈ int, c.isDigit = true)
    (hint0 : ∃ d ds, int = d :: ds ∧ (d ≠ '0' ∨ ds = []))
    (hfrac : (fracTok = [] ∧ fd = []) ∨ (fracTok = '.' :: fd ∧ fd ≠ []))
    (hfd : ∀ c ∈ fd, c.isDigit = true)
    (hexp : (expTok = [] ∧ ed = []) ∨
      (expTok = 'e' :: (if eneg then '-' else '+') :: ed ∧ ed ≠ []))
    (hed : ∀ c ∈ ed, c.isDigit = true) :
    parseNumber ((if neg then ['-'] else []) ++ (int ++ (fracTok ++ expTok)))
      = some ((if neg then ['-'] else []) ++ (int ++ (fracTok ++ expTok)), []) := by
  have hexphead : ∀ c ∈ expTok.head?, c = 'e' := by
    intro c hc
    rcases hexp with ⟨rfl, _⟩ | ⟨rfl, _⟩
    · simp at hc
    · simp only [List.head?_cons, Option.mem_def, Option.some.injEq] at hc
      exact hc.symm
  have htail : ∀ c ∈ (fracTok ++ expTok).head?, c.isDigit = false := by
    intro c hc
    rcases hfrac with ⟨rfl, _⟩ | ⟨rfl, _⟩
    · rw [List.nil_append] at hc
      rw [hexphead c hc]; decide
    · simp only [List.cons_append, List.head?_cons, Option.mem_def, Option.some.injEq] at hc
      rw [← hc]; decide
  have hsign : scanSign ((if neg then ['-'] else []) ++ (int ++ (fracTok ++ expTok)))
      = ((if neg then ['-'] else []), int ++ (fracTok ++ expTok)) := by
    cases neg with
    | true => simp [scanSign]
    | false =>
      obtain ⟨d, ds, rfl, _⟩ := hint0
      have hd : d.isDigit = true := hint d (by simp)
      have hne : d ≠ '-' := by intro e; rw [e] at hd; revert hd; decide
      simp [scanSign, hne]
  unfold parseNumber
  rw [hsign]
  simp only
  rw [scanInt_assemble int _ hint hint0 htail]
  simp only
  rw [scanFrac_assemble fracTok fd expTok hfrac hfd hexphead]
  simp only
  rw [scanExp_assemble expTok ed eneg hexp hed]
  simp

theorem literalParts_assemble (neg eneg : Bool) (int fracTok fd expTok ed : Str)
    (hint : ∀ c ∈ int, c.isDigit = true)
    (hint0 : ∃ d ds, int = d :: ds ∧ (d ≠ '0' ∨ ds = []))
    (hfrac : (fracTok = [] ∧ fd = []) ∨ (fracTok = '.' :: fd ∧ fd ≠ []))
    (hfd : ∀ c ∈ fd, c.isDigit = true)
    (hexp : (expTok = [] ∧ ed = []) ∨
      (expTok = 'e' :: (if eneg then '-' else '+') :: ed ∧ ed ≠ []))
    (hed : ∀ c ∈ ed, c.isDigit = true) :
    literalParts ((if neg then ['-'] else []) ++ (int ++ (fracTok ++ expTok)))
      = (neg, decimalValue (int ++ fd),
          (if eneg then - (decimalValue ed : Int) else (decimalValue ed : Int)) - fd.length) := by
  have hexphead : ∀ c ∈ expTok.head?, c = 'e' := by
    intro c hc
    rcases hexp with ⟨rfl, _⟩ | ⟨rfl, _⟩
    · simp at hc
    · simp only [List.head?_cons, Option.mem_def, Option.some.injEq] at hc
      exact hc.symm
  have hstop : ∀ c ∈ expTok.head?, c.isDigit = false := by
    intro c hc; rw [hexphead c hc]; decide
  have htail : ∀ c ∈ (fracTok ++ expTok).head?, c.isDigit = false := by
    intro c hc
    rcases hfrac with ⟨rfl, _⟩ | ⟨rfl, _⟩
    · rw [List.nil_append] at hc
      exact hstop c hc
    · simp only [List.cons_append, List.head?_cons, Option.mem_def, Option.some.injEq] at hc
      rw [← hc]; decide
  obtain ⟨d, ds, hd, _⟩ := hint0
  have hdd : d.isDigit = true := hint d (by simp [hd])
  have hdne : d ≠ '-' := by intro e; rw [e] at hdd; revert hdd; decide
  have hhead : decide (((if neg then ['-'] else []) ++ (int ++ (fracTok ++ expTok))).head?
      = some '-') = neg := by
    cases neg with
    | true => simp
    | false => simp [hd, hdne]
  have hunsigned : (if ((if neg then ['-'] else []) ++ (int ++ (fracTok ++ expTok))).head?
        = some '-'
      then ((if neg then ['-'] else []) ++ (int ++ (fracTok ++ expTok))).drop 1
      else ((if neg then ['-'] else []) ++ (int ++ (fracTok ++ expTok))))
      = int ++ (fracTok ++ expTok) := by
    cases neg with
    | true => simp
    | false => simp [hd, hdne]
  have hexpval : (if (expTok.drop 1).head? = some '-' then
        - (decimalValue ((expTok.drop 1).drop 1) : Int)
      else if (expTok.drop 1).head? = some '+' then
        (decimalValue ((expTok.drop 1).drop 1) : Int)
      else (decimalValue (expTok.drop 1) : Int))
      = (if eneg then - (decimalValue ed : Int) else (decimalValue ed : Int)) := by
    rcases hexp with ⟨rfl, rfl⟩ | ⟨rfl, _⟩
    · cases eneg <;> simp [decimalValue]
    · cases eneg <;> simp
  unfold literalParts
  simp only [hunsigned]
  rw [hhead]
  rw [JSON.takeWhile_append_stop _ _ _ hint htail, JSON.dropWhile_append_stop _ _ _ hint htail]
  rcases hfrac with ⟨rfl, rfl⟩ | ⟨rfl, hne⟩
  · have hnodot : expTok.head? ≠ some '.' := by
      intro e
      have := hexphead '.' (by simp [e])
      revert this; decide
    simp only [List.nil_append, hnodot, if_false, hexpval, List.append_nil, List.length_nil]
  · simp only [List.cons_append, List.head?_cons, if_true, List.drop_succ_cons, List.drop_zero]
    rw [JSON.takeWhile_append_stop _ _ _ hfd hstop, JSON.dropWhile_append_stop _ _ _ hfd hstop]
    simp only [hexpval]

theorem pad_value (k s : Nat) (h : s < 10 ^ k) : decimalValue (pad k s) = s := by
  rw [decimalValue_pad, Nat.mod_eq_of_lt h]

theorem replicate_zero_digits (j : Nat) : ∀ c ∈ List.replicate j '0', c.isDigit = true := by
  intro c hc
  rw [List.eq_of_mem_replicate hc]
  decide

theorem exponent_shape (n : Int) :
    ∃ eneg : Bool,
      (if 0 ≤ n - 1 then '+' else '-') = (if eneg then '-' else '+') ∧
      (if eneg then - (decimalValue (natToString (n - 1).natAbs) : Int)
        else (decimalValue (natToString (n - 1).natAbs) : Int)) = n - 1 := by
  have hv := (natToString_spec (n - 1).natAbs).2.1
  by_cases h : 0 ≤ n - 1
  · refine ⟨false, by simp [h], ?_⟩
    simp only [Bool.false_eq_true, if_false, hv]
    omega
  · refine ⟨true, by simp [h], ?_⟩
    simp only [if_true, hv]
    omega


/-- The text of `format` is a numeric literal in parts, with the value `s × 10^(n-k)`. -/
theorem format_shape (s k : Nat) (n : Int) (hk : 1 ≤ k) (hlo : 10 ^ (k - 1) ≤ s)
    (hhi : s < 10 ^ k) :
    ∃ (eneg : Bool) (int fracTok fd expTok ed : Str),
      format s k n = int ++ (fracTok ++ expTok) ∧
      (∀ c ∈ int, c.isDigit = true) ∧
      (∃ d ds, int = d :: ds ∧ (d ≠ '0' ∨ ds = [])) ∧
      ((fracTok = [] ∧ fd = []) ∨ (fracTok = '.' :: fd ∧ fd ≠ [])) ∧
      (∀ c ∈ fd, c.isDigit = true) ∧
      ((expTok = [] ∧ ed = []) ∨
        (expTok = 'e' :: (if eneg then '-' else '+') :: ed ∧ ed ≠ [])) ∧
      (∀ c ∈ ed, c.isDigit = true) ∧
      scaled (decimalValue (int ++ fd))
          ((if eneg then - (decimalValue ed : Int) else (decimalValue ed : Int)) - fd.length)
        = scaled s (n - k) := by
  obtain ⟨k', rfl⟩ : ∃ k', k = k' + 1 := ⟨k - 1, by omega⟩
  simp only [Nat.add_sub_cancel] at hlo
  obtain ⟨c, t, hpad, hc, hc0⟩ := pad_head k' s hlo hhi
  have hlen := pad_length (k' + 1) s
  have hdig := pad_digits (k' + 1) s
  have hval := pad_value (k' + 1) s hhi
  have htlen : t.length = k' := by
    rw [hpad] at hlen
    simpa using hlen
  have htdig : ∀ x ∈ t, x.isDigit = true := by
    intro x hx
    exact hdig x (by rw [hpad]; exact List.mem_cons_of_mem _ hx)
  unfold format
  by_cases h1 : ((k' + 1 : Nat) : Int) ≤ n ∧ n ≤ 21
  · -- the digits and zeros
    rw [if_pos h1]
    refine ⟨false, pad (k' + 1) s ++ List.replicate (n.toNat - (k' + 1)) '0', [], [], [], [],
      by simp, ?_, ?_, Or.inl ⟨rfl, rfl⟩, by simp, Or.inl ⟨rfl, rfl⟩, by simp, ?_⟩
    · intro x hx
      simp only [List.mem_append] at hx
      rcases hx with hx | hx
      · exact hdig x hx
      · exact replicate_zero_digits _ x hx
    · exact ⟨c, t ++ List.replicate (n.toNat - (k' + 1)) '0', by rw [hpad]; rfl, Or.inl hc0⟩
    · have e1 : n - ((k' + 1 : Nat) : Int) = ((n.toNat - (k' + 1) : Nat) : Int) := by omega
      rw [List.append_nil, decimalValue_append, hval, decimalValue_replicate_zero,
        List.length_replicate, e1]
      simp [scaled, decimalValue]
  rw [if_neg h1]
  by_cases h2 : 0 < n ∧ n ≤ 21
  · -- a decimal point inside the digits
    rw [if_pos h2]
    have hn1 : 1 ≤ n.toNat := by omega
    have hn2 : n.toNat < k' + 1 := by omega
    refine ⟨false, (pad (k' + 1) s).take n.toNat, '.' :: (pad (k' + 1) s).drop n.toNat,
      (pad (k' + 1) s).drop n.toNat, [], [], by simp, ?_, ?_, Or.inr ⟨rfl, ?_⟩, ?_,
      Or.inl ⟨rfl, rfl⟩, by simp, ?_⟩
    · intro x hx
      exact hdig x (List.mem_of_mem_take hx)
    · obtain ⟨j, hj⟩ : ∃ j, n.toNat = j + 1 := ⟨n.toNat - 1, by omega⟩
      exact ⟨c, t.take j, by rw [hpad, hj]; rfl, Or.inl hc0⟩
    · intro e
      have := congrArg List.length e
      rw [List.length_drop, hlen] at this
      simp only [List.length_nil] at this
      omega
    · intro x hx
      exact hdig x (List.mem_of_mem_drop hx)
    · have e1 : ((if false = true then - (decimalValue ([] : Str) : Int)
          else (decimalValue ([] : Str) : Int))
          - (((pad (k' + 1) s).drop n.toNat).length : Nat)) = n - ((k' + 1 : Nat) : Int) := by
        rw [List.length_drop, hlen]
        simp only [Bool.false_eq_true, if_false, decimalValue, List.foldl_nil]
        omega
      rw [List.take_append_drop, hval, e1]
  rw [if_neg h2]
  by_cases h3 : -6 < n ∧ n ≤ 0
  · -- zeros after the decimal point
    rw [if_pos h3]
    refine ⟨false, ['0'], '.' :: (List.replicate (-n).toNat '0' ++ pad (k' + 1) s),
      List.replicate (-n).toNat '0' ++ pad (k' + 1) s, [], [], by simp, by simp, ?_,
      Or.inr ⟨rfl, ?_⟩, ?_, Or.inl ⟨rfl, rfl⟩, by simp, ?_⟩
    · exact ⟨'0', [], rfl, Or.inr rfl⟩
    · rw [hpad]; simp
    · intro x hx
      simp only [List.mem_append] at hx
      rcases hx with hx | hx
      · exact replicate_zero_digits _ x hx
      · exact hdig x hx
    · have e0 : decimalValue (['0'] ++ (List.replicate (-n).toNat '0' ++ pad (k' + 1) s)) = s := by
        rw [decimalValue_append, decimalValue_append, decimalValue_replicate_zero, hval]
        have : decimalValue ['0'] = 0 := by decide
        rw [this]
        simp
      have e1 : ((if false = true then - (decimalValue ([] : Str) : Int)
          else (decimalValue ([] : Str) : Int))
          - ((List.replicate (-n).toNat '0' ++ pad (k' + 1) s).length : Nat))
          = n - ((k' + 1 : Nat) : Int) := by
        rw [List.length_append, List.length_replicate, hlen]
        simp only [Bool.false_eq_true, if_false, decimalValue, List.foldl_nil]
        omega
      rw [e0, e1]
  rw [if_neg h3]
  by_cases h4 : k' + 1 = 1
  · -- one digit and an exponent
    rw [if_pos h4]
    obtain ⟨eneg, hsign, hev⟩ := exponent_shape n
    obtain ⟨hed, _, hne, _⟩ := natToString_spec (n - 1).natAbs
    have hk0 : k' = 0 := by omega
    subst hk0
    refine ⟨eneg, pad 1 s, [], [], 'e' :: (if eneg then '-' else '+')
        :: natToString (n - 1).natAbs, natToString (n - 1).natAbs,
      by rw [hsign]; simp, hdig, ?_, Or.inl ⟨rfl, rfl⟩, by simp, Or.inr ⟨rfl, hne⟩, hed, ?_⟩
    · refine ⟨c, t, hpad, Or.inl hc0⟩
    · rw [List.append_nil, hval, hev]
      simp
  · -- digits with a decimal point and an exponent
    rw [if_neg h4]
    obtain ⟨eneg, hsign, hev⟩ := exponent_shape n
    obtain ⟨hed, _, hne, _⟩ := natToString_spec (n - 1).natAbs
    have hk1 : 1 ≤ k' := by omega
    refine ⟨eneg, (pad (k' + 1) s).take 1, '.' :: (pad (k' + 1) s).drop 1,
      (pad (k' + 1) s).drop 1, 'e' :: (if eneg then '-' else '+')
        :: natToString (n - 1).natAbs, natToString (n - 1).natAbs,
      by rw [hsign]; simp, ?_, ?_, Or.inr ⟨rfl, ?_⟩, ?_, Or.inr ⟨rfl, hne⟩, hed, ?_⟩
    · intro x hx
      exact hdig x (List.mem_of_mem_take hx)
    · exact ⟨c, [], by rw [hpad]; rfl, Or.inr rfl⟩
    · intro e
      have := congrArg List.length e
      rw [List.length_drop, hlen] at this
      simp only [List.length_nil] at this
      omega
    · intro x hx
      exact hdig x (List.mem_of_mem_drop hx)
    · have e1 : (n - 1) - (((pad (k' + 1) s).drop 1).length : Nat)
          = n - ((k' + 1 : Nat) : Int) := by
        rw [List.length_drop, hlen]
        omega
      rw [List.take_append_drop, hval, hev, e1]


theorem ofLiteral_of_parts (c : Str) (neg : Bool) (D : Nat) (t : Int) (m e s k : Nat) (n : Int)
    (hp : literalParts c = (neg, D, t))
    (hr : roundToBinary64 (scaled D t).1 (scaled D t).2 = some (m, e)) (hm : m ≠ 0)
    (hs : shortest m e = some (s, k, n)) :
    ofLiteral c = (if neg then ['-'] else []) ++ format s k n := by
  unfold ofLiteral
  simp only [hp, hr, hm, if_false, hs]

theorem isText_zero : isText ['0'] = true ∧ isText ['-', '0'] = true := by
  constructor <;> decide!

/-- The text of the value of a numeric literal carries a Number value: it is
`Infinity` or `-Infinity`, or a numeric literal that is the text of its own value. -/
theorem ofLiteral_isText (lit : Str) (h : JSON.isNumberLiteral lit = true) :
    isText (ofLiteral lit) = true := by
  obtain ⟨neg, D, t, hp⟩ : ∃ neg D t, literalParts lit = (neg, D, t) := ⟨_, _, _, rfl⟩
  cases hr : roundToBinary64 (scaled D t).1 (scaled D t).2 with
  | none =>
    have e : ofLiteral lit = (if neg then ['-'] else []) ++ "Infinity".toList := by
      unfold ofLiteral
      simp only [hp, hr]
    rw [e]
    cases neg <;> decide
  | some me =>
    obtain ⟨m, e⟩ := me
    by_cases hm : m = 0
    · have e : ofLiteral lit = (if neg then ['-'] else []) ++ ['0'] := by
        unfold ofLiteral
        simp only [hp, hr, hm, if_true]
      rw [e]
      cases neg
      · exact isText_zero.1
      · exact isText_zero.2
    · cases hs : shortest m e with
      | none =>
        have e : ofLiteral lit = lit := by
          unfold ofLiteral
          simp only [hp, hr, hm, if_false, hs]
        rw [e]
        simp [isText, h, e]
      | some skn =>
        obtain ⟨s, k, n⟩ := skn
        have htext := ofLiteral_of_parts lit neg D t m e s k n hp hr hm hs
        obtain ⟨hk, hlo, hhi, hround⟩ := shortest_spec m e s k n hs
        obtain ⟨eneg, int, fracTok, fd, expTok, ed, hfmt, hint, hint0, hfrac, hfd, hexp, hed,
          hscaled⟩ := format_shape s k n hk hlo hhi
        have hlit := parseNumber_assemble neg eneg int fracTok fd expTok ed hint hint0 hfrac hfd
          hexp hed
        have hparts := literalParts_assemble neg eneg int fracTok fd expTok ed hint hint0 hfrac
          hfd hexp hed
        rw [← hfmt] at hlit hparts
        rw [← htext] at hlit hparts
        have hr' : roundToBinary64
            (scaled (decimalValue (int ++ fd))
              ((if eneg then - (decimalValue ed : Int) else (decimalValue ed : Int))
                - fd.length)).1
            (scaled (decimalValue (int ++ fd))
              ((if eneg then - (decimalValue ed : Int) else (decimalValue ed : Int))
                - fd.length)).2 = some (m, e) := by
          rw [hscaled]; exact hround
        have hfix : ofLiteral (ofLiteral lit) = ofLiteral lit := by
          rw [ofLiteral_of_parts (ofLiteral lit) neg _ _ m e s k n hparts hr' hm hs]
          exact htext.symm
        simp [isText, JSON.isNumberLiteral, hlit, hfix]

end Number

/-! ## Reading back what `JSON.stringify` wrote -/

namespace JSON

theorem skipSpace_cons (c : Char) (s : Str) (h : isSpace c = false) :
    skipSpace (c :: s) = c :: s := by
  simp [skipSpace, List.dropWhile_cons, h]

theorem quote_eq_cons (s : Str) : ∃ t, quote s = '"' :: t := ⟨_, rfl⟩

/-- A clean number is written as its text. -/
theorem stringify_num_of_clean (text : Str) (h : clean (JSVal.num text) = true) :
    stringify (JSVal.num text) = some text ∧ isNumberLiteral text = true ∧
      Number.ofLiteral text = text := by
  simp only [clean, Bool.and_eq_true, beq_iff_eq, bne_iff_ne, ne_eq] at h
  obtain ⟨⟨hlit, hfix⟩, hz⟩ := h
  obtain ⟨_, c, t, hl, hc⟩ := parseNumber_literal text [] hlit rfl
  have hfin : JSVal.notFinite text = false := by
    rw [hl]
    rcases hc with rfl | hc
    · cases ht : JSVal.notFinite ('-' :: t) with
      | false => rfl
      | true =>
        simp only [JSVal.notFinite, Bool.or_eq_true, beq_iff_eq] at ht
        rcases ht with (ht | ht) | ht
        · cases ht
        · cases ht
        · rw [hl, ht] at hlit
          revert hlit
          decide
    · cases ht : JSVal.notFinite (c :: t) with
      | false => rfl
      | true =>
        simp only [JSVal.notFinite, Bool.or_eq_true, beq_iff_eq] at ht
        rcases ht with (ht | ht) | ht
        · have : c = 'N' := (List.cons.inj ht).1
          rw [this] at hc; revert hc; decide
        · have : c = 'I' := (List.cons.inj ht).1
          rw [this] at hc; revert hc; decide
        · have : c = '-' := (List.cons.inj ht).1
          rw [this] at hc; revert hc; decide
  have hz' : (text == "-0".toList) = false := by simpa using hz
  refine ⟨?_, hlit, hfix⟩
  simp only [stringify, hfin, JSVal.toStr, hz', Bool.false_eq_true, if_false]

theorem stringify_of_clean (v : JSVal) (h : clean v = true) : ∃ text, stringify v = some text := by
  cases v with
  | undefined => simp [clean] at h
  | null => exact ⟨_, rfl⟩
  | bool b => cases b <;> exact ⟨_, rfl⟩
  | num lit => exact ⟨_, rfl⟩
  | str s => exact ⟨_, rfl⟩
  | arr items => exact ⟨_, by rw [stringify]⟩
  | obj fields => exact ⟨_, by rw [stringify]⟩

/-- The first character of the text of a value starts a value: it is not white
space and closes no bracket. -/
theorem stringify_head (v : JSVal) (h : clean v = true) (text : Str)
    (hs : stringify v = some text) :
    ∃ c t, text = c :: t ∧ isSpace c = false ∧ c ≠ ']' ∧ c ≠ '}' := by
  cases v with
  | undefined => simp [clean] at h
  | null =>
    simp only [stringify, Option.some.injEq] at hs
    exact ⟨'n', "ull".toList, hs.symm, by decide, by decide, by decide⟩
  | bool b =>
    cases b
    · simp only [stringify, Option.some.injEq] at hs
      exact ⟨'f', "alse".toList, hs.symm, by decide, by decide, by decide⟩
    · simp only [stringify, Option.some.injEq] at hs
      exact ⟨'t', "rue".toList, hs.symm, by decide, by decide, by decide⟩
  | num lit =>
    obtain ⟨hw, hlit, _⟩ := stringify_num_of_clean lit h
    rw [hw] at hs
    simp only [Option.some.injEq] at hs
    subst hs
    obtain ⟨_, c, t, hl, hc⟩ := parseNumber_literal lit [] hlit rfl
    refine ⟨c, t, hl, ?_⟩
    rcases hc with rfl | hc
    · exact ⟨by decide, by decide, by decide⟩
    · refine ⟨?_, ?_, ?_⟩
      · cases hsp : isSpace c with
        | false => rfl
        | true =>
          simp only [isSpace, Bool.or_eq_true, beq_iff_eq] at hsp
          rcases hsp with ((rfl | rfl) | rfl) | rfl <;> revert hc <;> decide
      · intro e; rw [e] at hc; revert hc; decide
      · intro e; rw [e] at hc; revert hc; decide
  | str s =>
    simp only [stringify, Option.some.injEq] at hs
    exact ⟨'"', _, hs.symm, by decide, by decide, by decide⟩
  | arr items =>
    rw [stringify] at hs
    simp only [Option.some.injEq] at hs
    exact ⟨'[', _, hs.symm, by decide, by decide, by decide⟩
  | obj fields =>
    rw [stringify] at hs
    simp only [Option.some.injEq] at hs
    exact ⟨'{', _, hs.symm, by decide, by decide, by decide⟩

theorem stringifyItems_cons (x : JSVal) (xs : List JSVal) (tx : Str)
    (hx : stringify x = some tx) :
    stringifyItems (x :: xs) = tx ++ (if xs.isEmpty then [] else ',' :: stringifyItems xs) := by
  rw [stringifyItems, hx]

theorem stringifyFields_cons (k : Str) (v : JSVal) (rest : List (Str × JSVal)) (sep : Bool)
    (tv : Str) (hv : stringify v = some tv) :
    stringifyFields ((k, v) :: rest) sep
      = (if sep then [','] else []) ++ (quote k ++ ':' :: tv) ++ stringifyFields rest true := by
  rw [stringifyFields, stringifyField, hv]

theorem stringifyItems_head (x : JSVal) (xs : List JSVal) (h : clean x = true) :
    ∃ c t, stringifyItems (x :: xs) = c :: t ∧ isSpace c = false ∧ c ≠ ']' ∧ c ≠ '}' := by
  obtain ⟨tx, hx⟩ := stringify_of_clean x h
  obtain ⟨c, t, ht, h1, h2, h3⟩ := stringify_head x h tx hx
  rw [stringifyItems_cons x xs tx hx, ht]
  exact ⟨c, _, rfl, h1, h2, h3⟩

theorem parseKeyword_none (c : Char) (s : Str) (h1 : c ≠ 't') (h2 : c ≠ 'f') (h3 : c ≠ 'n') :
    parseKeyword (c :: s) = none := by
  have e1 : ('t' == c) = false := by simpa using fun e => h1 e.symm
  have e2 : ('f' == c) = false := by simpa using fun e => h2 e.symm
  have e3 : ('n' == c) = false := by simpa using fun e => h3 e.symm
  simp [parseKeyword, List.isPrefixOf, e1, e2, e3]

mutual
/-- The text of a clean value, followed by a delimiter, is read back as the value. -/
theorem parseValue_stringify : (v : JSVal) → clean v = true → ∀ (text rest : Str) (fuel : Nat),
    stringify v = some text → delimited rest = true → text.length + 1 ≤ fuel →
    parseValue fuel (text ++ rest) = Parsed.ok v rest
  | JSVal.undefined, h, _, _, _, _, _, _ => by simp [clean] at h
  | JSVal.null, _, text, rest, fuel, hs, _, hf => by
    simp only [stringify, Option.some.injEq] at hs
    subst hs
    obtain ⟨f, rfl⟩ : ∃ f, fuel = f + 1 := ⟨fuel - 1, by omega⟩
    show parseValue (f + 1) ('n' :: 'u' :: 'l' :: 'l' :: rest) = _
    rw [parseValue]
    simp [parseKeyword, List.isPrefixOf]
  | JSVal.bool true, _, text, rest, fuel, hs, _, hf => by
    simp only [stringify, Option.some.injEq] at hs
    subst hs
    obtain ⟨f, rfl⟩ : ∃ f, fuel = f + 1 := ⟨fuel - 1, by omega⟩
    show parseValue (f + 1) ('t' :: 'r' :: 'u' :: 'e' :: rest) = _
    rw [parseValue]
    simp [parseKeyword, List.isPrefixOf]
  | JSVal.bool false, _, text, rest, fuel, hs, _, hf => by
    simp only [stringify, Option.some.injEq] at hs
    subst hs
    obtain ⟨f, rfl⟩ : ∃ f, fuel = f + 1 := ⟨fuel - 1, by omega⟩
    show parseValue (f + 1) ('f' :: 'a' :: 'l' :: 's' :: 'e' :: rest) = _
    rw [parseValue]
    simp [parseKeyword, List.isPrefixOf]
  | JSVal.num lit, h, text, rest, fuel, hs, hd, hf => by
    obtain ⟨hw, hlit, hfix⟩ := stringify_num_of_clean lit h
    rw [hw] at hs
    simp only [Option.some.injEq] at hs
    subst hs
    obtain ⟨hp, c, t, hl, hc⟩ := parseNumber_literal lit rest hlit hd
    obtain ⟨f, rfl⟩ : ∃ f, fuel = f + 1 := ⟨fuel - 1, by omega⟩
    have hne : c ≠ '{' ∧ c ≠ '[' ∧ c ≠ '"' ∧ c ≠ 't' ∧ c ≠ 'f' ∧ c ≠ 'n' := by
      rcases hc with rfl | hc
      · decide
      · refine ⟨?_, ?_, ?_, ?_, ?_, ?_⟩ <;> (intro e; rw [e] at hc; revert hc; decide)
    have hk := parseKeyword_none c (t ++ rest) hne.2.2.2.1 hne.2.2.2.2.1 hne.2.2.2.2.2
    have hp' : parseNumber (c :: (t ++ rest)) = some (lit, rest) := by
      rw [← List.cons_append, ← hl]; exact hp
    rw [hl, List.cons_append, parseValue]
    simp only [hne.1, hne.2.1, hne.2.2.1, if_false, hk, hp', hfix]
    rw [hl]
  | JSVal.str s, _, text, rest, fuel, hs, _, hf => by
    simp only [stringify, Option.some.injEq] at hs
    subst hs
    obtain ⟨f, rfl⟩ : ∃ f, fuel = f + 1 := ⟨fuel - 1, by omega⟩
    obtain ⟨body, hb, hp⟩ := parseStringBody_quote s rest
    rw [hb, parseValue]
    simp [hp]
  | JSVal.arr items, h, text, rest, fuel, hs, hd, hf => by
    rw [stringify] at hs
    simp only [Option.some.injEq] at hs
    subst hs
    rw [clean] at h
    obtain ⟨f, rfl⟩ : ∃ f, fuel = f + 1 := ⟨fuel - 1, by omega⟩
    show parseValue (f + 1) ('[' :: (stringifyItems items ++ [']'] ++ rest)) = _
    rw [List.append_assoc, List.singleton_append, parseValue]
    cases items with
    | nil =>
      simp [stringifyItems, skipSpace_cons ']' rest (by decide)]
    | cons x xs =>
      have hx : clean x = true := by
        rw [cleanItems] at h
        simp only [Bool.and_eq_true] at h
        exact h.1
      obtain ⟨c, t, ht, h1, h2, _⟩ := stringifyItems_head x xs hx
      have hlen : (stringifyItems (x :: xs)).length + 2 ≤ f := by
        simp only [List.length_cons, List.length_append, List.length_singleton] at hf
        omega
      have ih := parseElements_stringify (x :: xs) (by simp) h [] rest f hlen
      rw [ht] at ih ⊢
      simp only [List.cons_append] at ih ⊢
      rw [skipSpace_cons c _ h1]
      simp only [Char.reduceEq, if_false, h2]
      simpa using ih
  | JSVal.obj fields, h, text, rest, fuel, hs, hd, hf => by
    rw [stringify] at hs
    simp only [Option.some.injEq] at hs
    subst hs
    rw [clean] at h
    simp only [Bool.and_eq_true, decide_eq_true_eq] at h
    obtain ⟨f, rfl⟩ : ∃ f, fuel = f + 1 := ⟨fuel - 1, by omega⟩
    show parseValue (f + 1) ('{' :: (stringifyFields fields false ++ ['}'] ++ rest)) = _
    rw [List.append_assoc, List.singleton_append, parseValue]
    cases fields with
    | nil =>
      simp [stringifyFields, skipSpace_cons '}' rest (by decide)]
    | cons kv more =>
      obtain ⟨k, v⟩ := kv
      have hv : clean v = true := by
        have := h.2
        rw [cleanFields, cleanField] at this
        simp only [Bool.and_eq_true] at this
        exact this.1
      obtain ⟨tv, htv⟩ := stringify_of_clean v hv
      have hlen : (stringifyFields ((k, v) :: more) false).length + 2 ≤ f := by
        simp only [List.length_cons, List.length_append, List.length_singleton] at hf
        omega
      have ih := parseMembers_stringify ((k, v) :: more) (by simp) h.2 [] rest f hlen
      rw [Record.spread_nil _ h.1] at ih
      have hhead : ∃ t, stringifyFields ((k, v) :: more) false = '"' :: t := by
        rw [stringifyFields_cons k v more false tv htv]
        exact ⟨_, rfl⟩
      obtain ⟨t, ht⟩ := hhead
      rw [ht] at ih ⊢
      simp only [List.cons_append] at ih ⊢
      rw [skipSpace_cons '"' _ (by decide)]
      simp only [Char.reduceEq, if_false]
      exact ih
/-- The text of the elements of an array, followed by `]`, is read back as the elements. -/
theorem parseElements_stringify : (items : List JSVal) → items ≠ [] → cleanItems items = true →
    ∀ (acc : List JSVal) (rest : Str) (fuel : Nat), (stringifyItems items).length + 2 ≤ fuel →
    parseElements fuel (stringifyItems items ++ ']' :: rest) acc
      = Parsed.ok (JSVal.arr (acc ++ items)) rest
  | [], hne, _, _, _, _, _ => absurd rfl hne
  | x :: xs, _, h, acc, rest, fuel, hf => by
    rw [cleanItems] at h
    simp only [Bool.and_eq_true] at h
    obtain ⟨tx, htx⟩ := stringify_of_clean x h.1
    obtain ⟨f, rfl⟩ : ∃ f, fuel = f + 1 := ⟨fuel - 1, by omega⟩
    rw [stringifyItems_cons x xs tx htx] at hf ⊢
    rw [parseElements]
    cases xs with
    | nil =>
      simp only [List.isEmpty_nil, if_true, List.append_nil] at hf ⊢
      have hv := parseValue_stringify x h.1 tx (']' :: rest) f htx rfl (by omega)
      rw [hv]
      simp only
      rw [skipSpace_cons ']' rest (by decide)]
      simp
    | cons y ys =>
      simp only [List.isEmpty_cons, Bool.false_eq_true, if_false, List.length_append,
        List.length_cons] at hf
      simp only [List.isEmpty_cons, Bool.false_eq_true, if_false, List.append_assoc,
        List.cons_append]
      have hv := parseValue_stringify x h.1 tx (',' :: (stringifyItems (y :: ys) ++ ']' :: rest)) f
        htx rfl (by omega)
      rw [hv]
      simp only
      rw [skipSpace_cons ',' _ (by decide)]
      simp only [if_true]
      have hy : clean y = true := by
        have := h.2
        rw [cleanItems] at this
        simp only [Bool.and_eq_true] at this
        exact this.1
      obtain ⟨c, t, ht, h1, _, _⟩ := stringifyItems_head y ys hy
      have ih := parseElements_stringify (y :: ys) (by simp) h.2 (acc ++ [x]) rest f (by omega)
      rw [ht] at ih ⊢
      rw [List.cons_append, skipSpace_cons c _ h1]
      simpa using ih
/-- The text of the members of an object, followed by `}`, is read back as the
properties, created in the order of the text. -/
theorem parseMembers_stringify : (fields : List (Str × JSVal)) → fields ≠ [] →
    cleanFields fields = true →
    ∀ (acc : Record) (rest : Str) (fuel : Nat), (stringifyFields fields false).length + 2 ≤ fuel →
    parseMembers fuel (stringifyFields fields false ++ '}' :: rest) acc
      = Parsed.ok (JSVal.obj (Record.spread acc fields)) rest
  | [], hne, _, _, _, _, _ => absurd rfl hne
  | (k, v) :: more, _, h, acc, rest, fuel, hf => by
    rw [cleanFields, cleanField] at h
    simp only [Bool.and_eq_true] at h
    obtain ⟨tv, htv⟩ := stringify_of_clean v h.1
    obtain ⟨f, rfl⟩ : ∃ f, fuel = f + 1 := ⟨fuel - 1, by omega⟩
    rw [stringifyFields_cons k v more false tv htv] at hf ⊢
    simp only [Bool.false_eq_true, if_false, List.nil_append, List.length_append,
      List.length_cons] at hf
    simp only [Bool.false_eq_true, if_false, List.nil_append, List.append_assoc,
      List.cons_append]
    obtain ⟨body, hb, hp⟩ := parseStringBody_quote k
      (':' :: (tv ++ (stringifyFields more true ++ '}' :: rest)))
    rw [hb, parseMembers]
    simp only [if_true, hp]
    rw [skipSpace_cons ':' _ (by decide)]
    simp only [if_true]
    obtain ⟨c, t, ht, h1, _, _⟩ := stringify_head v h.1 tv htv
    cases more with
    | nil =>
      have hv := parseValue_stringify v h.1 tv ('}' :: rest) f htv rfl (by omega)
      simp only [stringifyFields, List.nil_append] at hf ⊢
      rw [ht] at hv ⊢
      rw [List.cons_append, skipSpace_cons c _ h1]
      rw [List.cons_append] at hv
      rw [hv]
      simp only
      rw [skipSpace_cons '}' rest (by decide)]
      simp [Record.spread]
    | cons kv' more' =>
      obtain ⟨k', v'⟩ := kv'
      have hv' : clean v' = true := by
        have := h.2
        rw [cleanFields, cleanField] at this
        simp only [Bool.and_eq_true] at this
        exact this.1
      obtain ⟨tv', htv'⟩ := stringify_of_clean v' hv'
      have hsep : stringifyFields ((k', v') :: more') true
          = ',' :: stringifyFields ((k', v') :: more') false := by
        rw [stringifyFields_cons k' v' more' true tv' htv',
          stringifyFields_cons k' v' more' false tv' htv']
        simp
      rw [hsep] at hf ⊢
      simp only [List.length_cons] at hf
      have hv := parseValue_stringify v h.1 tv
        (',' :: (stringifyFields ((k', v') :: more') false ++ '}' :: rest)) f htv rfl (by omega)
      rw [ht] at hv ⊢
      simp only [List.cons_append] at hv ⊢
      rw [skipSpace_cons c _ h1, hv]
      simp only
      rw [skipSpace_cons ',' _ (by decide)]
      simp only [if_true]
      have ih := parseMembers_stringify ((k', v') :: more') (by simp) h.2 (acc.set k v) rest f
        (by omega)
      have hhead : ∃ t', stringifyFields ((k', v') :: more') false = '"' :: t' := by
        rw [stringifyFields_cons k' v' more' false tv' htv']
        exact ⟨_, rfl⟩
      obtain ⟨t', ht'⟩ := hhead
      rw [ht'] at ih ⊢
      rw [List.cons_append, skipSpace_cons '"' _ (by decide)]
      exact ih
end

/-- `JSON.parse` reads the text that `JSON.stringify` wrote for a clean value
back as that value. -/
theorem parse_stringify (v : JSVal) (h : clean v = true) (text : Str)
    (hs : stringify v = some text) : parse text = Except.ok v := by
  obtain ⟨c, t, ht, h1, _, _⟩ := stringify_head v h text hs
  have hv := parseValue_stringify v h text [] (2 * text.length + 2) hs rfl (by omega)
  rw [List.append_nil] at hv
  unfold parse
  rw [ht, skipSpace_cons c t h1, ← ht, hv]
  rfl

end JSON

/-! ## What `JSON.parse` yields, and the image of a value -/

namespace JSON

theorem cleanItems_iff (items : List JSVal) :
    cleanItems items = true ↔ ∀ x ∈ items, clean x = true := by
  induction items with
  | nil => simp [cleanItems]
  | cons x xs ih =>
    rw [cleanItems]
    simp only [Bool.and_eq_true, ih, List.mem_cons, forall_eq_or_imp]

theorem cleanFields_iff (fields : List (Str × JSVal)) :
    cleanFields fields = true ↔ ∀ kv ∈ fields, clean kv.2 = true := by
  induction fields with
  | nil => simp [cleanFields]
  | cons kv rest ih =>
    obtain ⟨k, v⟩ := kv
    rw [cleanFields, cleanField]
    simp only [Bool.and_eq_true, ih, List.mem_cons, forall_eq_or_imp]

theorem mem_replace (r : Record) (k : Str) (v : JSVal) (kv : Str × JSVal)
    (h : kv ∈ r.replace k v) : kv.2 = v ∨ kv ∈ r := by
  induction r with
  | nil => simp [Record.replace] at h
  | cons x rest ih =>
    obtain ⟨k0, v0⟩ := x
    by_cases hk : k0 = k
    · simp only [Record.replace, hk, if_true, List.mem_cons] at h
      rcases h with h | h
      · left; rw [h]
      · right; exact List.mem_cons_of_mem _ h
    · simp only [Record.replace, hk, if_false, List.mem_cons] at h
      rcases h with h | h
      · right; rw [h]; exact List.mem_cons_self _ _
      · rcases ih h with h' | h'
        · exact Or.inl h'
        · exact Or.inr (List.mem_cons_of_mem _ h')

theorem mem_set (r : Record) (k : Str) (v : JSVal) (kv : Str × JSVal) (h : kv ∈ r.set k v) :
    kv.2 = v ∨ kv ∈ r := by
  by_cases hh : r.has k = true
  · simp only [Record.set, hh, if_true] at h
    exact mem_replace r k v kv h
  · have hh' : r.has k = false := by simpa using hh
    obtain ⟨a, b, hab, hset⟩ := Record.set_split r k v hh'
    rw [hset] at h
    rw [hab]
    simp only [List.mem_append, List.mem_cons] at h ⊢
    rcases h with h | h | h
    · exact Or.inr (Or.inl h)
    · left; rw [h]
    · exact Or.inr (Or.inr h)

theorem cleanFields_set (r : Record) (k : Str) (v : JSVal) (hr : cleanFields r = true)
    (hv : clean v = true) : cleanFields (r.set k v) = true := by
  rw [cleanFields_iff] at hr ⊢
  intro kv hkv
  rcases mem_set r k v kv hkv with h | h
  · rw [h]; exact hv
  · exact hr kv h

theorem validItems_iff (items : List JSVal) :
    validItems items = true ↔ ∀ x ∈ items, valid x = true := by
  induction items with
  | nil => simp [validItems]
  | cons x xs ih =>
    rw [validItems]
    simp only [Bool.and_eq_true, ih, List.mem_cons, forall_eq_or_imp]

theorem validFields_iff (fields : List (Str × JSVal)) :
    validFields fields = true ↔ ∀ kv ∈ fields, valid kv.2 = true := by
  induction fields with
  | nil => simp [validFields]
  | cons kv rest ih =>
    obtain ⟨k, v⟩ := kv
    rw [validFields, validField]
    simp only [Bool.and_eq_true, ih, List.mem_cons, forall_eq_or_imp]

theorem validFields_set (r : Record) (k : Str) (v : JSVal) (hr : validFields r = true)
    (hv : valid v = true) : validFields (r.set k v) = true := by
  rw [validFields_iff] at hr ⊢
  intro kv hkv
  rcases mem_set r k v kv hkv with h | h
  · rw [h]; exact hv
  · exact hr kv h

theorem valid_of_parseKeyword (s : Str) (v : JSVal) (rest : Str)
    (h : parseKeyword s = some (v, rest)) : valid v = true := by
  unfold parseKeyword at h
  split at h
  · simp only [Option.some.injEq, Prod.mk.injEq] at h; rw [← h.1]; rfl
  · split at h
    · simp only [Option.some.injEq, Prod.mk.injEq] at h; rw [← h.1]; rfl
    · split at h
      · simp only [Option.some.injEq, Prod.mk.injEq] at h; rw [← h.1]; rfl
      · cases h

theorem valid_of_parse_fuel (fuel : Nat) :
    (∀ (s : Str) (v : JSVal) (rest : Str), parseValue fuel s = Parsed.ok v rest → valid v = true) ∧
    (∀ (s : Str) (acc : List JSVal) (v : JSVal) (rest : Str),
      parseElements fuel s acc = Parsed.ok v rest → validItems acc = true → valid v = true) ∧
    (∀ (s : Str) (acc : Record) (v : JSVal) (rest : Str),
      parseMembers fuel s acc = Parsed.ok v rest → acc.WF → validFields acc = true →
        valid v = true) := by
  induction fuel with
  | zero =>
    refine ⟨?_, ?_, ?_⟩
    · intro s v rest h; rw [parseValue] at h; cases h
    · intro s acc v rest h; rw [parseElements] at h; cases h
    · intro s acc v rest h; rw [parseMembers] at h; cases h
  | succ f ih =>
    obtain ⟨ihv, ihe, ihm⟩ := ih
    refine ⟨?_, ?_, ?_⟩
    · intro s v rest h
      cases s with
      | nil => rw [parseValue] at h; cases h
      | cons c r =>
        rw [parseValue] at h
        split at h
        · split at h
          · cases h
          · split at h
            · cases h; decide
            · exact ihm _ _ _ _ h (by decide) rfl
        · split at h
          · split at h
            · cases h
            · split at h
              · cases h; rfl
              · exact ihe _ _ _ _ h rfl
          · split at h
            · split at h
              · cases h; rfl
              · cases h
            · split at h
              · rename_i hk
                cases h
                exact valid_of_parseKeyword _ _ _ hk
              · split at h
                · rename_i hn
                  cases h
                  rw [valid]
                  exact Number.ofLiteral_isText _ (isNumberLiteral_of_parseNumber _ _ _ hn)
                · cases h
    · intro s acc v rest h hacc
      rw [parseElements] at h
      split at h
      · rename_i x r hx
        have hxc := ihv _ _ _ hx
        have hacc' : validItems (acc ++ [x]) = true := by
          rw [validItems_iff] at hacc ⊢
          intro y hy
          simp only [List.mem_append, List.mem_singleton] at hy
          rcases hy with hy | rfl
          · exact hacc y hy
          · exact hxc
        split at h
        · cases h
        · split at h
          · exact ihe _ _ _ _ h hacc'
          · split at h
            · cases h
              rw [valid]
              exact hacc'
            · cases h
      · cases h
      · cases h
    · intro s acc v rest h hwf hacc
      cases s with
      | nil => rw [parseMembers] at h; cases h
      | cons c r =>
        rw [parseMembers] at h
        split at h
        · split at h
          · rename_i key r1 hkey
            split at h
            · cases h
            · split at h
              · split at h
                · rename_i x r3 hx
                  have hxc := ihv _ _ _ hx
                  have hwf' := Record.wf_set acc key x hwf
                  have hacc' := validFields_set acc key x hacc hxc
                  split at h
                  · cases h
                  · split at h
                    · exact ihm _ _ _ _ h hwf' hacc'
                    · split at h
                      · cases h
                        rw [valid]
                        simp only [Bool.and_eq_true, decide_eq_true_eq]
                        exact ⟨hwf', hacc'⟩
                      · cases h
                · cases h
                · cases h
              · cases h
          · cases h
        · cases h

/-- Every value that `JSON.parse` returns is valid. -/
theorem valid_of_parse (text : Str) (v : JSVal) (h : parse text = Except.ok v) :
    valid v = true := by
  unfold parse at h
  split at h
  · rename_i x rest hp
    split at h
    · cases h
      exact (valid_of_parse_fuel _).1 _ _ _ hp
    · cases h
  · cases h


/-! ### The image of a value -/

theorem notFinite_of_literal (text : Str) (h : isNumberLiteral text = true) :
    JSVal.notFinite text = false := by
  obtain ⟨_, c, t, hl, hc⟩ := parseNumber_literal text [] h rfl
  cases ht : JSVal.notFinite text with
  | false => rfl
  | true =>
    simp only [JSVal.notFinite, Bool.or_eq_true, beq_iff_eq] at ht
    rcases ht with (ht | ht) | ht
    · rw [ht] at h; revert h; decide
    · rw [ht] at h; revert h; decide
    · rw [ht] at h; revert h; decide

theorem stringify_defined (v : JSVal) (h : v ≠ JSVal.undefined) :
    ∃ text, stringify v = some text := by
  cases v with
  | undefined => exact absurd rfl h
  | null => exact ⟨_, rfl⟩
  | bool b => cases b <;> exact ⟨_, rfl⟩
  | num text => exact ⟨_, rfl⟩
  | str s => exact ⟨_, rfl⟩
  | arr items => exact ⟨_, by rw [stringify]⟩
  | obj fields => exact ⟨_, by rw [stringify]⟩

theorem stringify_image_num (text : Str) :
    stringify (image (JSVal.num text)) = stringify (JSVal.num text) := by
  rw [image]
  by_cases hf : JSVal.notFinite text = true
  · simp only [hf, if_true, stringify]
  · have hf' : JSVal.notFinite text = false := by simpa using hf
    simp only [hf', Bool.false_eq_true, if_false, stringify, JSVal.toStr]
    by_cases hz : text = "-0".toList
    · subst hz
      decide
    · have hz' : (text == "-0".toList) = false := by simpa using hz
      simp only [hz', Bool.false_eq_true, if_false, hf']

theorem imageItems_isEmpty (items : List JSVal) :
    (imageItems items).isEmpty = items.isEmpty := by
  cases items with
  | nil => rfl
  | cons x rest => rw [imageItems]; rfl

mutual
/-- The image of a value is written as the value is. -/
theorem stringify_image : (v : JSVal) → v ≠ JSVal.undefined →
    stringify (image v) = stringify v
  | JSVal.undefined, h => absurd rfl h
  | JSVal.null, _ => rfl
  | JSVal.bool _, _ => rfl
  | JSVal.num text, _ => stringify_image_num text
  | JSVal.str _, _ => rfl
  | JSVal.arr items, _ => by
    rw [image, stringify, stringify, stringifyItems_image items]
  | JSVal.obj fields, _ => by
    rw [image, stringify, stringify, stringifyFields_image fields false]
/-- The images of the elements are written as the elements are. -/
theorem stringifyItems_image : (items : List JSVal) →
    stringifyItems (imageItems items) = stringifyItems items
  | [] => rfl
  | x :: rest => by
    rw [imageItems, stringifyItems, stringifyItems, stringifyItems_image rest,
      imageItems_isEmpty]
    by_cases hu : x = JSVal.undefined
    · subst hu; rfl
    · rw [stringify_image x hu]
/-- The images of the properties are written as the properties are. -/
theorem stringifyFields_image : (fields : List (Str × JSVal)) → ∀ sep : Bool,
    stringifyFields (imageFields fields) sep = stringifyFields fields sep
  | [], _ => rfl
  | (k, v) :: rest, sep => by
    by_cases hu : v = JSVal.undefined
    · subst hu
      have e1 : imageFields ((k, JSVal.undefined) :: rest) = imageFields rest := by
        rw [imageFields, imageField]; simp
      have e2 : stringifyFields ((k, JSVal.undefined) :: rest) sep = stringifyFields rest sep := by
        rw [stringifyFields, stringifyField]; simp [stringify]
      rw [e1, e2, stringifyFields_image rest sep]
    · have e1 : imageFields ((k, v) :: rest) = (k, image v) :: imageFields rest := by
        rw [imageFields, imageField]; simp [hu]
      obtain ⟨tv, htv⟩ := stringify_defined v hu
      have htv' : stringify (image v) = some tv := by rw [stringify_image v hu, htv]
      rw [e1, stringifyFields_cons k (image v) _ sep tv htv',
        stringifyFields_cons k v rest sep tv htv, stringifyFields_image rest true]
end

theorem keys_imageFields_sublist (fields : List (Str × JSVal)) :
    List.Sublist (Record.keys (imageFields fields)) (Record.keys fields) := by
  induction fields with
  | nil => exact List.Sublist.slnil
  | cons kv rest ih =>
    obtain ⟨k, v⟩ := kv
    by_cases hu : v = JSVal.undefined
    · have e1 : imageFields ((k, v) :: rest) = imageFields rest := by
        rw [imageFields, imageField]; simp [hu]
      rw [e1]
      exact List.Sublist.cons _ ih
    · have e1 : imageFields ((k, v) :: rest) = (k, image v) :: imageFields rest := by
        rw [imageFields, imageField]; simp [hu]
      rw [e1]
      exact List.Sublist.cons₂ _ ih

theorem wf_imageFields (fields : Record) (h : fields.WF) : Record.WF (imageFields fields) :=
  ⟨h.1.sublist (keys_imageFields_sublist fields), h.2.sublist (keys_imageFields_sublist fields)⟩

theorem clean_zero : clean (JSVal.num "0".toList) = true := by decide!

mutual
/-- The image of a valid value is clean. -/
theorem clean_image : (v : JSVal) → valid v = true → clean (image v) = true
  | JSVal.undefined, _ => rfl
  | JSVal.null, _ => rfl
  | JSVal.bool _, _ => rfl
  | JSVal.num text, h => by
    rw [image]
    by_cases hf : JSVal.notFinite text = true
    · simp only [hf, if_true]; rfl
    · have hf' : JSVal.notFinite text = false := by simpa using hf
      simp only [valid, Number.isText, hf', Bool.false_or, Bool.and_eq_true, beq_iff_eq] at h
      simp only [hf', Bool.false_eq_true, if_false, JSVal.toStr]
      by_cases hz : text = "-0".toList
      · subst hz
        exact clean_zero
      · have hz' : (text == "-0".toList) = false := by simpa using hz
        simp only [hz', Bool.false_eq_true, if_false, clean, h.1, h.2, Bool.and_self,
          beq_self_eq_true, Bool.true_and, bne_iff_ne, ne_eq, hz, not_false_eq_true,
          decide_True]
  | JSVal.str _, _ => rfl
  | JSVal.arr items, h => by
    rw [valid] at h
    rw [image, clean]
    exact cleanItems_image items h
  | JSVal.obj fields, h => by
    rw [valid] at h
    simp only [Bool.and_eq_true, decide_eq_true_eq] at h
    rw [image, clean]
    simp only [Bool.and_eq_true, decide_eq_true_eq]
    exact ⟨wf_imageFields fields h.1, cleanFields_image fields h.2⟩
/-- The images of valid elements are clean. -/
theorem cleanItems_image : (items : List JSVal) → validItems items = true →
    cleanItems (imageItems items) = true
  | [], _ => rfl
  | x :: rest, h => by
    rw [validItems] at h
    simp only [Bool.and_eq_true] at h
    rw [imageItems, cleanItems, clean_image x h.1, cleanItems_image rest h.2]
    rfl
/-- The images of valid properties are clean. -/
theorem cleanFields_image : (fields : List (Str × JSVal)) → validFields fields = true →
    cleanFields (imageFields fields) = true
  | [], _ => rfl
  | (k, v) :: rest, h => by
    rw [validFields, validField] at h
    simp only [Bool.and_eq_true] at h
    by_cases hu : v = JSVal.undefined
    · have e1 : imageFields ((k, v) :: rest) = imageFields rest := by
        rw [imageFields, imageField]; simp [hu]
      rw [e1]
      exact cleanFields_image rest h.2
    · have e1 : imageFields ((k, v) :: rest) = (k, image v) :: imageFields rest := by
        rw [imageFields, imageField]; simp [hu]
      rw [e1, cleanFields, cleanField, clean_image v h.1, cleanFields_image rest h.2]
      rfl
end

mutual
/-- A clean value is its own image. -/
theorem image_of_clean : (v : JSVal) → clean v = true → image v = v
  | JSVal.undefined, h => by simp [clean] at h
  | JSVal.null, _ => rfl
  | JSVal.bool _, _ => rfl
  | JSVal.num text, h => by
    have hc := h
    simp only [clean, Bool.and_eq_true, beq_iff_eq, bne_iff_ne, ne_eq] at hc
    have hf := notFinite_of_literal text hc.1.1
    have hz' : (text == "-0".toList) = false := by simpa using hc.2
    rw [image]
    simp only [hf, Bool.false_eq_true, if_false, JSVal.toStr, hz']
  | JSVal.str _, _ => rfl
  | JSVal.arr items, h => by
    rw [clean] at h
    rw [image, imageItems_of_clean items h]
  | JSVal.obj fields, h => by
    rw [clean] at h
    simp only [Bool.and_eq_true, decide_eq_true_eq] at h
    rw [image, imageFields_of_clean fields h.2]
/-- Clean elements are their own images. -/
theorem imageItems_of_clean : (items : List JSVal) → cleanItems items = true →
    imageItems items = items
  | [], _ => rfl
  | x :: rest, h => by
    rw [cleanItems] at h
    simp only [Bool.and_eq_true] at h
    rw [imageItems, image_of_clean x h.1, imageItems_of_clean rest h.2]
/-- Clean properties are their own images. -/
theorem imageFields_of_clean : (fields : List (Str × JSVal)) → cleanFields fields = true →
    imageFields fields = fields
  | [], _ => rfl
  | (k, v) :: rest, h => by
    rw [cleanFields, cleanField] at h
    simp only [Bool.and_eq_true] at h
    have hu : v ≠ JSVal.undefined := by
      intro e; rw [e] at h; simp [clean] at h
    have e1 : imageFields ((k, v) :: rest) = (k, image v) :: imageFields rest := by
      rw [imageFields, imageField]; simp [hu]
    rw [e1, image_of_clean v h.1, imageFields_of_clean rest h.2]
end

mutual
/-- A valid value that is plain is clean. -/
theorem clean_of_valid_plain : (v : JSVal) → valid v = true → plain v = true → clean v = true
  | JSVal.undefined, _, hp => by simp [plain] at hp
  | JSVal.null, _, _ => rfl
  | JSVal.bool _, _, _ => rfl
  | JSVal.num text, hv, hp => by
    simp only [plain, Bool.and_eq_true, Bool.not_eq_true', bne_iff_ne, ne_eq] at hp
    simp only [valid, Number.isText, hp.1, Bool.false_or, Bool.and_eq_true, beq_iff_eq] at hv
    simp only [clean, hv.1, hv.2, beq_self_eq_true, Bool.and_self, Bool.true_and, bne_iff_ne,
      ne_eq, hp.2, not_false_eq_true, decide_True]
  | JSVal.str _, _, _ => rfl
  | JSVal.arr items, hv, hp => by
    rw [valid] at hv
    rw [plain] at hp
    rw [clean]
    exact cleanItems_of_valid_plain items hv hp
  | JSVal.obj fields, hv, hp => by
    rw [valid] at hv
    rw [plain] at hp
    simp only [Bool.and_eq_true, decide_eq_true_eq] at hv
    rw [clean]
    simp only [Bool.and_eq_true, decide_eq_true_eq]
    exact ⟨hv.1, cleanFields_of_valid_plain fields hv.2 hp⟩
/-- Valid elements that are plain are clean. -/
theorem cleanItems_of_valid_plain : (items : List JSVal) → validItems items = true →
    plainItems items = true → cleanItems items = true
  | [], _, _ => rfl
  | x :: rest, hv, hp => by
    rw [validItems] at hv
    rw [plainItems] at hp
    simp only [Bool.and_eq_true] at hv hp
    rw [cleanItems, clean_of_valid_plain x hv.1 hp.1, cleanItems_of_valid_plain rest hv.2 hp.2]
    rfl
/-- Valid properties that are plain are clean. -/
theorem cleanFields_of_valid_plain : (fields : List (Str × JSVal)) →
    validFields fields = true → plainFields fields = true → cleanFields fields = true
  | [], _, _ => rfl
  | (k, v) :: rest, hv, hp => by
    rw [validFields, validField] at hv
    rw [plainFields, plainField] at hp
    simp only [Bool.and_eq_true] at hv hp
    rw [cleanFields, cleanField, clean_of_valid_plain v hv.1 hp.1,
      cleanFields_of_valid_plain rest hv.2 hp.2]
    rfl
end

/-- `JSON.parse` reads the text that `JSON.stringify` wrote for a valid value
back as the image of the value. -/
theorem parse_stringify_image (v : JSVal) (hv : valid v = true) (hu : v ≠ JSVal.undefined) :
    ∃ text, stringify v = some text ∧ parse text = Except.ok (image v) := by
  obtain ⟨text, htext⟩ := stringify_defined v hu
  refine ⟨text, htext, ?_⟩
  apply parse_stringify (image v) (clean_image v hv) text
  rw [stringify_image v hu, htext]

theorem imageItems_eq_map (items : List JSVal) : imageItems items = items.map image := by
  induction items with
  | nil => rfl
  | cons x rest ih => rw [imageItems, ih]; rfl

theorem plainFields_iff (fields : List (Str × JSVal)) :
    plainFields fields = true ↔ ∀ kv ∈ fields, plain kv.2 = true := by
  induction fields with
  | nil => simp [plainFields]
  | cons kv rest ih =>
    obtain ⟨k, v⟩ := kv
    rw [plainFields, plainField]
    simp only [Bool.and_eq_true, ih, List.mem_cons, forall_eq_or_imp]

theorem plainFields_set (r : Record) (k : Str) (v : JSVal) (hr : plainFields r = true)
    (hv : plain v = true) : plainFields (r.set k v) = true := by
  rw [plainFields_iff] at hr ⊢
  intro kv hkv
  rcases mem_set r k v kv hkv with h | h
  · rw [h]; exact hv
  · exact hr kv h

/-- A property of the image: the image of the value of the property, and no
property where the value is `undefined`. -/
theorem lookup_imageFields (fields : Record) (h : fields.keys.Nodup) (k : Str) :
    Record.lookup (imageFields fields) k
      = (Record.lookup fields k).bind
          (fun v => if v = JSVal.undefined then none else some (image v)) := by
  induction fields with
  | nil => rfl
  | cons kv rest ih =>
    obtain ⟨k0, v0⟩ := kv
    have hnd : (Record.keys rest).Nodup := (List.nodup_cons.mp h).2
    have hnot : k0 ∉ Record.keys rest := (List.nodup_cons.mp h).1
    by_cases hu : v0 = JSVal.undefined
    · have e1 : imageFields ((k0, v0) :: rest) = imageFields rest := by
        rw [imageFields, imageField]; simp [hu]
      rw [e1, ih hnd]
      by_cases hk : k0 = k
      · subst hk
        have hnone : Record.lookup rest k0 = none := (Record.lookup_eq_none_iff rest k0).mpr hnot
        simp [Record.lookup, hnone, hu]
      · simp [Record.lookup, hk]
    · have e1 : imageFields ((k0, v0) :: rest) = (k0, image v0) :: imageFields rest := by
        rw [imageFields, imageField]; simp [hu]
      rw [e1]
      by_cases hk : k0 = k
      · simp [Record.lookup, hk, hu]
      · simp only [Record.lookup, hk, if_false]
        exact ih hnd

end JSON

/-! ## The recursion budget of `JSON.parse` is never exhausted -/

namespace JSON

theorem skipSpace_length_le (s : Str) : (skipSpace s).length ≤ s.length := by
  unfold skipSpace
  induction s with
  | nil => simp
  | cons c rest ih =>
    rw [List.dropWhile_cons]
    split
    · simp only [List.length_cons]; omega
    · exact le_refl _

theorem parseStringBody_length_aux (n : Nat) : ∀ s : Str, s.length ≤ n →
    ∀ (acc : Str) (str rest : Str),
      parseStringBody s acc = some (str, rest) → rest.length + 1 ≤ s.length := by
  induction n with
  | zero =>
    intro s hs acc str rest h
    have : s = [] := List.length_eq_zero.mp (by omega)
    subst this
    rw [parseStringBody.eq_def] at h
    cases h
  | succ n ih =>
    intro s hs acc str rest h
    rw [parseStringBody.eq_def] at h
    split at h
    · cases h
    · rename_i acc' c r
      simp only [List.length_cons] at hs ⊢
      split at h
      · simp only [Option.some.injEq, Prod.mk.injEq] at h
        rw [← h.2]
      · split at h
        · split at h
          · cases h
          · rename_i e r1
            simp only [List.length_cons] at hs ⊢
            split at h
            · split at h
              · rename_i a b c' d r2
                simp only [List.length_cons] at hs ⊢
                split at h
                · have := ih r2 (by omega) _ _ _ h
                  omega
                · cases h
              · cases h
            · split at h
              · have := ih r1 (by omega) _ _ _ h
                omega
              · cases h
        · split at h
          · cases h
          · have := ih r (by omega) _ _ _ h
            omega

theorem parseStringBody_length (s : Str) (acc : Str) (str rest : Str)
    (h : parseStringBody s acc = some (str, rest)) : rest.length + 1 ≤ s.length :=
  parseStringBody_length_aux s.length s (le_refl _) acc str rest h

theorem parseKeyword_length (s : Str) (v : JSVal) (rest : Str)
    (h : parseKeyword s = some (v, rest)) : rest.length + 1 ≤ s.length := by
  unfold parseKeyword at h
  have hpre : ∀ p : Str, p ≠ [] → p.isPrefixOf s = true → (s.drop p.length).length + 1 ≤ s.length := by
    intro p hp hps
    have hle := (List.isPrefixOf_iff_prefix.mp hps).length_le
    have : 0 < p.length := List.length_pos.mpr hp
    rw [List.length_drop]
    omega
  split at h
  · rename_i hp
    simp only [Option.some.injEq, Prod.mk.injEq] at h
    rw [← h.2]
    exact hpre "true".toList (by decide) hp
  · split at h
    · rename_i hp
      simp only [Option.some.injEq, Prod.mk.injEq] at h
      rw [← h.2]
      exact hpre "false".toList (by decide) hp
    · split at h
      · rename_i hp
        simp only [Option.some.injEq, Prod.mk.injEq] at h
        rw [← h.2]
        exact hpre "null".toList (by decide) hp
      · cases h

theorem scanSign_append (s : Str) : s = (scanSign s).1 ++ (scanSign s).2 := by
  unfold scanSign
  split
  · rfl
  · split
    · rename_i h; rw [h]; rfl
    · rfl

theorem parseNumber_length (s lit rest : Str) (h : parseNumber s = some (lit, rest)) :
    rest.length + 1 ≤ s.length := by
  have hshape := (parseNumber_rereads s lit rest h).1
  unfold parseNumber at h
  split at h
  · cases h
  · rename_i int s2 hint
    split at h
    · cases h
    · rename_i frac s3 hfrac
      split at h
      · cases h
      · rename_i exp s4 hexp
        simp only [Option.some.injEq, Prod.mk.injEq] at h
        obtain ⟨hlit, hrest⟩ := h
        obtain ⟨⟨hs1, hstop1, _⟩, _⟩ := scanInt_rereads _ _ _ hint
        obtain ⟨⟨hs2, hstop2, _⟩, _⟩ := scanFrac_rereads _ _ _ hfrac hstop1
        obtain ⟨⟨hs3, _, _⟩, _⟩ := scanExp_rereads _ _ _ hexp hstop2.1
        have hs : s = lit ++ rest := by
          rw [← hlit, ← hrest]
          calc s = (scanSign s).1 ++ (scanSign s).2 := scanSign_append s
            _ = (scanSign s).1 ++ (int ++ (frac ++ (exp ++ s4))) := by rw [hs1, hs2, hs3]
            _ = (scanSign s).1 ++ int ++ frac ++ exp ++ s4 := by simp only [List.append_assoc]
        obtain ⟨c, t, hl, _⟩ := hshape
        have hlen := congrArg List.length hs
        rw [List.length_append, hl, List.length_cons] at hlen
        omega

theorem parse_length_fuel (fuel : Nat) :
    (∀ (s : Str) (v : JSVal) (rest : Str),
      parseValue fuel s = Parsed.ok v rest → rest.length + 1 ≤ s.length) ∧
    (∀ (s : Str) (acc : List JSVal) (v : JSVal) (rest : Str),
      parseElements fuel s acc = Parsed.ok v rest → rest.length + 1 ≤ s.length) ∧
    (∀ (s : Str) (acc : Record) (v : JSVal) (rest : Str),
      parseMembers fuel s acc = Parsed.ok v rest → rest.length + 1 ≤ s.length) := by
  induction fuel with
  | zero =>
    refine ⟨?_, ?_, ?_⟩
    · intro s v rest h; rw [parseValue] at h; cases h
    · intro s acc v rest h; rw [parseElements] at h; cases h
    · intro s acc v rest h; rw [parseMembers] at h; cases h
  | succ f ih =>
    obtain ⟨ihv, ihe, ihm⟩ := ih
    refine ⟨?_, ?_, ?_⟩
    · intro s v rest h
      cases s with
      | nil => rw [parseValue] at h; cases h
      | cons c r =>
        rw [parseValue] at h
        simp only [List.length_cons]
        have hsk := skipSpace_length_le r
        split at h
        · split at h
          · cases h
          · rename_i d r' hd
            rw [hd, List.length_cons] at hsk
            split at h
            · cases h; omega
            · have := ihm _ _ _ _ h
              simp only [List.length_cons] at this
              omega
        · split at h
          · split at h
            · cases h
            · rename_i d r' hd
              rw [hd, List.length_cons] at hsk
              split at h
              · cases h; omega
              · have := ihe _ _ _ _ h
                simp only [List.length_cons] at this
                omega
          · split at h
            · split at h
              · rename_i str r' hp
                cases h
                have := parseStringBody_length _ _ _ _ hp
                omega
              · cases h
            · split at h
              · rename_i hk
                cases h
                have := parseKeyword_length _ _ _ hk
                simp only [List.length_cons] at this
                omega
              · split at h
                · rename_i hn
                  cases h
                  have := parseNumber_length _ _ _ hn
                  simp only [List.length_cons] at this
                  omega
                · cases h
    · intro s acc v rest h
      rw [parseElements] at h
      split at h
      · rename_i x r hx
        have hxl := ihv _ _ _ hx
        have hsk := skipSpace_length_le r
        split at h
        · cases h
        · rename_i d r' hd
          rw [hd, List.length_cons] at hsk
          split at h
          · have := ihe _ _ _ _ h
            have := skipSpace_length_le r'
            omega
          · split at h
            · cases h; omega
            · cases h
      · cases h
      · cases h
    · intro s acc v rest h
      cases s with
      | nil => rw [parseMembers] at h; cases h
      | cons c r =>
        rw [parseMembers] at h
        simp only [List.length_cons]
        split at h
        · split at h
          · rename_i key r1 hkey
            have hkl := parseStringBody_length _ _ _ _ hkey
            have hsk1 := skipSpace_length_le r1
            split at h
            · cases h
            · rename_i d r2 hd
              rw [hd, List.length_cons] at hsk1
              split at h
              · split at h
                · rename_i x r3 hx
                  have hxl := ihv _ _ _ hx
                  have hsk2 := skipSpace_length_le r2
                  have hsk3 := skipSpace_length_le r3
                  split at h
                  · cases h
                  · rename_i g r4 hg
                    rw [hg, List.length_cons] at hsk3
                    split at h
                    · have := ihm _ _ _ _ h
                      have := skipSpace_length_le r4
                      omega
                    · split at h
                      · cases h; omega
                      · cases h
                · cases h
                · cases h
              · cases h
          · cases h
        · cases h

theorem parse_fuel (fuel : Nat) :
    (∀ s : Str, 2 * s.length + 1 ≤ fuel → parseValue fuel s ≠ Parsed.outOfFuel) ∧
    (∀ (s : Str) (acc : List JSVal), 2 * s.length + 2 ≤ fuel →
      parseElements fuel s acc ≠ Parsed.outOfFuel) ∧
    (∀ (s : Str) (acc : Record), 2 * s.length + 2 ≤ fuel →
      parseMembers fuel s acc ≠ Parsed.outOfFuel) := by
  induction fuel with
  | zero =>
    refine ⟨?_, ?_, ?_⟩ <;> intros <;> omega
  | succ f ih =>
    obtain ⟨ihv, ihe, ihm⟩ := ih
    refine ⟨?_, ?_, ?_⟩
    · intro s hf h
      cases s with
      | nil => rw [parseValue] at h; cases h
      | cons c r =>
        rw [parseValue] at h
        simp only [List.length_cons] at hf
        have hsk := skipSpace_length_le r
        split at h
        · split at h
          · cases h
          · rename_i d r' hd
            rw [hd, List.length_cons] at hsk
            split at h
            · cases h
            · exact ihm _ _ (by simp only [List.length_cons]; omega) h
        · split at h
          · split at h
            · cases h
            · rename_i d r' hd
              rw [hd, List.length_cons] at hsk
              split at h
              · cases h
              · exact ihe _ _ (by simp only [List.length_cons]; omega) h
          · split at h
            · split at h <;> cases h
            · split at h
              · cases h
              · split at h <;> cases h
    · intro s acc hf h
      rw [parseElements] at h
      split at h
      · rename_i x r hx
        have hxl := (parse_length_fuel f).1 _ _ _ hx
        have hsk := skipSpace_length_le r
        split at h
        · cases h
        · rename_i d r' hd
          rw [hd, List.length_cons] at hsk
          split at h
          · have := skipSpace_length_le r'
            exact ihe _ _ (by omega) h
          · split at h <;> cases h
      · cases h
      · rename_i hx
        exact ihv s (by omega) hx
    · intro s acc hf h
      cases s with
      | nil => rw [parseMembers] at h; cases h
      | cons c r =>
        rw [parseMembers] at h
        simp only [List.length_cons] at hf
        split at h
        · split at h
          · rename_i key r1 hkey
            have hkl := parseStringBody_length _ _ _ _ hkey
            have hsk1 := skipSpace_length_le r1
            split at h
            · cases h
            · rename_i d r2 hd
              rw [hd, List.length_cons] at hsk1
              have hsk2 := skipSpace_length_le r2
              split at h
              · split at h
                · rename_i x r3 hx
                  have hxl := (parse_length_fuel f).1 _ _ _ hx
                  have hsk3 := skipSpace_length_le r3
                  split at h
                  · cases h
                  · rename_i g r4 hg
                    rw [hg, List.length_cons] at hsk3
                    split at h
                    · have := skipSpace_length_le r4
                      exact ihm _ _ (by omega) h
                    · split at h <;> cases h
                · cases h
                · rename_i hx
                  exact ihv _ (by omega) hx
              · cases h
          · cases h
        · cases h

/-- The recursion budget that `JSON.parse` gives to `parseValue` is enough for every text:
a text is rejected only for its syntax. -/
theorem parse_budget (text : Str) :
    parseValue (2 * text.length + 2) (skipSpace text) ≠ Parsed.outOfFuel := by
  apply (parse_fuel _).1
  have := skipSpace_length_le text
  omega

end JSON

/-! ## Field edits -/

theorem lastEdit_mem (edits : List (Str × JSVal)) (k : Str) (v : JSVal)
    (h : lastEdit edits k = some v) : ∃ e ∈ edits, e.1 = k := by
  induction edits generalizing v with
  | nil => simp [lastEdit] at h
  | cons e rest ih =>
    simp only [lastEdit] at h
    cases hr : lastEdit rest k with
    | some w =>
      obtain ⟨e', he', hk⟩ := ih w hr
      exact ⟨e', List.mem_cons_of_mem _ he', hk⟩
    | none =>
      rw [hr] at h
      by_cases hk : e.1 = k
      · exact ⟨e, List.mem_cons_self _ _, hk⟩
      · simp [hk] at h

theorem lookup_spread (source : List (Str × JSVal)) : ∀ (target : Record) (k : Str),
    (Record.spread target source).lookup k =
      match lastEdit source k with
      | some v => some v
      | none => target.lookup k := by
  induction source with
  | nil => intro target k; rfl
  | cons e rest ih =>
    intro target k
    have hstep : Record.spread target (e :: rest) = Record.spread (target.set e.1 e.2) rest := rfl
    rw [hstep, ih, Record.lookup_set]
    simp only [lastEdit]
    cases lastEdit rest k with
    | some v => rfl
    | none => by_cases hk : e.1 = k <;> simp [hk]

theorem replay_edits (edits : List (Str × JSVal)) : ∀ s : State,
    (s.replay (edits.map (fun e => Event.setFormData e.1 e.2))).formData =
      applyEdits s.formData edits := by
  induction edits with
  | nil => intro s; rfl
  | cons e rest ih =>
    intro s
    exact ih (s.apply (Event.setFormData e.1 e.2))

/-- C1. For every initial summary record and every finite sequence of field edits
applied with `handleChange`, the snapshot after the edits is the initial record
with the edited fields replaced by the value of their last edit: a field reads as
its last edit if it was edited and as in the initial record if not, no field of
the initial record is dropped, the fields of the initial record keep their
relative order, and the entries of the fields of the initial record are those of
the initial record with the edited values replaced (the whole snapshot is, when
only fields of the initial record are edited). -/
theorem handleChange_edits_frame (init : Record) (edits : List (Str × JSVal)) (h : init.WF) :
    ((State.initial init).replay (edits.map (fun e => Event.setFormData e.1 e.2))).formData
        = applyEdits init edits ∧
    (∀ k, (applyEdits init edits).lookup k =
        match lastEdit edits k with
        | some v => some v
        | none => init.lookup k) ∧
    (∀ k ∈ init.keys, k ∈ (applyEdits init edits).keys) ∧
    (applyEdits init edits).keys.filter (fun k => decide (k ∈ init.keys)) = init.keys ∧
    (applyEdits init edits).filter (fun kv => decide (kv.1 ∈ init.keys))
        = withLastEdits edits init ∧
    ((∀ e ∈ edits, e.1 ∈ init.keys) → applyEdits init edits = withLastEdits edits init) ∧
    (applyEdits init edits).WF := by
  have hkeys := keys_filter_applyEdits edits init.keys init h (by simp)
  have hfilter := filter_applyEdits init edits h
  refine ⟨replay_edits edits (State.initial init), lookup_applyEdits edits init h, ?_, hkeys,
    hfilter, ?_, wf_applyEdits edits init h⟩
  · intro k hk
    rw [← hkeys] at hk
    exact (List.mem_filter.mp hk).1
  · intro hall
    rw [← hfilter]
    symm
    apply List.filter_eq_self.mpr
    intro kv hkv
    have hmem : kv.1 ∈ (applyEdits init edits).keys := List.mem_map_of_mem Prod.fst hkv
    have hsome := (Record.lookup_isSome_iff _ _).mpr hmem
    rw [lookup_applyEdits edits init h kv.1] at hsome
    cases hl : lastEdit edits kv.1 with
    | some v =>
      obtain ⟨e, he, hek⟩ := lastEdit_mem edits kv.1 v hl
      simpa [hek] using hall e he
    | none =>
      rw [hl] at hsome
      simpa using (Record.lookup_isSome_iff init kv.1).mp hsome

/-- The frame property of `handleChange` on the record of the example, edited
three times. -/
theorem handleChange_edits_frame_witness :
    janeDoe.WF ∧
    applyEdits janeDoe [("age".toList, JSVal.str "35".toList),
        ("history".toList, JSVal.str "asthma".toList), ("age".toList, JSVal.str "36".toList)]
      = [("patientName".toList, JSVal.str "Jane Doe".toList), ("age".toList, JSVal.str "36".toList),
         ("gender".toList, JSVal.str "F".toList), ("symptoms".toList, JSVal.str "cough".toList),
         ("diagnosis".toList, JSVal.str "bronchitis".toList),
         ("history".toList, JSVal.str "asthma".toList)] ∧
    (applyEdits janeDoe [("age".toList, JSVal.str "35".toList),
        ("history".toList, JSVal.str "asthma".toList),
        ("age".toList, JSVal.str "36".toList)]).keys.filter
        (fun k => decide (k ∈ janeDoe.keys)) = janeDoe.keys :=
  ⟨by decide, by rfl,
    (handleChange_edits_frame janeDoe [("age".toList, JSVal.str "35".toList),
        ("history".toList, JSVal.str "asthma".toList), ("age".toList, JSVal.str "36".toList)]
      (by decide)).2.2.2.1⟩

/-! ## The upload action -/

theorem errorStatus_eq (message : JSVal) :
    errorStatus message =
      [("type".toList, JSVal.str "error".toList), ("message".toList, message)] := rfl

theorem successStatus_eq (message : Str) :
    successStatus message =
      [("type".toList, JSVal.str "success".toList), ("message".toList, JSVal.str message)] := rfl

theorem uploadSuccessStatus_eq (uploadResult : Record) :
    uploadSuccessStatus uploadResult =
      [("type".toList, JSVal.str "success".toList),
       ("message".toList, uploadResult.get "message".toList),
       ("driveLink".toList, uploadResult.get "driveLink".toList)] := rfl

/-- C2, as amended. For every component state in which the connection flag
`isDriveConnected` of the component is false, the upload action
`handleSaveToDrive` does nothing but refuse: its events are `preventDefault` and
the alert of the refusal notice, so `uploadSummary` and the completion callback
are not called, the busy flag, the upload status and the snapshot are unchanged,
and the handler returns normally without being suspended. The flag is false
after every run of `checkDriveConnection` in which `isConnected()` is false. -/
theorem handleSaveToDrive_refuses_when_flag_false (onSave : Bool) (s : State)
    (outcome : Settled) (now : Nat) (h : s.isDriveConnected = false) :
    (handleSaveToDrive onSave s outcome now).events
        = [Event.preventDefault, Event.alert refusalNotice] ∧
    (handleSaveToDrive onSave s outcome now).events.any Event.isUploadCall = false ∧
    (handleSaveToDrive onSave s outcome now).events.any Event.isOnSave = false ∧
    s.replay (handleSaveToDrive onSave s outcome now).events = s ∧
    (handleSaveToDrive onSave s outcome now).completion = Completion.normal ∧
    (handleSaveToDriveBegin s).2 = none ∧
    (∀ s0 : State, (s0.replay (checkDriveConnection false)).isDriveConnected = false) := by
  have hrun : handleSaveToDrive onSave s outcome now =
      { events := [Event.preventDefault, Event.alert refusalNotice],
        completion := Completion.normal } := by
    simp [handleSaveToDrive, handleSaveToDriveBegin, h]
  have hbegin : (handleSaveToDriveBegin s).2 = none := by
    simp [handleSaveToDriveBegin, h]
  rw [hrun]
  exact ⟨rfl, rfl, rfl, rfl, rfl, hbegin, fun _ => rfl⟩

/-- The refusal in the state of the first render, where the flag is false. -/
theorem handleSaveToDrive_refuses_when_flag_false_witness :
    (State.initial janeDoe).isDriveConnected = false ∧
    (handleSaveToDrive true (State.initial janeDoe) (Settled.fulfilled []) 0).events
        = [Event.preventDefault, Event.alert refusalNotice] :=
  ⟨rfl, (handleSaveToDrive_refuses_when_flag_false true (State.initial janeDoe)
    (Settled.fulfilled []) 0 rfl).1⟩

/-- C2 as stated fails. The component is mounted while the client is connected
and the client is disconnected afterwards: before the next run of
`checkDriveConnection`, `isConnected()` is false, the submit button is enabled,
and the upload action calls `uploadSummary`. -/
theorem handleSaveToDrive_uploads_when_client_disconnected :
    (runActions true (mount janeDoe true) [Action.clientChanges false]).map
      (fun sys => (sys.clientConnected, submitDisabled sys.ui,
        (handleSaveToDrive true sys.ui (Settled.fulfilled []) 0).events.any Event.isUploadCall))
      = some (false, false, true) ∧
    (runActions true (mount janeDoe true) [Action.clientChanges false, Action.submit]).map
      (fun sys => (sys.clientConnected, sys.log.any Event.isUploadCall, sys.ui.isUploading))
      = some (false, true, true) := by
  constructor <;> rfl

theorem replay_append (s : State) (a b : List Event) :
    s.replay (a ++ b) = (s.replay a).replay b := by
  simp [State.replay, List.foldl_append]

theorem handleSaveToDriveBegin_connected (s : State) (hc : s.isDriveConnected = true) :
    handleSaveToDriveBegin s =
      ([Event.preventDefault, Event.setIsUploading true, Event.setUploadStatus none,
        Event.consoleLog "🚀 Starting Google Drive upload...".toList,
        Event.uploadSummary s.formData], some s.formData) := by
  unfold handleSaveToDriveBegin
  rw [hc]
  rfl

theorem handleSaveToDrive_connected (onSave : Bool) (s : State) (outcome : Settled) (now : Nat)
    (hc : s.isDriveConnected = true) :
    handleSaveToDrive onSave s outcome now =
      { events := [Event.preventDefault, Event.setIsUploading true, Event.setUploadStatus none,
          Event.consoleLog "🚀 Starting Google Drive upload...".toList,
          Event.uploadSummary s.formData] ++ handleSaveToDriveResume onSave s.formData now outcome,
        completion := (handleSaveToDriveSettled onSave s.formData now outcome).completion } := by
  unfold handleSaveToDrive
  rw [handleSaveToDriveBegin_connected s hc]

/-- C4. For every snapshot, when the upload action runs while connected and
`uploadSummary` resolves with a result whose `success` is false (or any other
falsy value), the status becomes `{ type: 'error', message }` with exactly the
message of the result, the completion callback is not called, the busy flag is
cleared and the handler returns normally. -/
theorem handleSaveToDrive_reported_failure (onSave : Bool) (s : State) (uploadResult : Record)
    (now : Nat) (hc : s.isDriveConnected = true)
    (hf : (uploadResult.get "success".toList).truthy = false) :
    (s.replay (handleSaveToDrive onSave s (Settled.fulfilled uploadResult) now).events).uploadStatus
        = some [("type".toList, JSVal.str "error".toList),
                ("message".toList, uploadResult.get "message".toList)] ∧
    (handleSaveToDrive onSave s (Settled.fulfilled uploadResult) now).events.any Event.isOnSave
        = false ∧
    (s.replay (handleSaveToDrive onSave s (Settled.fulfilled uploadResult) now).events).isUploading
        = false ∧
    (s.replay (handleSaveToDrive onSave s (Settled.fulfilled uploadResult) now).events).formData
        = s.formData ∧
    (handleSaveToDrive onSave s (Settled.fulfilled uploadResult) now).completion
        = Completion.normal := by
  have hres : handleSaveToDriveResume onSave s.formData now (Settled.fulfilled uploadResult) =
      [Event.setUploadStatus (some (errorStatus (uploadResult.get "message".toList))),
        Event.setIsUploading false] := by
    simp only [handleSaveToDriveResume, handleSaveToDriveSettled, hf]
    rfl
  rw [handleSaveToDrive_connected onSave s _ now hc, hres]
  exact ⟨rfl, rfl, rfl, rfl, rfl⟩

/-- A reported failure on the record of the example. -/
theorem handleSaveToDrive_reported_failure_witness :
    (State.replay { State.initial janeDoe with isDriveConnected := true }
      (handleSaveToDrive true { State.initial janeDoe with isDriveConnected := true }
        (Settled.fulfilled
          [("success".toList, JSVal.bool false), ("message".toList, JSVal.str "quota".toList)])
        7).events).uploadStatus
      = some [("type".toList, JSVal.str "error".toList),
              ("message".toList, JSVal.str "quota".toList)] :=
  (handleSaveToDrive_reported_failure true
    { State.initial janeDoe with isDriveConnected := true }
    [("success".toList, JSVal.bool false), ("message".toList, JSVal.str "quota".toList)] 7
    rfl rfl).1

theorem handleSaveToDriveResume_caught (onSave : Bool) (formData : Record) (now : Nat)
    (error : Thrown) (text : Str)
    (h : error.describe "Upload failed: ".toList = Except.ok text) :
    handleSaveToDriveSettled onSave formData now (Settled.rejected error) =
      { events := [Event.consoleError "❌ Upload error:".toList error,
                   Event.setUploadStatus (some (errorStatus (JSVal.str text)))],
        completion := Completion.normal } := by
  simp only [handleSaveToDriveSettled, handleSaveToDriveCatch, h]

theorem handleSaveToDriveResume_escaped (onSave : Bool) (formData : Record) (now : Nat)
    (error : Thrown) (e : JSError)
    (h : error.describe "Upload failed: ".toList = Except.error e) :
    handleSaveToDriveSettled onSave formData now (Settled.rejected error) =
      { events := [Event.consoleError "❌ Upload error:".toList error],
        completion := Completion.throw e } := by
  simp only [handleSaveToDriveSettled, handleSaveToDriveCatch, h]

/-- C5, as amended. For every snapshot and every value raised by `uploadSummary`
while the upload action runs connected. When the value is an `Error` object,
the action catches it: the handler returns normally and the status becomes
`{ type: 'error', message }` where the message is `'Upload failed: '` followed by
the message of the error, so it contains that text. When the value is any
other value than `undefined` and `null`, and its property `message` (which
reads `undefined` when the value has none) converts to a string, the action
catches it in the same way, with the text of that property after
`'Upload failed: '`. When that property does not convert to a string, the
`catch` clause itself throws the `TypeError` of the conversion, and when the
value is `undefined` or `null`, it throws a `TypeError` on the read of
`message`: in both cases the status is not set to a failure, it stays `null`,
and the `TypeError` propagates out of the action. In every case the completion callback is not called, the busy flag is cleared and
the snapshot is unchanged. -/
theorem handleSaveToDrive_raised_error (onSave : Bool) (s : State) (error : Thrown)
    (now : Nat) (hc : s.isDriveConnected = true) :
    (∀ e : JSError, error = Thrown.error e →
      (handleSaveToDrive onSave s (Settled.rejected error) now).completion = Completion.normal ∧
      (s.replay (handleSaveToDrive onSave s (Settled.rejected error) now).events).uploadStatus
        = some [("type".toList, JSVal.str "error".toList),
                ("message".toList, JSVal.str ("Upload failed: ".toList ++ e.message))] ∧
      (∃ before after : Str, "Upload failed: ".toList ++ e.message
        = before ++ e.message ++ after)) ∧
    (∀ (v message : JSVal), error = Thrown.value v → v ≠ JSVal.undefined → v ≠ JSVal.null →
      (Thrown.value v).message = Except.ok message → message.convertible = true →
      (handleSaveToDrive onSave s (Settled.rejected error) now).completion = Completion.normal ∧
      (s.replay (handleSaveToDrive onSave s (Settled.rejected error) now).events).uploadStatus
        = some [("type".toList, JSVal.str "error".toList),
                ("message".toList, JSVal.str ("Upload failed: ".toList ++ message.toStr))]) ∧
    (∀ v : JSVal, error = Thrown.value v → v ≠ JSVal.undefined → v ≠ JSVal.null →
      ∃ message, (Thrown.value v).message = Except.ok message ∧
        (∀ fields, v = JSVal.obj fields → message = Record.get fields "message".toList) ∧
        ((∀ fields, v ≠ JSVal.obj fields) → message = JSVal.undefined)) ∧
    (∀ (v message : JSVal), error = Thrown.value v →
      (Thrown.value v).message = Except.ok message → message.convertible = false →
      (handleSaveToDrive onSave s (Settled.rejected error) now).completion
        = Completion.throw conversionError ∧
      (handleSaveToDrive onSave s (Settled.rejected error) now).events.any
        Event.isSetUploadStatusError = false ∧
      (s.replay (handleSaveToDrive onSave s (Settled.rejected error) now).events).uploadStatus
        = none) ∧
    (error = Thrown.value JSVal.undefined ∨ error = Thrown.value JSVal.null →
      (handleSaveToDrive onSave s (Settled.rejected error) now).completion
        = Completion.throw readError ∧
      readError.name = "TypeError".toList ∧
      (handleSaveToDrive onSave s (Settled.rejected error) now).events.any
        Event.isSetUploadStatusError = false ∧
      (s.replay (handleSaveToDrive onSave s (Settled.rejected error) now).events).uploadStatus
        = none) ∧
    (handleSaveToDrive onSave s (Settled.rejected error) now).events.any Event.isOnSave
        = false ∧
    (s.replay (handleSaveToDrive onSave s (Settled.rejected error) now).events).isUploading
        = false ∧
    (s.replay (handleSaveToDrive onSave s (Settled.rejected error) now).events).formData
        = s.formData := by
  rw [handleSaveToDrive_connected onSave s _ now hc]
  refine ⟨?_, ?_, ?_, ?_, ?_, ?_⟩
  · intro e he
    subst he
    exact ⟨rfl, rfl, ⟨"Upload failed: ".toList, [], by simp⟩⟩
  · intro v message he _ _ hm hconv
    subst he
    have hd : (Thrown.value v).describe "Upload failed: ".toList
        = Except.ok ("Upload failed: ".toList ++ message.toStr) := by
      simp only [Thrown.describe, hm, labelled, hconv, if_true]
    rw [handleSaveToDriveResume, handleSaveToDriveResume_caught onSave s.formData now _ _ hd]
    exact ⟨rfl, rfl⟩
  · intro v _ hu hn
    cases v with
    | undefined => exact absurd rfl hu
    | null => exact absurd rfl hn
    | obj fields =>
      exact ⟨_, rfl, (by intro fields' h; cases h; rfl), fun h => absurd rfl (h fields)⟩
    | bool b => exact ⟨_, rfl, (by intro fields' h; cases h), fun _ => rfl⟩
    | num lit => exact ⟨_, rfl, (by intro fields' h; cases h), fun _ => rfl⟩
    | str t => exact ⟨_, rfl, (by intro fields' h; cases h), fun _ => rfl⟩
    | arr items => exact ⟨_, rfl, (by intro fields' h; cases h), fun _ => rfl⟩
  · intro v message he hm hconv
    subst he
    have hd : (Thrown.value v).describe "Upload failed: ".toList
        = Except.error conversionError := by
      simp only [Thrown.describe, hm, labelled, hconv, Bool.false_eq_true, if_false]
    rw [handleSaveToDriveResume, handleSaveToDriveResume_escaped onSave s.formData now _ _ hd]
    exact ⟨rfl, rfl, rfl⟩
  · intro he
    rcases he with he | he <;> subst he <;> exact ⟨rfl, rfl, rfl, rfl⟩
  · cases hd : error.describe "Upload failed: ".toList with
    | ok text =>
      rw [handleSaveToDriveResume, handleSaveToDriveResume_caught onSave s.formData now _ _ hd]
      exact ⟨rfl, rfl, rfl⟩
    | error e =>
      rw [handleSaveToDriveResume, handleSaveToDriveResume_escaped onSave s.formData now _ _ hd]
      exact ⟨rfl, rfl, rfl⟩

/-- A raised error on the record of the example: an `Error` object with the
message `Network down`. -/
theorem handleSaveToDrive_raised_error_witness :
    (State.replay { State.initial janeDoe with isDriveConnected := true }
      (handleSaveToDrive true { State.initial janeDoe with isDriveConnected := true }
        (Settled.rejected (Thrown.error ⟨"Error".toList, "Network down".toList⟩))
        7).events).uploadStatus
      = some [("type".toList, JSVal.str "error".toList),
              ("message".toList, JSVal.str "Upload failed: Network down".toList)] :=
  ((handleSaveToDrive_raised_error true
    { State.initial janeDoe with isDriveConnected := true }
    (Thrown.error ⟨"Error".toList, "Network down".toList⟩) 7 rfl).1 _ rfl).2.1

/-- C5 as stated fails. The promise of `uploadSummary` is rejected with `null`
while the upload action runs connected on the record of the example: the
`catch` clause throws on the read of `null.message`, so the error is not caught
by the action, no event sets a failure status and the status stays `null`. A
rejection with an object that has no `message` is caught, and the message of the
status is `'Upload failed: undefined'`. -/
theorem handleSaveToDrive_rejection_with_null_escapes :
    (handleSaveToDrive true { State.initial janeDoe with isDriveConnected := true }
        (Settled.rejected (Thrown.value JSVal.null)) 7)
      = { events := [Event.preventDefault, Event.setIsUploading true, Event.setUploadStatus none,
            Event.consoleLog "🚀 Starting Google Drive upload...".toList,
            Event.uploadSummary janeDoe,
            Event.consoleError "❌ Upload error:".toList (Thrown.value JSVal.null),
            Event.setIsUploading false],
          completion := Completion.throw readError } ∧
    (State.replay { State.initial janeDoe with isDriveConnected := true }
      (handleSaveToDrive true { State.initial janeDoe with isDriveConnected := true }
        (Settled.rejected (Thrown.value JSVal.null)) 7).events).uploadStatus = none ∧
    (State.replay { State.initial janeDoe with isDriveConnected := true }
      (handleSaveToDrive true { State.initial janeDoe with isDriveConnected := true }
        (Settled.rejected (Thrown.value (JSVal.obj [("code".toList, JSVal.str "403".toList)])))
        7).events).uploadStatus
      = some [("type".toList, JSVal.str "error".toList),
              ("message".toList, JSVal.str "Upload failed: undefined".toList)] := by
  decide

/-! ## The connection test -/

theorem handleConnectDriveCatch_caught (error : Thrown) (text : Str)
    (h : error.describe "Connection error: ".toList = Except.ok text) :
    handleConnectDriveCatch error =
      { events := [Event.setUploadStatus (some (errorStatus (JSVal.str text)))],
        completion := Completion.normal } := by
  simp only [handleConnectDriveCatch, h]

/-- C9, as amended. For every outcome of `handleConnectDrive` and every state `s`
in which the promise of `testConnection` settles. When the result reports
success, the connection flag becomes true and the status becomes the success
message. When the result reports failure and its message converts to a string,
the connection flag is left as it is, it is not set to false, and the status
becomes `{ type: 'error', message }` with `'Connection failed: '` followed by the
message of the result; when its message does not convert to a string, the
`TypeError` of the conversion is caught by the `catch` clause, and the status
carries the message of that error after `'Connection error: '`. When
`testConnection` raises an `Error` object, or any other value than `undefined`
and `null` whose property `message` converts to a string, the value is caught, the connection flag is left as it is and the
status becomes `{ type: 'error', message }` with `'Connection error: '` followed
by the message of the error, or by the text of that property. When that
property does not convert to a string, the `catch` clause itself throws the
`TypeError` of the conversion, and when `testConnection` raises `undefined` or
`null`, it throws a `TypeError` on the read of `message`: in both cases the
status and the connection flag are left as they are and the `TypeError`
propagates out of the handler. The busy flag is cleared in every case. -/
theorem handleConnectDrive_outcomes (s : State) (connectionResult : Record) (error : Thrown) :
    ((connectionResult.get "success".toList).truthy = true →
      (s.replay (handleConnectDriveResume (Settled.fulfilled connectionResult))).isDriveConnected
          = true ∧
      (s.replay (handleConnectDriveResume (Settled.fulfilled connectionResult))).uploadStatus
          = some [("type".toList, JSVal.str "success".toList),
                  ("message".toList, JSVal.str "Google Drive connected successfully!".toList)] ∧
      (handleConnectDrive (Settled.fulfilled connectionResult)).completion
          = Completion.normal) ∧
    ((connectionResult.get "success".toList).truthy = false →
      (connectionResult.get "message".toList).convertible = true →
      (s.replay (handleConnectDriveResume (Settled.fulfilled connectionResult))).isDriveConnected
          = s.isDriveConnected ∧
      (s.replay (handleConnectDriveResume (Settled.fulfilled connectionResult))).uploadStatus
          = some [("type".toList, JSVal.str "error".toList),
                  ("message".toList, JSVal.str ("Connection failed: ".toList
                    ++ (connectionResult.get "message".toList).toStr))] ∧
      (handleConnectDrive (Settled.fulfilled connectionResult)).completion
          = Completion.normal) ∧
    ((connectionResult.get "success".toList).truthy = false →
      (connectionResult.get "message".toList).convertible = false →
      (s.replay (handleConnectDriveResume (Settled.fulfilled connectionResult))).isDriveConnected
          = s.isDriveConnected ∧
      (s.replay (handleConnectDriveResume (Settled.fulfilled connectionResult))).uploadStatus
          = some [("type".toList, JSVal.str "error".toList),
                  ("message".toList, JSVal.str ("Connection error: ".toList
                    ++ conversionError.message))] ∧
      (handleConnectDrive (Settled.fulfilled connectionResult)).completion
          = Completion.normal) ∧
    (∀ e : JSError, error = Thrown.error e →
      (s.replay (handleConnectDriveResume (Settled.rejected error))).isDriveConnected
          = s.isDriveConnected ∧
      (s.replay (handleConnectDriveResume (Settled.rejected error))).uploadStatus
          = some [("type".toList, JSVal.str "error".toList),
                  ("message".toList, JSVal.str ("Connection error: ".toList ++ e.message))] ∧
      (handleConnectDrive (Settled.rejected error)).completion = Completion.normal) ∧
    (∀ (v message : JSVal), error = Thrown.value v → v ≠ JSVal.undefined → v ≠ JSVal.null →
      (Thrown.value v).message = Except.ok message → message.convertible = true →
      (s.replay (handleConnectDriveResume (Settled.rejected error))).isDriveConnected
          = s.isDriveConnected ∧
      (s.replay (handleConnectDriveResume (Settled.rejected error))).uploadStatus
          = some [("type".toList, JSVal.str "error".toList),
                  ("message".toList, JSVal.str ("Connection error: ".toList ++ message.toStr))] ∧
      (handleConnectDrive (Settled.rejected error)).completion = Completion.normal) ∧
    (∀ (v message : JSVal), error = Thrown.value v →
      (Thrown.value v).message = Except.ok message → message.convertible = false →
      (s.replay (handleConnectDriveResume (Settled.rejected error))).isDriveConnected
          = s.isDriveConnected ∧
      (s.replay (handleConnectDriveResume (Settled.rejected error))).uploadStatus
          = s.uploadStatus ∧
      (handleConnectDrive (Settled.rejected error)).completion
          = Completion.throw conversionError) ∧
    (error = Thrown.value JSVal.undefined ∨ error = Thrown.value JSVal.null →
      (s.replay (handleConnectDriveResume (Settled.rejected error))).isDriveConnected
          = s.isDriveConnected ∧
      (s.replay (handleConnectDriveResume (Settled.rejected error))).uploadStatus
          = s.uploadStatus ∧
      (handleConnectDriveResume (Settled.rejected error)).any Event.isSetUploadStatus = false ∧
      (handleConnectDrive (Settled.rejected error)).completion = Completion.throw readError ∧
      readError.name = "TypeError".toList) ∧
    (s.replay (handleConnectDriveResume (Settled.fulfilled connectionResult))).isUploading
        = false ∧
    (s.replay (handleConnectDriveResume (Settled.rejected error))).isUploading = false := by
  refine ⟨?_, ?_, ?_, ?_, ?_, ?_, ?_, ?_, ?_⟩
  · intro h
    have hres : handleConnectDriveSettled (Settled.fulfilled connectionResult) =
        { events := [Event.setIsDriveConnected true,
            Event.setUploadStatus
              (some (successStatus "Google Drive connected successfully!".toList))],
          completion := Completion.normal } := by
      simp only [handleConnectDriveSettled, h, if_true]
    rw [handleConnectDrive, handleConnectDriveResume, hres]
    exact ⟨rfl, rfl, rfl⟩
  · intro h hconv
    have hres : handleConnectDriveSettled (Settled.fulfilled connectionResult) =
        { events := [Event.setUploadStatus (some (errorStatus (JSVal.str
            ("Connection failed: ".toList ++ (connectionResult.get "message".toList).toStr))))],
          completion := Completion.normal } := by
      simp only [handleConnectDriveSettled, h, labelled, hconv, if_true, Bool.false_eq_true,
        if_false]
    rw [handleConnectDrive, handleConnectDriveResume, hres]
    exact ⟨rfl, rfl, rfl⟩
  · intro h hconv
    have hres : handleConnectDriveSettled (Settled.fulfilled connectionResult) =
        { events := [Event.setUploadStatus (some (errorStatus (JSVal.str
            ("Connection error: ".toList ++ conversionError.message))))],
          completion := Completion.normal } := by
      simp only [handleConnectDriveSettled, h, labelled, hconv, Bool.false_eq_true, if_false]
      rfl
    rw [handleConnectDrive, handleConnectDriveResume, hres]
    exact ⟨rfl, rfl, rfl⟩
  · intro e he
    subst he
    exact ⟨rfl, rfl, rfl⟩
  · intro v message he _ _ hm hconv
    subst he
    have hd : (Thrown.value v).describe "Connection error: ".toList
        = Except.ok ("Connection error: ".toList ++ message.toStr) := by
      simp only [Thrown.describe, hm, labelled, hconv, if_true]
    rw [handleConnectDrive, handleConnectDriveResume, handleConnectDriveSettled,
      handleConnectDriveCatch_caught _ _ hd]
    exact ⟨rfl, rfl, rfl⟩
  · intro v message he hm hconv
    subst he
    have hd : (Thrown.value v).describe "Connection error: ".toList
        = Except.error conversionError := by
      simp only [Thrown.describe, hm, labelled, hconv, Bool.false_eq_true, if_false]
    have hcatch : handleConnectDriveCatch (Thrown.value v)
        = { events := [], completion := Completion.throw conversionError } := by
      simp only [handleConnectDriveCatch, hd]
    rw [handleConnectDrive, handleConnectDriveResume, handleConnectDriveSettled, hcatch]
    exact ⟨rfl, rfl, rfl⟩
  · intro he
    rcases he with he | he <;> subst he <;> exact ⟨rfl, rfl, rfl, rfl, rfl⟩
  · unfold handleConnectDriveResume
    rw [replay_append]
    rfl
  · unfold handleConnectDriveResume
    rw [replay_append]
    rfl

/-- The outcomes of the connection test from the state of the first render: a
reported success, a reported failure with the message `denied`, and a raised
`Error` object with the message `offline`. -/
theorem handleConnectDrive_outcomes_witness :
    ((State.initial janeDoe).replay (handleConnectDriveResume (Settled.fulfilled
        [("success".toList, JSVal.bool true)]))).isDriveConnected = true ∧
    ((State.initial janeDoe).replay (handleConnectDriveResume (Settled.fulfilled
        [("success".toList, JSVal.bool false),
         ("message".toList, JSVal.str "denied".toList)]))).uploadStatus
      = some [("type".toList, JSVal.str "error".toList),
              ("message".toList, JSVal.str "Connection failed: denied".toList)] ∧
    ((State.initial janeDoe).replay (handleConnectDriveResume (Settled.rejected
        (Thrown.error ⟨"Error".toList, "offline".toList⟩)))).uploadStatus
      = some [("type".toList, JSVal.str "error".toList),
              ("message".toList, JSVal.str "Connection error: offline".toList)] :=
  ⟨((handleConnectDrive_outcomes (State.initial janeDoe) [("success".toList, JSVal.bool true)]
      (Thrown.error ⟨[], []⟩)).1 rfl).1,
   ((handleConnectDrive_outcomes (State.initial janeDoe)
      [("success".toList, JSVal.bool false), ("message".toList, JSVal.str "denied".toList)]
      (Thrown.error ⟨[], []⟩)).2.1 rfl rfl).2.1,
   ((handleConnectDrive_outcomes (State.initial janeDoe) []
      (Thrown.error ⟨"Error".toList, "offline".toList⟩)).2.2.2.1 _ rfl).2.1⟩

/-- C9 as stated fails, in two ways. The connect button is clicked while the
flag is false, the client gets connected and the timer runs
`checkDriveConnection`, which sets the flag, and then `testConnection` reports
failure: the flag is still true, the connection state has not become
disconnected. And when the promise of `testConnection` is rejected with `null`,
the `catch` clause throws on the read of `null.message`: the error is not caught
by the handler and no status is set. -/
theorem handleConnectDrive_failure_keeps_flag :
    (runActions true (mount janeDoe false)
      [Action.clickConnect, Action.clientChanges true, Action.tick,
       Action.connectSettles (Settled.fulfilled
         [("success".toList, JSVal.bool false),
          ("message".toList, JSVal.str "denied".toList)])]).map
      (fun sys => (sys.ui.isDriveConnected, sys.connectsInFlight))
      = some (true, 0) ∧
    (State.replay { State.initial janeDoe with isDriveConnected := true }
      (handleConnectDrive (Settled.fulfilled
        [("success".toList, JSVal.bool false),
         ("message".toList, JSVal.str "denied".toList)])).events).isDriveConnected = true ∧
    handleConnectDrive (Settled.rejected (Thrown.value JSVal.null))
      = { events := [Event.setIsUploading true, Event.testConnection,
            Event.setIsUploading false],
          completion := Completion.throw readError } := by
  decide

/-! ## The busy flag -/

theorem replay_isUploading_of_no_setter (events : List Event)
    (h : ∀ e ∈ events, ∀ flag, e ≠ Event.setIsUploading flag) :
    ∀ s : State, (s.replay events).isUploading = s.isUploading := by
  induction events with
  | nil => intro s; rfl
  | cons e rest ih =>
    intro s
    have hrest := ih (fun e' he' => h e' (List.mem_cons_of_mem _ he')) (s.apply e)
    have he : (s.apply e).isUploading = s.isUploading := by
      cases e <;> first | rfl | exact absurd rfl (h _ (List.mem_cons_self _ _) _)
    show ((s.apply e).replay rest).isUploading = _
    rw [hrest, he]

theorem handleSaveLocally_no_busy_setter (onSave : Bool) (s : State) (slot : Option Str)
    (now1 now2 : Nat) :
    ∀ e ∈ (handleSaveLocally onSave s slot now1 now2).events, ∀ flag,
      e ≠ Event.setIsUploading flag := by
  intro e he flag
  unfold handleSaveLocally at he
  split at he
  · simp at he; subst he; simp
  · cases onSave
    · simp at he
      rcases he with rfl | rfl | rfl <;> simp
    · simp at he
      rcases he with rfl | rfl | rfl | rfl <;> simp
  · simp at he; subst he; simp

theorem perform_invariant (sys : System) (events : List Event)
    (h : ∀ e ∈ events, ∀ flag, e ≠ Event.setIsUploading flag) (hinv : BusyInvariant sys) :
    BusyInvariant (sys.perform events) := by
  unfold BusyInvariant System.perform at *
  simp only
  rw [replay_isUploading_of_no_setter events h sys.ui]
  exact hinv

theorem resume_upload_clears (onSave : Bool) (formData : Record) (now : Nat) (outcome : Settled)
    (s : State) :
    (s.replay (handleSaveToDriveResume onSave formData now outcome)).isUploading = false := by
  unfold handleSaveToDriveResume
  rw [replay_append]
  rfl

theorem resume_connect_clears (outcome : Settled) (s : State) :
    (s.replay (handleConnectDriveResume outcome)).isUploading = false := by
  unfold handleConnectDriveResume
  rw [replay_append]
  rfl

theorem step_invariant (onSave : Bool) (sys sys' : System) (a : Action)
    (h : step onSave sys a = some sys') (hinv : BusyInvariant sys) : BusyInvariant sys' := by
  cases a with
  | tick =>
    simp only [step, Option.some.injEq] at h
    subst h
    apply perform_invariant _ _ _ hinv
    intro e he flag
    simp only [checkDriveConnection, List.mem_cons, List.mem_singleton, List.not_mem_nil,
      or_false] at he
    rcases he with rfl | rfl <;> simp
  | clientChanges connected =>
    simp only [step, Option.some.injEq] at h
    subst h
    exact hinv
  | edit field value =>
    simp only [step, Option.some.injEq] at h
    subst h
    apply perform_invariant _ _ _ hinv
    intro e he flag
    simp only [List.mem_singleton] at he
    subst he
    simp
  | submit =>
    simp only [step] at h
    by_cases hd : submitDisabled sys.ui = true
    · simp [hd] at h
    · simp only [hd, Bool.false_eq_true, if_false] at h
      have hflags : sys.ui.isUploading = false ∧ sys.ui.isDriveConnected = true := by
        simp only [submitDisabled, Bool.or_eq_true, Bool.not_eq_true', not_or,
          Bool.not_eq_true, Bool.not_eq_false] at hd
        exact hd
      rw [handleSaveToDriveBegin_connected sys.ui hflags.2] at h
      simp only [Option.some.injEq] at h
      subst h
      have hzero : sys.uploadsInFlight.length + sys.connectsInFlight = 0 := by
        by_contra hne
        have := hinv.2 (Nat.pos_of_ne_zero hne)
        rw [hflags.1] at this
        cases this
      have hu : sys.uploadsInFlight = [] := List.length_eq_zero.mp (by omega)
      have hcz : sys.connectsInFlight = 0 := by omega
      unfold BusyInvariant System.perform
      simp only [hu, hcz, List.nil_append, List.length_singleton]
      exact ⟨by omega, fun _ => rfl⟩
  | uploadSettles outcome now =>
    simp only [step] at h
    cases hu : sys.uploadsInFlight with
    | nil => simp [hu] at h
    | cons formData rest =>
      simp only [hu, Option.some.injEq] at h
      subst h
      have h1 := hinv.1
      rw [hu] at h1
      simp only [List.length_cons] at h1
      unfold BusyInvariant System.perform
      simp only
      constructor
      · omega
      · intro hpos; omega
  | clickConnect =>
    simp only [step] at h
    by_cases hd : connectEnabled sys.ui = true
    · simp only [hd, if_true, Option.some.injEq] at h
      subst h
      have hflag : sys.ui.isUploading = false := by
        simp only [connectEnabled, Bool.and_eq_true, Bool.not_eq_true'] at hd
        exact hd.2
      have hzero : sys.uploadsInFlight.length + sys.connectsInFlight = 0 := by
        by_contra hne
        have := hinv.2 (Nat.pos_of_ne_zero hne)
        rw [hflag] at this
        cases this
      unfold BusyInvariant System.perform
      simp only
      exact ⟨by omega, fun _ => rfl⟩
    · simp [hd] at h
  | connectSettles outcome =>
    simp only [step] at h
    cases hcn : sys.connectsInFlight with
    | zero => simp [hcn] at h
    | succ n =>
      simp only [hcn, Option.some.injEq] at h
      subst h
      have h1 := hinv.1
      rw [hcn] at h1
      unfold BusyInvariant System.perform
      simp only
      constructor
      · omega
      · intro hpos; omega
  | clickSaveLocally slot now1 now2 =>
    simp only [step, Option.some.injEq] at h
    subst h
    exact perform_invariant _ _ (handleSaveLocally_no_busy_setter onSave sys.ui slot now1 now2) hinv
  | clickDownload localeDate now =>
    simp only [step, Option.some.injEq] at h
    subst h
    apply perform_invariant _ _ _ hinv
    intro e he flag
    simp only [downloadAsText, List.mem_cons, List.mem_singleton, List.not_mem_nil,
      or_false] at he
    rcases he with rfl | rfl | rfl | rfl | rfl <;> simp

theorem runActions_invariant (onSave : Bool) (actions : List Action) :
    ∀ sys sys' : System, runActions onSave sys actions = some sys' → BusyInvariant sys →
      BusyInvariant sys' := by
  induction actions with
  | nil =>
    intro sys sys' h hinv
    simp only [runActions, Option.some.injEq] at h
    exact h ▸ hinv
  | cons a rest ih =>
    intro sys sys' h hinv
    simp only [runActions] at h
    cases hs : step onSave sys a with
    | none => simp [hs] at h
    | some mid =>
      simp only [hs] at h
      exact ih mid sys' h (step_invariant onSave sys mid a hs hinv)

theorem mount_invariant (summary : Record) (connected : Bool) :
    BusyInvariant (mount summary connected) := by
  unfold BusyInvariant mount
  simp

/-- C10. With the upload action as steps of the component in its environment:
the busy flag is set by the events of `handleSaveToDrive` that come before its
call of `uploadSummary`; in every state reached from the mounted component by
any sequence of actions, at most one call of `uploadSummary` is in flight and
the busy flag is set while one is; the submit button is disabled in every state
where the busy flag is set, so that no submission, and hence no second call of
`uploadSummary`, can start while a call is in flight; and the events that
follow the settling of the call clear the busy flag whatever the outcome:
success, reported failure or raised error. -/
theorem upload_busy_flag (onSave : Bool) (summary : Record) (connected : Bool)
    (actions : List Action) (sys : System)
    (h : runActions onSave (mount summary connected) actions = some sys) :
    (∀ s : State, s.isDriveConnected = true →
      ∃ before, (handleSaveToDriveBegin s).1 = before ++ [Event.uploadSummary s.formData] ∧
        before.any Event.isUploadCall = false ∧ (s.replay before).isUploading = true ∧
        (s.replay (handleSaveToDriveBegin s).1).isUploading = true) ∧
    sys.uploadsInFlight.length ≤ 1 ∧
    (sys.uploadsInFlight ≠ [] → sys.ui.isUploading = true) ∧
    (∀ s : State, s.isUploading = true → submitDisabled s = true) ∧
    (sys.uploadsInFlight ≠ [] → step onSave sys Action.submit = none) ∧
    (∀ (outcome : Settled) (now : Nat) (formData : Record) (s : State),
      (s.replay (handleSaveToDriveResume onSave formData now outcome)).isUploading = false) := by
  have hinv := runActions_invariant onSave actions _ sys h (mount_invariant summary connected)
  have hbusy : sys.uploadsInFlight ≠ [] → sys.ui.isUploading = true := by
    intro hne
    apply hinv.2
    have : 0 < sys.uploadsInFlight.length := List.length_pos.mpr hne
    omega
  refine ⟨?_, ?_, hbusy, ?_, ?_, ?_⟩
  · intro s hc
    rw [handleSaveToDriveBegin_connected s hc]
    exact ⟨[Event.preventDefault, Event.setIsUploading true, Event.setUploadStatus none,
      Event.consoleLog "🚀 Starting Google Drive upload...".toList], rfl, rfl, rfl, rfl⟩
  · have := hinv.1
    omega
  · intro s hs
    simp [submitDisabled, hs]
  · intro hne
    simp [step, submitDisabled, hbusy hne]
  · intro outcome now formData s
    exact resume_upload_clears onSave formData now outcome s

/-- A run in which an upload is in flight: the form is submitted, a field is
edited and the timer fires; one call is in flight, the busy flag is set and a
second submission cannot happen. -/
theorem upload_busy_flag_witness :
    (runActions true (mount janeDoe true)
      [Action.submit, Action.edit "age".toList (JSVal.str "35".toList), Action.tick]).map
      (fun sys => (sys.uploadsInFlight.length, sys.ui.isUploading)) = some (1, true) ∧
    step true ((runActions true (mount janeDoe true)
      [Action.submit, Action.edit "age".toList (JSVal.str "35".toList), Action.tick]).get rfl)
      Action.submit = none :=
  ⟨by rfl, (upload_busy_flag true janeDoe true
    [Action.submit, Action.edit "age".toList (JSVal.str "35".toList), Action.tick]
    ((runActions true (mount janeDoe true)
      [Action.submit, Action.edit "age".toList (JSVal.str "35".toList), Action.tick]).get rfl)
    (Option.some_get _).symm).2.2.2.2.1 (by simp [runActions, step, mount, submitDisabled,
      State.replay, State.apply, State.initial, checkDriveConnection, handleSaveToDriveBegin,
      System.perform])⟩

/-! ## A successful upload -/

theorem get_uploadedRecord (formData uploadResult : Record) (now : Nat) (h : formData.WF) :
    (∀ k, k ≠ "driveLink".toList → k ≠ "fileId".toList → k ≠ "fileName".toList →
      k ≠ "uploadedAt".toList →
      (uploadedRecord formData uploadResult now).lookup k = formData.lookup k) ∧
    (uploadedRecord formData uploadResult now).lookup "driveLink".toList
      = some (uploadResult.get "driveLink".toList) ∧
    (uploadedRecord formData uploadResult now).lookup "fileId".toList
      = some (uploadResult.get "fileId".toList) ∧
    (uploadedRecord formData uploadResult now).lookup "fileName".toList
      = some (uploadResult.get "fileName".toList) ∧
    (uploadedRecord formData uploadResult now).lookup "uploadedAt".toList
      = some (JSVal.str (toISOString now)) := by
  unfold uploadedRecord
  rw [Record.spread_nil formData h]
  refine ⟨?_, ?_, ?_, ?_, ?_⟩
  · intro k h1 h2 h3 h4
    rw [lookup_spread]
    have e1 : ¬ "driveLink".toList = k := fun e => h1 e.symm
    have e2 : ¬ "fileId".toList = k := fun e => h2 e.symm
    have e3 : ¬ "fileName".toList = k := fun e => h3 e.symm
    have e4 : ¬ "uploadedAt".toList = k := fun e => h4 e.symm
    simp only [lastEdit, e1, e2, e3, e4, if_false]
  · rw [lookup_spread]; rfl
  · rw [lookup_spread]; rfl
  · rw [lookup_spread]; rfl
  · rw [lookup_spread]; rfl

/-- C3, as amended. For every snapshot, when the upload action runs while
connected and `uploadSummary` resolves with a truthy `success`, the completion
callback, when one was supplied, is called exactly once, with a record that
agrees with the snapshot on every field other than `driveLink`, `fileId`,
`fileName` and `uploadedAt`, whose `driveLink`, `fileId` and `fileName` are those
of the upload result, and whose `uploadedAt` is the string of `toISOString` for
the clock reading, which `Date.parse` reads back as that time value; the status
becomes `{ type: 'success', message, driveLink }` with the message and the link
of the result, the busy flag is cleared and the handler returns normally. When
no callback was supplied nothing is called. -/
theorem handleSaveToDrive_success (s : State) (uploadResult : Record) (now : Nat)
    (hc : s.isDriveConnected = true) (hwf : s.formData.WF)
    (hs : (uploadResult.get "success".toList).truthy = true) (hnow : now ≤ maxTimeValue) :
    (handleSaveToDrive true s (Settled.fulfilled uploadResult) now).events.filter Event.isOnSave
        = [Event.onSave (uploadedRecord s.formData uploadResult now)] ∧
    (∀ k, k ≠ "driveLink".toList → k ≠ "fileId".toList → k ≠ "fileName".toList →
      k ≠ "uploadedAt".toList →
      (uploadedRecord s.formData uploadResult now).lookup k = s.formData.lookup k) ∧
    (uploadedRecord s.formData uploadResult now).get "driveLink".toList
        = uploadResult.get "driveLink".toList ∧
    (uploadedRecord s.formData uploadResult now).get "fileId".toList
        = uploadResult.get "fileId".toList ∧
    (uploadedRecord s.formData uploadResult now).get "fileName".toList
        = uploadResult.get "fileName".toList ∧
    (uploadedRecord s.formData uploadResult now).get "uploadedAt".toList
        = JSVal.str (toISOString now) ∧
    parseISODateTime (toISOString now) = some (now : Int) ∧
    (s.replay (handleSaveToDrive true s (Settled.fulfilled uploadResult) now).events).uploadStatus
        = some [("type".toList, JSVal.str "success".toList),
                ("message".toList, uploadResult.get "message".toList),
                ("driveLink".toList, uploadResult.get "driveLink".toList)] ∧
    (s.replay (handleSaveToDrive true s (Settled.fulfilled uploadResult) now).events).isUploading
        = false ∧
    (handleSaveToDrive true s (Settled.fulfilled uploadResult) now).completion
        = Completion.normal ∧
    (handleSaveToDrive false s (Settled.fulfilled uploadResult) now).events.any Event.isOnSave
        = false := by
  have hres : ∀ onSave, handleSaveToDriveResume onSave s.formData now
      (Settled.fulfilled uploadResult) =
      Event.setUploadStatus (some (uploadSuccessStatus uploadResult)) ::
        ((if onSave = true then [Event.onSave (uploadedRecord s.formData uploadResult now)]
          else []) ++ [Event.setIsUploading false]) := by
    intro onSave
    simp only [handleSaveToDriveResume, handleSaveToDriveSettled, hs]
    rfl
  obtain ⟨hother, h1, h2, h3, h4⟩ := get_uploadedRecord s.formData uploadResult now hwf
  rw [handleSaveToDrive_connected true s _ now hc, handleSaveToDrive_connected false s _ now hc,
    hres true, hres false]
  refine ⟨rfl, hother, ?_, ?_, ?_, ?_, parseISODateTime_toISOString now hnow, rfl, rfl, rfl, rfl⟩
  · unfold Record.get; rw [h1]; rfl
  · unfold Record.get; rw [h2]; rfl
  · unfold Record.get; rw [h3]; rfl
  · unfold Record.get; rw [h4]; rfl

/-- A successful upload of the record of the example. -/
theorem handleSaveToDrive_success_witness :
    (handleSaveToDrive true { State.initial janeDoe with isDriveConnected := true }
      (Settled.fulfilled [("success".toList, JSVal.bool true),
        ("message".toList, JSVal.str "Uploaded".toList),
        ("driveLink".toList, JSVal.str "https://drive.example/f1".toList),
        ("fileId".toList, JSVal.str "f1".toList),
        ("fileName".toList, JSVal.str "Jane_Doe.pdf".toList)])
      1793826000123).events.filter Event.isOnSave
      = [Event.onSave (uploadedRecord janeDoe
          [("success".toList, JSVal.bool true),
           ("message".toList, JSVal.str "Uploaded".toList),
           ("driveLink".toList, JSVal.str "https://drive.example/f1".toList),
           ("fileId".toList, JSVal.str "f1".toList),
           ("fileName".toList, JSVal.str "Jane_Doe.pdf".toList)] 1793826000123)] ∧
    parseISODateTime (toISOString 1793826000123) = some 1793826000123 :=
  ⟨(handleSaveToDrive_success { State.initial janeDoe with isDriveConnected := true }
      [("success".toList, JSVal.bool true),
       ("message".toList, JSVal.str "Uploaded".toList),
       ("driveLink".toList, JSVal.str "https://drive.example/f1".toList),
       ("fileId".toList, JSVal.str "f1".toList),
       ("fileName".toList, JSVal.str "Jane_Doe.pdf".toList)] 1793826000123
      rfl (by decide) rfl (by decide)).1,
   (handleSaveToDrive_success { State.initial janeDoe with isDriveConnected := true }
      [("success".toList, JSVal.bool true),
       ("message".toList, JSVal.str "Uploaded".toList),
       ("driveLink".toList, JSVal.str "https://drive.example/f1".toList),
       ("fileId".toList, JSVal.str "f1".toList),
       ("fileName".toList, JSVal.str "Jane_Doe.pdf".toList)] 1793826000123
      rfl (by decide) rfl (by decide)).2.2.2.2.2.2.1⟩

/-- C3 as stated fails. After a successful upload with the link
`https://drive.example/f1`, the record handed to the completion callback has no
field `remoteLink`: the link is in the field `driveLink`. -/
theorem uploadedRecord_has_no_remoteLink :
    (uploadedRecord janeDoe
      [("success".toList, JSVal.bool true),
       ("message".toList, JSVal.str "Uploaded".toList),
       ("driveLink".toList, JSVal.str "https://drive.example/f1".toList),
       ("fileId".toList, JSVal.str "f1".toList),
       ("fileName".toList, JSVal.str "Jane_Doe.pdf".toList)] 1793826000123)
      = janeDoe ++ [("driveLink".toList, JSVal.str "https://drive.example/f1".toList),
          ("fileId".toList, JSVal.str "f1".toList),
          ("fileName".toList, JSVal.str "Jane_Doe.pdf".toList),
          ("uploadedAt".toList, JSVal.str "2026-11-04T21:00:00.123Z".toList)] ∧
    (uploadedRecord janeDoe
      [("success".toList, JSVal.bool true),
       ("message".toList, JSVal.str "Uploaded".toList),
       ("driveLink".toList, JSVal.str "https://drive.example/f1".toList),
       ("fileId".toList, JSVal.str "f1".toList),
       ("fileName".toList, JSVal.str "Jane_Doe.pdf".toList)] 1793826000123).lookup
      "remoteLink".toList = none := by
  constructor <;> rfl

/-! ## The text export -/

theorem dropWhile_append_of_all (p : Char → Bool) (w s : Str) (h : ∀ c ∈ w, p c = true) :
    (w ++ s).dropWhile p = s.dropWhile p := by
  induction w with
  | nil => rfl
  | cons c rest ih =>
    have hc : p c = true := h c (List.mem_cons_self _ _)
    simp only [List.cons_append, List.dropWhile_cons, hc, if_true]
    exact ih (fun x hx => h x (List.mem_cons_of_mem _ hx))

/-- Trimming removes the white space around a text that starts and ends with
characters that are not white space. -/
theorem trim_core (before after middle : Str) (first last : Char) (pre post : Str)
    (hb : ∀ c ∈ before, isTrimChar c = true) (ha : ∀ c ∈ after, isTrimChar c = true)
    (hfirst : middle = first :: post) (hlast : middle = pre ++ [last])
    (hf : isTrimChar first = false) (hl : isTrimChar last = false) :
    trim (before ++ middle ++ after) = middle := by
  unfold trim trimStart trimEnd
  rw [List.append_assoc, dropWhile_append_of_all isTrimChar before _ hb]
  have h1 : (middle ++ after).dropWhile isTrimChar = middle ++ after := by
    rw [hfirst]
    simp [List.dropWhile_cons, hf]
  rw [h1, List.reverse_append,
    dropWhile_append_of_all isTrimChar after.reverse _ (fun c hc => ha c (List.mem_reverse.mp hc))]
  rw [hlast]
  simp [List.dropWhile_cons, hl]

theorem toStr_orElse_notSpecified (r : Record) (k : Str) (h : missingOrEmpty r k) :
    ((r.get k).orElse (JSVal.str notSpecified)).toStr = notSpecified := by
  rcases h with h | h <;> rw [h] <;> rfl

theorem isPrefixOf_append_newline (p : Str) (hp : '\n' ∉ p) (rest : Str) : ∀ t : Str,
    p.isPrefixOf (t ++ '\n' :: rest) = p.isPrefixOf t := by
  induction p with
  | nil => intro t; simp [List.isPrefixOf]
  | cons x p' ih =>
    intro t
    have hx : x ≠ '\n' := fun e => hp (by simp [e])
    have hp' : '\n' ∉ p' := fun e => hp (List.mem_cons_of_mem _ e)
    cases t with
    | nil => simp [List.isPrefixOf, hx]
    | cons y t' =>
      show (x == y && p'.isPrefixOf (t' ++ '\n' :: rest)) = (x == y && p'.isPrefixOf t')
      rw [ih hp' t']

/-- The occurrences of a one-line text in a text cut at a line break are those of
the two parts. -/
theorem occurrences_append_newline (p : Str) (hne : p ≠ []) (hp : '\n' ∉ p) (rest : Str) :
    ∀ d : Str, occurrences p (d ++ '\n' :: rest) = occurrences p d + occurrences p ('\n' :: rest) := by
  intro d
  induction d with
  | nil =>
    have h0 : occurrences p [] = 0 := by
      cases p with
      | nil => exact absurd rfl hne
      | cons x xs => rfl
    simp [h0]
  | cons c d' ih =>
    have hpre := isPrefixOf_append_newline p hp rest (c :: d')
    simp only [List.cons_append] at hpre ⊢
    simp only [occurrences, hpre, ih]
    omega

theorem occurrences_suffix_le (p a s : Str) : occurrences p s ≤ occurrences p (a ++ s) := by
  induction a with
  | nil => exact le_refl _
  | cons c rest ih =>
    have h : occurrences p (c :: rest ++ s)
        = (if p.isPrefixOf (c :: (rest ++ s)) then 1 else 0) + occurrences p (rest ++ s) := rfl
    rw [h]
    omega

theorem exportTemplate_eq (r : Record) (localeDate : Str)
    (hHistory : missingOrEmpty r "history".toList)
    (hExamination : missingOrEmpty r "examination".toList)
    (hPrescription : missingOrEmpty r "prescription".toList)
    (hFollowUp : missingOrEmpty r "followUp".toList) :
    exportTemplate r localeDate =
      ['\n'] ++ ("MEDICAL SUMMARY - ".toList ++ (r.get "patientName".toList).toStr
        ++ "\nGenerated: ".toList ++ localeDate
        ++ "\n\nPATIENT INFORMATION:\nName: ".toList ++ (r.get "patientName".toList).toStr
        ++ "\nAge: ".toList ++ (r.get "age".toList).toStr
        ++ "\nGender: ".toList ++ (r.get "gender".toList).toStr
        ++ "\n\nSYMPTOMS:\n".toList ++ (r.get "symptoms".toList).toStr
        ++ "\n\nMEDICAL HISTORY:\nNot specified".toList
        ++ "\n\nEXAMINATION FINDINGS:\nNot specified".toList
        ++ "\n\nDIAGNOSIS:\n".toList ++ (r.get "diagnosis".toList).toStr
        ++ "\n\nPRESCRIPTION:\nNot specified".toList
        ++ "\n\nFOLLOW-UP:\nNot specified".toList) ++ "\n    ".toList := by
  unfold exportTemplate
  rw [toStr_orElse_notSpecified r _ hHistory, toStr_orElse_notSpecified r _ hExamination,
    toStr_orElse_notSpecified r _ hPrescription, toStr_orElse_notSpecified r _ hFollowUp]
  have e1 : "\nMEDICAL SUMMARY - ".toList = ['\n'] ++ "MEDICAL SUMMARY - ".toList := rfl
  have e2 : "\n\nMEDICAL HISTORY:\nNot specified".toList
      = "\n\nMEDICAL HISTORY:\n".toList ++ notSpecified := rfl
  have e3 : "\n\nEXAMINATION FINDINGS:\nNot specified".toList
      = "\n\nEXAMINATION FINDINGS:\n".toList ++ notSpecified := rfl
  have e4 : "\n\nPRESCRIPTION:\nNot specified".toList
      = "\n\nPRESCRIPTION:\n".toList ++ notSpecified := rfl
  have e5 : "\n\nFOLLOW-UP:\nNot specified".toList
      = "\n\nFOLLOW-UP:\n".toList ++ notSpecified := rfl
  rw [e1, e2, e3, e4, e5]
  simp only [List.append_assoc]

/-- For every record in which `history`, `examination`,
`prescription` and `followUp` are missing or empty, and every rendering
`localeDate` of the date, the text that `downloadAsText` exports is the fixed
template with `Not specified` in each of those four sections and the values of
`patientName`, `age`, `gender`, `symptoms` and `diagnosis`, as the template
literal converts them to strings (a string is itself), in the other places. -/
theorem exportContent_template (s : State) (localeDate : Str) (now : Nat)
    (hHistory : missingOrEmpty s.formData "history".toList)
    (hExamination : missingOrEmpty s.formData "examination".toList)
    (hPrescription : missingOrEmpty s.formData "prescription".toList)
    (hFollowUp : missingOrEmpty s.formData "followUp".toList) :
    exportContent s.formData localeDate =
      "MEDICAL SUMMARY - ".toList ++ (s.formData.get "patientName".toList).toStr
        ++ "\nGenerated: ".toList ++ localeDate
        ++ "\n\nPATIENT INFORMATION:\nName: ".toList ++ (s.formData.get "patientName".toList).toStr
        ++ "\nAge: ".toList ++ (s.formData.get "age".toList).toStr
        ++ "\nGender: ".toList ++ (s.formData.get "gender".toList).toStr
        ++ "\n\nSYMPTOMS:\n".toList ++ (s.formData.get "symptoms".toList).toStr
        ++ "\n\nMEDICAL HISTORY:\nNot specified".toList
        ++ "\n\nEXAMINATION FINDINGS:\nNot specified".toList
        ++ "\n\nDIAGNOSIS:\n".toList ++ (s.formData.get "diagnosis".toList).toStr
        ++ "\n\nPRESCRIPTION:\nNot specified".toList
        ++ "\n\nFOLLOW-UP:\nNot specified".toList ∧
    (downloadAsText s localeDate now).events.head? =
      some (Event.createObjectURL (exportContent s.formData localeDate) "text/plain".toList) ∧
    (downloadAsText s localeDate now).events.any Event.isSetUploadStatus = false ∧
    (downloadAsText s localeDate now).completion = Completion.normal := by
  refine ⟨?_, rfl, rfl, rfl⟩
  unfold exportContent
  rw [exportTemplate_eq s.formData localeDate hHistory hExamination hPrescription hFollowUp]
  apply trim_core ['\n'] "\n    ".toList _ 'M' 'd'
    ("MEDICAL SUMMARY - ".toList ++ (s.formData.get "patientName".toList).toStr
      ++ "\nGenerated: ".toList ++ localeDate
      ++ "\n\nPATIENT INFORMATION:\nName: ".toList ++ (s.formData.get "patientName".toList).toStr
      ++ "\nAge: ".toList ++ (s.formData.get "age".toList).toStr
      ++ "\nGender: ".toList ++ (s.formData.get "gender".toList).toStr
      ++ "\n\nSYMPTOMS:\n".toList ++ (s.formData.get "symptoms".toList).toStr
      ++ "\n\nMEDICAL HISTORY:\nNot specified".toList
      ++ "\n\nEXAMINATION FINDINGS:\nNot specified".toList
      ++ "\n\nDIAGNOSIS:\n".toList ++ (s.formData.get "diagnosis".toList).toStr
      ++ "\n\nPRESCRIPTION:\nNot specified".toList
      ++ "\n\nFOLLOW-UP:\nNot specifie".toList)
    ("EDICAL SUMMARY - ".toList ++ (s.formData.get "patientName".toList).toStr
      ++ "\nGenerated: ".toList ++ localeDate
      ++ "\n\nPATIENT INFORMATION:\nName: ".toList ++ (s.formData.get "patientName".toList).toStr
      ++ "\nAge: ".toList ++ (s.formData.get "age".toList).toStr
      ++ "\nGender: ".toList ++ (s.formData.get "gender".toList).toStr
      ++ "\n\nSYMPTOMS:\n".toList ++ (s.formData.get "symptoms".toList).toStr
      ++ "\n\nMEDICAL HISTORY:\nNot specified".toList
      ++ "\n\nEXAMINATION FINDINGS:\nNot specified".toList
      ++ "\n\nDIAGNOSIS:\n".toList ++ (s.formData.get "diagnosis".toList).toStr
      ++ "\n\nPRESCRIPTION:\nNot specified".toList
      ++ "\n\nFOLLOW-UP:\nNot specified".toList)
  · decide
  · decide
  · have e : "MEDICAL SUMMARY - ".toList = 'M' :: "EDICAL SUMMARY - ".toList := rfl
    rw [e]
    simp only [List.cons_append]
  · have e : "\n\nFOLLOW-UP:\nNot specified".toList
        = "\n\nFOLLOW-UP:\nNot specifie".toList ++ ['d'] := rfl
    rw [e]
    simp only [List.append_assoc]
  · decide
  · decide

theorem occurrences_append_of_first_absent (x : Char) (p' a s : Str) (h : ∀ c ∈ a, c ≠ x) :
    occurrences (x :: p') (a ++ s) = occurrences (x :: p') s := by
  induction a with
  | nil => rfl
  | cons c rest ih =>
    have hc : c ≠ x := h c (List.mem_cons_self _ _)
    have hx : (x == c) = false := by simpa using fun e => hc e.symm
    have hstep : occurrences (x :: p') (c :: rest ++ s)
        = (if (x :: p').isPrefixOf (c :: (rest ++ s)) then 1 else 0)
          + occurrences (x :: p') (rest ++ s) := rfl
    have hpre : (x :: p').isPrefixOf (c :: (rest ++ s)) = false := by
      show (x == c && p'.isPrefixOf (rest ++ s)) = false
      rw [hx]; rfl
    rw [hstep, hpre, ih (fun y hy => h y (List.mem_cons_of_mem _ hy))]
    simp

set_option maxRecDepth 100000 in
theorem exportContent_janeDoe (localeDate : Str) :
    exportContent janeDoe localeDate =
      "MEDICAL SUMMARY - Jane Doe\nGenerated: ".toList ++ (localeDate ++
        "\n\nPATIENT INFORMATION:\nName: Jane Doe\nAge: 34\nGender: F\n\nSYMPTOMS:\ncough\n\nMEDICAL HISTORY:\nNot specified\n\nEXAMINATION FINDINGS:\nNot specified\n\nDIAGNOSIS:\nbronchitis\n\nPRESCRIPTION:\nNot specified\n\nFOLLOW-UP:\nNot specified".toList) := by
  have h := (exportContent_template (State.initial janeDoe) localeDate 0 (Or.inl rfl)
    (Or.inl rfl) (Or.inl rfl) (Or.inl rfl)).1
  change exportContent janeDoe localeDate = _ at h
  rw [h]
  simp only [List.append_assoc]
  rfl

set_option maxRecDepth 100000 in
theorem occurrences_janeDoe_tail :
    occurrences notSpecified ('\n' :: "\nPATIENT INFORMATION:\nName: Jane Doe\nAge: 34\nGender: F\n\nSYMPTOMS:\ncough\n\nMEDICAL HISTORY:\nNot specified\n\nEXAMINATION FINDINGS:\nNot specified\n\nDIAGNOSIS:\nbronchitis\n\nPRESCRIPTION:\nNot specified\n\nFOLLOW-UP:\nNot specified".toList)
      = 4 := by
  decide

/-- C7. For every record in which `history`, `examination`, `prescription` and
`followUp` are missing or empty, and every rendering `localeDate` of the date,
the text that `downloadAsText` exports is the fixed template with
`Not specified` in each of those four sections and the values of `patientName`,
`age`, `gender`, `symptoms` and `diagnosis`, as the template literal converts
them to strings (a string is itself), in the other places. For the record of
the example, whatever the rendering of the date, the text starts with
`MEDICAL SUMMARY - Jane Doe`, contains `Age: 34` and `SYMPTOMS:` followed by a
line break and `cough`, and has exactly four occurrences of `Not specified`
when the rendering of the date has none. -/
theorem exportContent_optional_missing (s : State) (localeDate : Str) (now : Nat)
    (hHistory : missingOrEmpty s.formData "history".toList)
    (hExamination : missingOrEmpty s.formData "examination".toList)
    (hPrescription : missingOrEmpty s.formData "prescription".toList)
    (hFollowUp : missingOrEmpty s.formData "followUp".toList) :
    (exportContent s.formData localeDate =
      "MEDICAL SUMMARY - ".toList ++ (s.formData.get "patientName".toList).toStr
        ++ "\nGenerated: ".toList ++ localeDate
        ++ "\n\nPATIENT INFORMATION:\nName: ".toList ++ (s.formData.get "patientName".toList).toStr
        ++ "\nAge: ".toList ++ (s.formData.get "age".toList).toStr
        ++ "\nGender: ".toList ++ (s.formData.get "gender".toList).toStr
        ++ "\n\nSYMPTOMS:\n".toList ++ (s.formData.get "symptoms".toList).toStr
        ++ "\n\nMEDICAL HISTORY:\nNot specified".toList
        ++ "\n\nEXAMINATION FINDINGS:\nNot specified".toList
        ++ "\n\nDIAGNOSIS:\n".toList ++ (s.formData.get "diagnosis".toList).toStr
        ++ "\n\nPRESCRIPTION:\nNot specified".toList
        ++ "\n\nFOLLOW-UP:\nNot specified".toList) ∧
    (downloadAsText s localeDate now).events.head? =
      some (Event.createObjectURL (exportContent s.formData localeDate) "text/plain".toList) ∧
    (∀ date : Str,
      (∃ after, exportContent janeDoe date = "MEDICAL SUMMARY - Jane Doe".toList ++ after) ∧
      (∃ before after, exportContent janeDoe date = before ++ "Age: 34".toList ++ after) ∧
      (∃ before after,
        exportContent janeDoe date = before ++ "SYMPTOMS:\ncough".toList ++ after) ∧
      (occurrences notSpecified date = 0 →
        occurrences notSpecified (exportContent janeDoe date) = 4)) := by
  refine ⟨(exportContent_template s localeDate now hHistory hExamination hPrescription
    hFollowUp).1, rfl, ?_⟩
  intro date
  rw [exportContent_janeDoe date]
  refine ⟨⟨"\nGenerated: ".toList ++ (date ++ _), rfl⟩,
    ⟨"MEDICAL SUMMARY - Jane Doe\nGenerated: ".toList ++ (date
        ++ "\n\nPATIENT INFORMATION:\nName: Jane Doe\n".toList),
      "\nGender: F\n\nSYMPTOMS:\ncough\n\nMEDICAL HISTORY:\nNot specified\n\nEXAMINATION FINDINGS:\nNot specified\n\nDIAGNOSIS:\nbronchitis\n\nPRESCRIPTION:\nNot specified\n\nFOLLOW-UP:\nNot specified".toList,
      ?_⟩,
    ⟨"MEDICAL SUMMARY - Jane Doe\nGenerated: ".toList ++ (date
        ++ "\n\nPATIENT INFORMATION:\nName: Jane Doe\nAge: 34\nGender: F\n\n".toList),
      "\n\nMEDICAL HISTORY:\nNot specified\n\nEXAMINATION FINDINGS:\nNot specified\n\nDIAGNOSIS:\nbronchitis\n\nPRESCRIPTION:\nNot specified\n\nFOLLOW-UP:\nNot specified".toList,
      ?_⟩, ?_⟩
  · simp only [List.append_assoc]
    rfl
  · simp only [List.append_assoc]
    rfl
  · intro hdate
    have hA : ∀ c ∈ "MEDICAL SUMMARY - Jane Doe\nGenerated: ".toList, c ≠ 'N' := by decide
    have hp : notSpecified = 'N' :: "ot specified".toList := rfl
    rw [hp, occurrences_append_of_first_absent 'N' _ _ _ hA, ← hp]
    have hB : "\n\nPATIENT INFORMATION:\nName: Jane Doe\nAge: 34\nGender: F\n\nSYMPTOMS:\ncough\n\nMEDICAL HISTORY:\nNot specified\n\nEXAMINATION FINDINGS:\nNot specified\n\nDIAGNOSIS:\nbronchitis\n\nPRESCRIPTION:\nNot specified\n\nFOLLOW-UP:\nNot specified".toList
        = '\n' :: "\nPATIENT INFORMATION:\nName: Jane Doe\nAge: 34\nGender: F\n\nSYMPTOMS:\ncough\n\nMEDICAL HISTORY:\nNot specified\n\nEXAMINATION FINDINGS:\nNot specified\n\nDIAGNOSIS:\nbronchitis\n\nPRESCRIPTION:\nNot specified\n\nFOLLOW-UP:\nNot specified".toList := rfl
    rw [hB, occurrences_append_newline notSpecified (by decide) (by decide), hdate,
      occurrences_janeDoe_tail]

/-- The export of the record of the example on a day rendered `11/4/2026`. -/
theorem exportContent_optional_missing_witness :
    exportContent janeDoe "11/4/2026".toList =
      "MEDICAL SUMMARY - Jane Doe\nGenerated: 11/4/2026\n\nPATIENT INFORMATION:\nName: Jane Doe\nAge: 34\nGender: F\n\nSYMPTOMS:\ncough\n\nMEDICAL HISTORY:\nNot specified\n\nEXAMINATION FINDINGS:\nNot specified\n\nDIAGNOSIS:\nbronchitis\n\nPRESCRIPTION:\nNot specified\n\nFOLLOW-UP:\nNot specified".toList ∧
    occurrences notSpecified (exportContent janeDoe "11/4/2026".toList) = 4 :=
  ⟨(exportContent_optional_missing (State.initial janeDoe) "11/4/2026".toList 0
      (Or.inl rfl) (Or.inl rfl) (Or.inl rfl) (Or.inl rfl)).1,
   ((exportContent_optional_missing (State.initial janeDoe) "11/4/2026".toList 0
      (Or.inl rfl) (Or.inl rfl) (Or.inl rfl) (Or.inl rfl)).2.2 "11/4/2026".toList).2.2.2
      (by decide)⟩

/-! ## The local backup -/

theorem lookup_localBackup (formData : Record) (now1 now2 : Nat) (h : formData.WF) :
    (∀ k, k ≠ "savedAt".toList → k ≠ "id".toList → k ≠ "type".toList →
      (localBackup formData now1 now2).lookup k = formData.lookup k) ∧
    (localBackup formData now1 now2).lookup "savedAt".toList
      = some (JSVal.str (toISOString now1)) ∧
    (localBackup formData now1 now2).lookup "id".toList = some (JSVal.str (natToString now2)) ∧
    (localBackup formData now1 now2).lookup "type".toList
      = some (JSVal.str "local_backup".toList) := by
  unfold localBackup
  rw [Record.spread_nil formData h]
  refine ⟨?_, ?_, ?_, ?_⟩
  · intro k h1 h2 h3
    rw [lookup_spread]
    have e1 : ¬ "savedAt".toList = k := fun e => h1 e.symm
    have e2 : ¬ "id".toList = k := fun e => h2 e.symm
    have e3 : ¬ "type".toList = k := fun e => h3 e.symm
    simp only [lastEdit, e1, e2, e3, if_false]
  · rw [lookup_spread]; rfl
  · rw [lookup_spread]; rfl
  · rw [lookup_spread]; rfl

theorem parse_error_is_syntaxError (text : Str) (e : JSError) (h : JSON.parse text = Except.error e) :
    e = syntaxError := by
  unfold JSON.parse at h
  split at h
  · split at h
    · cases h
    · cases h; rfl
  · cases h; rfl

theorem storedTextOrDefault_of_storedList (slot : Option Str) (items : List JSVal)
    (h : storedList slot = some items) :
    JSON.parse (storedTextOrDefault slot) = Except.ok (JSVal.arr items) := by
  cases slot with
  | none =>
    have hi : items = [] := by
      simp only [storedList, Option.some.injEq] at h
      exact h.symm
    subst hi
    decide
  | some text =>
    have hne : text.isEmpty = false := by
      cases text with
      | nil =>
        have hp : JSON.parse [] = Except.error syntaxError := by decide
        simp [storedList, hp] at h
      | cons c cs => rfl
    simp only [storedTextOrDefault, hne, Bool.false_eq_true, if_false]
    simp only [storedList] at h
    split at h
    · rename_i items' hp
      simp only [Option.some.injEq] at h
      rw [hp, h]
    · cases h

/-- C8, as amended. For every snapshot, when the backup slot holds a text that
is not empty and is not a parsable serialized list, `handleSaveLocally` throws
and nothing catches the error: a `SyntaxError` of `JSON.parse` when the text is
not JSON, a `TypeError` of `existing.push` when the text is JSON for something
that is not a list. The backup action is aborted: the only event is the read of
the slot, so the slot is not written, the status is not changed, the completion
callback is not called, and the state of the component is unchanged. The text
is rejected for its syntax: the recursion budget of the parser is not exhausted. -/
theorem handleSaveLocally_malformed (onSave : Bool) (s : State) (text : Str) (now1 now2 : Nat)
    (hne : text ≠ []) (hbad : storedList (some text) = none) :
    ((JSON.parse text = Except.error syntaxError ∧
        (handleSaveLocally onSave s (some text) now1 now2).completion
          = Completion.throw syntaxError) ∨
      ((∃ v, JSON.parse text = Except.ok v) ∧
        (handleSaveLocally onSave s (some text) now1 now2).completion
          = Completion.throw typeError)) ∧
    (handleSaveLocally onSave s (some text) now1 now2).events = [Event.getItem backupKey] ∧
    (handleSaveLocally onSave s (some text) now1 now2).events.any Event.isSetItem = false ∧
    (handleSaveLocally onSave s (some text) now1 now2).events.any Event.isSetUploadStatus
      = false ∧
    (handleSaveLocally onSave s (some text) now1 now2).events.any Event.isOnSave = false ∧
    s.replay (handleSaveLocally onSave s (some text) now1 now2).events = s ∧
    slotAfter (some text) (handleSaveLocally onSave s (some text) now1 now2).events
      = some text ∧
    JSON.parseValue (2 * text.length + 2) (JSON.skipSpace text) ≠ JSON.Parsed.outOfFuel := by
  have htext : storedTextOrDefault (some text) = text := by
    cases text with
    | nil => exact absurd rfl hne
    | cons c cs => rfl
  unfold handleSaveLocally
  rw [htext]
  cases hp : JSON.parse text with
  | error e =>
    have he := parse_error_is_syntaxError text e hp
    subst he
    exact ⟨Or.inl ⟨rfl, rfl⟩, rfl, rfl, rfl, rfl, rfl, rfl, JSON.parse_budget text⟩
  | ok v =>
    cases v with
    | arr items => simp [storedList, hp] at hbad
    | undefined => exact ⟨Or.inr ⟨⟨_, rfl⟩, rfl⟩, rfl, rfl, rfl, rfl, rfl, rfl, JSON.parse_budget text⟩
    | null => exact ⟨Or.inr ⟨⟨_, rfl⟩, rfl⟩, rfl, rfl, rfl, rfl, rfl, rfl, JSON.parse_budget text⟩
    | bool b => exact ⟨Or.inr ⟨⟨_, rfl⟩, rfl⟩, rfl, rfl, rfl, rfl, rfl, rfl, JSON.parse_budget text⟩
    | num lit => exact ⟨Or.inr ⟨⟨_, rfl⟩, rfl⟩, rfl, rfl, rfl, rfl, rfl, rfl, JSON.parse_budget text⟩
    | str t => exact ⟨Or.inr ⟨⟨_, rfl⟩, rfl⟩, rfl, rfl, rfl, rfl, rfl, rfl, JSON.parse_budget text⟩
    | obj fields => exact ⟨Or.inr ⟨⟨_, rfl⟩, rfl⟩, rfl, rfl, rfl, rfl, rfl, rfl, JSON.parse_budget text⟩

/-- A backup on a slot that holds `{"a":1` and on a slot that holds `{}`. -/
theorem handleSaveLocally_malformed_witness :
    (handleSaveLocally true (State.initial janeDoe) (some "\x7b\"a\":1".toList) 1793826000123
        1793826000124)
      = { events := [Event.getItem backupKey], completion := Completion.throw syntaxError } ∧
    (handleSaveLocally true (State.initial janeDoe) (some "\x7b\x7d".toList) 1793826000123
        1793826000124).events = [Event.getItem backupKey] :=
  ⟨by decide,
   (handleSaveLocally_malformed true (State.initial janeDoe) "\x7b\x7d".toList 1793826000123
      1793826000124 (by decide) (by decide)).2.1⟩

set_option maxRecDepth 100000 in
/-- C8 as stated fails. The empty text is not a parsable serialized list,
`JSON.parse` throws on it, but `handleSaveLocally` reads an empty slot text as
`[]`: it does not throw, it writes a list of one backup to the slot, sets the
status and calls the completion callback. -/
theorem handleSaveLocally_empty_text_is_saved :
    JSON.parse [] = Except.error syntaxError ∧
    storedList (some []) = none ∧
    (handleSaveLocally true (State.initial janeDoe) (some []) 1793826000123
        1793826000124).completion = Completion.normal ∧
    slotAfter (some []) (handleSaveLocally true (State.initial janeDoe) (some []) 1793826000123
        1793826000124).events
      = some "[\x7b\"patientName\":\"Jane Doe\",\"age\":\"34\",\"gender\":\"F\",\"symptoms\":\"cough\",\"diagnosis\":\"bronchitis\",\"savedAt\":\"2026-11-04T21:00:00.123Z\",\"id\":\"1793826000124\",\"type\":\"local_backup\"\x7d]".toList ∧
    (handleSaveLocally true (State.initial janeDoe) (some []) 1793826000123
        1793826000124).events.any Event.isOnSave = true ∧
    (handleSaveLocally true (State.initial janeDoe) (some []) 1793826000123
        1793826000124).events.any Event.isSetUploadStatus = true := by
  decide

theorem wf_spread (source : List (Str × JSVal)) : ∀ target : Record, target.WF →
    (Record.spread target source).WF := by
  induction source with
  | nil => intro target h; exact h
  | cons kv rest ih =>
    intro target h
    exact ih _ (Record.wf_set target kv.1 kv.2 h)

theorem validFields_spread (source : List (Str × JSVal)) : ∀ target : Record,
    JSON.validFields target = true → JSON.validFields source = true →
    JSON.validFields (Record.spread target source) = true := by
  induction source with
  | nil => intro target h _; exact h
  | cons kv rest ih =>
    intro target h hs
    rw [JSON.validFields_iff] at hs
    have hkv := hs kv (List.mem_cons_self _ _)
    have hrest : JSON.validFields rest = true := by
      rw [JSON.validFields_iff]
      exact fun x hx => hs x (List.mem_cons_of_mem _ hx)
    exact ih _ (JSON.validFields_set target kv.1 kv.2 h hkv) hrest

theorem plainFields_spread (source : List (Str × JSVal)) : ∀ target : Record,
    JSON.plainFields target = true → JSON.plainFields source = true →
    JSON.plainFields (Record.spread target source) = true := by
  induction source with
  | nil => intro target h _; exact h
  | cons kv rest ih =>
    intro target h hs
    rw [JSON.plainFields_iff] at hs
    have hkv := hs kv (List.mem_cons_self _ _)
    have hrest : JSON.plainFields rest = true := by
      rw [JSON.plainFields_iff]
      exact fun x hx => hs x (List.mem_cons_of_mem _ hx)
    exact ih _ (JSON.plainFields_set target kv.1 kv.2 h hkv) hrest

theorem wf_localBackup (formData : Record) (now1 now2 : Nat) :
    (localBackup formData now1 now2).WF := by
  unfold localBackup
  exact wf_spread _ _ (wf_spread _ _ (by decide))

theorem valid_localBackup (formData : Record) (now1 now2 : Nat)
    (hv : JSON.validFields formData = true) :
    JSON.valid (JSVal.obj (localBackup formData now1 now2)) = true := by
  rw [JSON.valid]
  simp only [Bool.and_eq_true, decide_eq_true_eq]
  refine ⟨wf_localBackup formData now1 now2, ?_⟩
  unfold localBackup
  apply validFields_spread
  · exact validFields_spread _ _ rfl hv
  · rfl

theorem plain_localBackup (formData : Record) (now1 now2 : Nat)
    (hp : JSON.plainFields formData = true) :
    JSON.plain (JSVal.obj (localBackup formData now1 now2)) = true := by
  rw [JSON.plain]
  unfold localBackup
  apply plainFields_spread
  · exact plainFields_spread _ _ rfl hp
  · rfl

theorem storedList_items_valid (slot : Option Str) (items : List JSVal)
    (h : storedList slot = some items) : JSON.validItems items = true := by
  cases slot with
  | none =>
    simp only [storedList, Option.some.injEq] at h
    subst h
    rfl
  | some text =>
    simp only [storedList] at h
    split at h
    · rename_i items' hp
      simp only [Option.some.injEq] at h
      subst h
      have := JSON.valid_of_parse text _ hp
      rw [JSON.valid] at this
      exact this
    · cases h

/-- C6, as amended. For every snapshot, in a state a JavaScript object can be
in, and every backup slot that holds a serialized list of `N` elements (`N = 0`
when there is no slot), `handleSaveLocally` reads the slot, writes it once, sets
the status to the success message, calls the completion callback with the
unmodified snapshot and returns normally. The text that it leaves in the slot
is a serialized list of `N + 1` elements. Its first `N` elements are the images
of the previous ones, in the same order: what `JSON.parse` reads from what
`JSON.stringify` writes for them. A previous element is unchanged when it is
plain, that is when it holds no number that is not finite and no negative zero.
The last element is the image of the backup record, which is the snapshot with
`savedAt`, `id` and `type`: every property of the snapshot other than these three
is in it with the image of its value, unless the value is `undefined`, in which
case the property is left out; `savedAt` is the string of `toISOString` for the
first clock reading, which `Date.parse` reads back as that reading, `id` is
the decimal string of the second clock reading, digits with the value of the
reading and without a leading zero, and `type` is `'local_backup'`. When the snapshot is plain, the last element is the backup
record itself. -/
theorem handleSaveLocally_appends (s : State) (slot : Option Str) (items : List JSVal)
    (now1 now2 : Nat) (hvalid : JSON.valid (JSVal.obj s.formData) = true)
    (hslot : storedList slot = some items) :
    (handleSaveLocally true s slot now1 now2).events =
      [Event.getItem backupKey,
       Event.setItem backupKey ((JSON.stringify (JSVal.arr
          (items ++ [JSVal.obj (localBackup s.formData now1 now2)]))).getD "undefined".toList),
       Event.setUploadStatus (some [("type".toList, JSVal.str "success".toList),
          ("message".toList, JSVal.str "Summary saved locally as backup!".toList)]),
       Event.onSave s.formData] ∧
    (handleSaveLocally true s slot now1 now2).completion = Completion.normal ∧
    storedList (slotAfter slot (handleSaveLocally true s slot now1 now2).events)
      = some (items.map JSON.image
          ++ [JSVal.obj (JSON.imageFields (localBackup s.formData now1 now2))]) ∧
    (items.map JSON.image
      ++ [JSVal.obj (JSON.imageFields (localBackup s.formData now1 now2))]).length
        = items.length + 1 ∧
    (∀ x ∈ items, JSON.plain x = true → JSON.image x = x) ∧
    (∀ k, k ≠ "savedAt".toList → k ≠ "id".toList → k ≠ "type".toList →
      Record.lookup (JSON.imageFields (localBackup s.formData now1 now2)) k
        = (s.formData.lookup k).bind
            (fun v => if v = JSVal.undefined then none else some (JSON.image v))) ∧
    Record.lookup (JSON.imageFields (localBackup s.formData now1 now2)) "savedAt".toList
      = some (JSVal.str (toISOString now1)) ∧
    (now1 ≤ maxTimeValue → parseISODateTime (toISOString now1) = some (now1 : Int)) ∧
    Record.lookup (JSON.imageFields (localBackup s.formData now1 now2)) "id".toList
      = some (JSVal.str (natToString now2)) ∧
    ((∀ c ∈ natToString now2, c.isDigit = true) ∧ decimalValue (natToString now2) = now2 ∧
      natToString now2 ≠ [] ∧ (now2 ≠ 0 → ∀ c ∈ (natToString now2).head?, c ≠ '0')) ∧
    Record.lookup (JSON.imageFields (localBackup s.formData now1 now2)) "type".toList
      = some (JSVal.str "local_backup".toList) ∧
    (JSON.plainFields s.formData = true →
      JSON.imageFields (localBackup s.formData now1 now2) = localBackup s.formData now1 now2 ∧
      ∀ k, k ≠ "savedAt".toList → k ≠ "id".toList → k ≠ "type".toList →
        (localBackup s.formData now1 now2).lookup k = s.formData.lookup k) ∧
    (s.replay (handleSaveLocally true s slot now1 now2).events).uploadStatus
      = some [("type".toList, JSVal.str "success".toList),
          ("message".toList, JSVal.str "Summary saved locally as backup!".toList)] ∧
    (s.replay (handleSaveLocally true s slot now1 now2).events).formData = s.formData := by
  have hparse := storedTextOrDefault_of_storedList slot items hslot
  have hrun : handleSaveLocally true s slot now1 now2 =
      { events := [Event.getItem backupKey,
          Event.setItem backupKey ((JSON.stringify (JSVal.arr
            (items ++ [JSVal.obj (localBackup s.formData now1 now2)]))).getD "undefined".toList),
          Event.setUploadStatus (some (successStatus "Summary saved locally as backup!".toList)),
          Event.onSave s.formData],
        completion := Completion.normal } := by
    unfold handleSaveLocally
    simp only [hparse]
    rfl
  have hv := hvalid
  rw [JSON.valid] at hv
  simp only [Bool.and_eq_true, decide_eq_true_eq] at hv
  obtain ⟨hwf, hvf⟩ := hv
  obtain ⟨hother, h1, h2, h3⟩ := lookup_localBackup s.formData now1 now2 hwf
  have hitems := storedList_items_valid slot items hslot
  have hbackup := valid_localBackup s.formData now1 now2 hvf
  have hnd := (wf_localBackup s.formData now1 now2).1
  have himg : ∀ k, Record.lookup (JSON.imageFields (localBackup s.formData now1 now2)) k
      = ((localBackup s.formData now1 now2).lookup k).bind
          (fun v => if v = JSVal.undefined then none else some (JSON.image v)) :=
    fun k => JSON.lookup_imageFields _ hnd k
  have hall : JSON.valid (JSVal.arr (items ++ [JSVal.obj (localBackup s.formData now1 now2)]))
      = true := by
    rw [JSON.valid, JSON.validItems_iff]
    intro x hx
    simp only [List.mem_append, List.mem_singleton] at hx
    rcases hx with hx | rfl
    · exact (JSON.validItems_iff items).mp hitems x hx
    · exact hbackup
  obtain ⟨text, htext, hback⟩ := JSON.parse_stringify_image _ hall (by intro e; cases e)
  have hdigits := natToString_spec now2
  rw [hrun]
  refine ⟨rfl, rfl, ?_, by simp, ?_, ?_, ?_, parseISODateTime_toISOString now1, ?_,
    hdigits, ?_, ?_, rfl, rfl⟩
  · show storedList (some ((JSON.stringify (JSVal.arr
      (items ++ [JSVal.obj (localBackup s.formData now1 now2)]))).getD "undefined".toList)) = _
    rw [htext]
    simp only [Option.getD_some, storedList, hback]
    rw [JSON.image, JSON.imageItems_eq_map, List.map_append, List.map_singleton, JSON.image]
  · intro x hx hp
    exact JSON.image_of_clean x
      (JSON.clean_of_valid_plain x ((JSON.validItems_iff items).mp hitems x hx) hp)
  · intro k k1 k2 k3
    rw [himg k, hother k k1 k2 k3]
  · rw [himg, h1]; rfl
  · rw [himg, h2]; rfl
  · rw [himg, h3]; rfl
  · intro hp
    have hclean := JSON.clean_of_valid_plain _ hbackup (plain_localBackup s.formData now1 now2 hp)
    have := JSON.image_of_clean _ hclean
    rw [JSON.image] at this
    exact ⟨JSVal.obj.inj this, hother⟩

set_option maxRecDepth 100000 in
/-- A backup of the record of the example on a slot that holds one backup, with
a number in it: the slot then holds that backup and the new one. -/
theorem handleSaveLocally_appends_witness :
    storedList (some "[\x7b\"patientName\":\"John Roe\",\"age\":34.0\x7d]".toList)
      = some [JSVal.obj [("patientName".toList, JSVal.str "John Roe".toList),
          ("age".toList, JSVal.num "34".toList)]] ∧
    storedList (slotAfter (some "[\x7b\"patientName\":\"John Roe\",\"age\":34.0\x7d]".toList)
      (handleSaveLocally true (State.initial janeDoe)
        (some "[\x7b\"patientName\":\"John Roe\",\"age\":34.0\x7d]".toList)
        1793826000123 1793826000124).events)
      = some ([JSVal.obj [("patientName".toList, JSVal.str "John Roe".toList),
          ("age".toList, JSVal.num "34".toList)]].map JSON.image
        ++ [JSVal.obj (JSON.imageFields (localBackup janeDoe 1793826000123 1793826000124))]) ∧
    [JSVal.obj [("patientName".toList, JSVal.str "John Roe".toList),
          ("age".toList, JSVal.num "34".toList)]].map JSON.image
        ++ [JSVal.obj (JSON.imageFields (localBackup janeDoe 1793826000123 1793826000124))]
      = [JSVal.obj [("patientName".toList, JSVal.str "John Roe".toList),
          ("age".toList, JSVal.num "34".toList)],
         JSVal.obj (localBackup janeDoe 1793826000123 1793826000124)] :=
  ⟨by decide!,
   (handleSaveLocally_appends (State.initial janeDoe)
      (some "[\x7b\"patientName\":\"John Roe\",\"age\":34.0\x7d]".toList)
      [JSVal.obj [("patientName".toList, JSVal.str "John Roe".toList),
        ("age".toList, JSVal.num "34".toList)]]
      1793826000123 1793826000124 (by decide) (by decide!)).2.2.1,
   by decide!⟩

set_option maxRecDepth 100000 in
/-- C6 as stated fails. The slot holds the serialized list `[1e400]`: its one
element is the number `Infinity`. After `handleSaveLocally` on the record of
the example the slot holds a list of two elements, and the first one is `null`:
the previous element is not unchanged. The same happens to a negative zero,
which is stored as `0`. -/
theorem handleSaveLocally_changes_infinite_number :
    storedList (some "[1e400]".toList) = some [JSVal.num "Infinity".toList] ∧
    slotAfter (some "[1e400]".toList)
      (handleSaveLocally true (State.initial janeDoe) (some "[1e400]".toList) 1793826000123
        1793826000124).events
      = some "[null,\x7b\"patientName\":\"Jane Doe\",\"age\":\"34\",\"gender\":\"F\",\"symptoms\":\"cough\",\"diagnosis\":\"bronchitis\",\"savedAt\":\"2026-11-04T21:00:00.123Z\",\"id\":\"1793826000124\",\"type\":\"local_backup\"\x7d]".toList ∧
    storedList (slotAfter (some "[1e400]".toList)
      (handleSaveLocally true (State.initial janeDoe) (some "[1e400]".toList) 1793826000123
        1793826000124).events)
      = some [JSVal.null, JSVal.obj (localBackup janeDoe 1793826000123 1793826000124)] ∧
    (storedList (slotAfter (some "[-0]".toList)
      (handleSaveLocally true (State.initial janeDoe) (some "[-0]".toList) 1793826000123
        1793826000124).events)).map (fun stored => stored.head?)
      = some (some (JSVal.num "0".toList)) ∧
    storedList (some "[-0]".toList) = some [JSVal.num "-0".toList] := by
  decide!

end SummaryEditor
